import Mathlib

/-! # lucene-util: the segments_N / .si decoder of `lucene-analyzer/lucene_parser.go`

A shallow embedding of the Go decoder and of the varint writers of
`lucene-analyzer/main_test.go`, with the properties proved about them.

Modelling conventions

* A byte is a `Fin 256`; a Go `string` is the list of its bytes.
* An `io.Reader` over a file is the list of the bytes not yet read.  Every
  reader function returns a `Res`: the Go result value, the Go `error`
  (`none` is `nil`) and the reader after the call.
* Go `int` is taken to be 64 bits wide.  Signed machine integers are `Int`,
  bit patterns are `Nat`, and every conversion or wrapping operation is written
  out with `% 2 ^ w`.
* A Go `map[string]string` is an association list with unique keys, wrapped in
  `Option` so that the `nil` map (`none`) differs from the empty map.
* The reader functions give what the Go functions return when every `make`
  is granted.  When a `make` whose size is read from the input is refused, the
  process is terminated and nothing is returned: the section "Allocation"
  says when, and gives the outcome of a call in a runtime that grants requests
  up to a limit.
-/

namespace LuceneUtil

/-! ## Machine integers -/

/-- One byte. -/
abbrev Byte := Fin 256

/-- A Go string: a sequence of bytes. -/
abbrev GoString := List Byte

/-- Go conversion `byte(x)` of a non-negative bit pattern. -/
def toByte (n : Nat) : Byte := ⟨n % 256, Nat.mod_lt _ (by decide)⟩

/-- Go conversion to `int32` of a bit pattern (two's complement, wrapping). -/
def int32 (n : Nat) : Int :=
  if n % 2 ^ 32 < 2 ^ 31 then ((n % 2 ^ 32 : Nat) : Int) else ((n % 2 ^ 32 : Nat) : Int) - 2 ^ 32

/-- Go conversion to `int64` of a bit pattern (two's complement, wrapping). -/
def int64 (n : Nat) : Int :=
  if n % 2 ^ 64 < 2 ^ 63 then ((n % 2 ^ 64 : Nat) : Int) else ((n % 2 ^ 64 : Nat) : Int) - 2 ^ 64

/-- The 64-bit pattern of a signed integer (Go conversion to `uint64`). -/
def uint64 (i : Int) : Nat := (i % 2 ^ 64).toNat

/-- The 32-bit pattern of a signed integer (Go conversion to `uint32`). -/
def uint32 (i : Int) : Nat := (i % 2 ^ 32).toNat

/-- Wrapping 64-bit signed addition, as Go's `+=` on `int64`. -/
def add64 (a b : Int) : Int := int64 (uint64 (a + b))

/-- Big-endian value of a byte sequence (`binary.BigEndian.Uint32` / `Uint64`). -/
def beUint (bs : List Byte) : Nat := bs.foldl (fun acc b => acc * 256 + b.val) 0

/-- Little-endian value of a byte sequence (`binary.LittleEndian.Uint32`). -/
def leUint (bs : List Byte) : Nat := bs.foldr (fun b acc => b.val + 256 * acc) 0

/-! ## Errors and results -/

/-- The errors the decoder can produce or propagate. -/
inductive Error where
  /-- The value `io.EOF`: nothing could be read. -/
  | EOF
  /-- The value `io.ErrUnexpectedEOF`: the input ended inside a field. -/
  | ErrUnexpectedEOF
  /-- The error "invalid vInt (too long)". -/
  | invalidVInt
  /-- The error "invalid vLong (too long)". -/
  | invalidVLong
  /-- The error "negative string length". -/
  | negativeStringLength
  /-- The error "bad segments name". -/
  | badSegmentsName
  /-- The error `strconv.ErrSyntax` of `strconv.ParseInt`. -/
  | parseSyntax
  /-- The error `strconv.ErrRange` of `strconv.ParseInt`. -/
  | parseRange
  /-- The error "no segments_N file found". -/
  | noSegmentsFile
  /-- The error "bad segments magic". -/
  | badMagic
  /-- A failure of `os.ReadDir`. -/
  | readDirFailed
  /-- A failure of `os.Open`. -/
  | openFailed
  deriving DecidableEq, Repr

/-- Outcome of one reader call: the value, the error, and the reader afterwards. -/
structure Res (α : Type) where
  /-- The returned value. -/
  val : α
  /-- The returned error; `none` is Go's `nil`. -/
  err : Option Error
  /-- The bytes still unread after the call. -/
  rest : List Byte
  deriving DecidableEq, Repr

/-! ## Low-level readers -/

/-- The function `readExactly`: `io.ReadFull` into a fresh zeroed buffer of `n`
bytes.  A short read leaves the bytes that were read in front of the zeros and
exhausts the reader.  This is the result once `make([]byte, n)` has been
granted; the request precedes the read, and `readStringAborts` says when it is
refused for the one caller that takes `n` from the input. -/
def readExactly (r : List Byte) (n : Nat) : Res (List Byte) :=
  if n ≤ r.length then ⟨r.take n, none, r.drop n⟩
  else ⟨r ++ List.replicate (n - r.length) 0,
        some (if r.length = 0 then Error.EOF else Error.ErrUnexpectedEOF), []⟩

/-- The function `readBEInt32`. -/
def readBEInt32 (r : List Byte) : Res Int :=
  let b := readExactly r 4
  match b.err with
  | some e => ⟨0, some e, b.rest⟩
  | none => ⟨int32 (beUint b.val), none, b.rest⟩

/-- The function `readBELong`. -/
def readBELong (r : List Byte) : Res Int :=
  let b := readExactly r 8
  match b.err with
  | some e => ⟨0, some e, b.rest⟩
  | none => ⟨int64 (beUint b.val), none, b.rest⟩

/-- The function `readByte`. -/
def readByte (r : List Byte) : Res Byte :=
  match r with
  | [] => ⟨0, some Error.EOF, []⟩
  | b :: rest => ⟨b, none, rest⟩

/-- The loop of `readVInt`, with `k` iterations left; `result` is the bit
pattern of the accumulator. -/
def readVIntLoop : Nat → Nat → Nat → List Byte → Res Int
  | 0, _, _, r => ⟨0, some Error.invalidVInt, r⟩
  | k + 1, result, shift, r =>
    let b := readByte r
    match b.err with
    | some e => ⟨0, some e, b.rest⟩
    | none =>
      let result1 := result ||| (((b.val.val &&& 0x7F) <<< shift) % 2 ^ 64)
      if b.val.val &&& 0x80 = 0 then ⟨int64 result1, none, b.rest⟩
      else readVIntLoop k result1 (shift + 7) b.rest

/-- The function `readVInt`. -/
def readVInt (r : List Byte) : Res Int := readVIntLoop 5 0 0 r

/-- The loop of `readVLong`, with `k` iterations left. -/
def readVLongLoop : Nat → Nat → Nat → List Byte → Res Int
  | 0, _, _, r => ⟨0, some Error.invalidVLong, r⟩
  | k + 1, result, shift, r =>
    let b := readByte r
    match b.err with
    | some e => ⟨0, some e, b.rest⟩
    | none =>
      let result1 := result ||| (((b.val.val &&& 0x7F) <<< shift) % 2 ^ 64)
      if b.val.val &&& 0x80 = 0 then ⟨int64 result1, none, b.rest⟩
      else readVLongLoop k result1 (shift + 7) b.rest

/-- The function `readVLong`. -/
def readVLong (r : List Byte) : Res Int := readVLongLoop 10 0 0 r

/-- The function `readString`, once the buffer of `readExactly` has been
granted; `readStringAborts` says when the request is refused. -/
def readString (r : List Byte) : Res GoString :=
  let n := readVInt r
  match n.err with
  | some e => ⟨[], some e, n.rest⟩
  | none =>
    if n.val < 0 then ⟨[], some Error.negativeStringLength, n.rest⟩
    else if n.val = 0 then ⟨[], none, n.rest⟩
    else
      let b := readExactly n.rest n.val.toNat
      match b.err with
      | some e => ⟨[], some e, b.rest⟩
      | none => ⟨b.val, none, b.rest⟩

/-- The loop of `readSetOfStrings`, with `k` iterations left. -/
def readSetOfStringsLoop : Nat → List GoString → List Byte → Res (List GoString)
  | 0, out, r => ⟨out, none, r⟩
  | k + 1, out, r =>
    let s := readString r
    match s.err with
    | some e => ⟨[], some e, s.rest⟩
    | none => readSetOfStringsLoop k (out ++ [s.val]) s.rest

/-- The function `readSetOfStrings`, once `make([]string, 0, cnt)` and the
buffers of the strings have been granted; `readSetOfStringsAborts` says when a
request is refused. -/
def readSetOfStrings (r : List Byte) : Res (List GoString) :=
  let cnt := readVInt r
  match cnt.err with
  | some e => ⟨[], some e, cnt.rest⟩
  | none => readSetOfStringsLoop cnt.val.toNat [] cnt.rest

/-- A non-nil Go map from strings to strings: an association list with unique keys. -/
abbrev GoMap := List (GoString × GoString)

/-- The assignment `m[k] = v`. -/
def GoMap.set : GoMap → GoString → GoString → GoMap
  | [], k, v => [(k, v)]
  | (k1, v1) :: m, k, v => if k1 = k then (k, v) :: m else (k1, v1) :: GoMap.set m k v

/-- The loop of `readMapOfStrings`, with `k` iterations left. -/
def readMapOfStringsLoop : Nat → GoMap → List Byte → Res (Option GoMap)
  | 0, m, r => ⟨some m, none, r⟩
  | n + 1, m, r =>
    let k := readString r
    match k.err with
    | some e => ⟨none, some e, k.rest⟩
    | none =>
      let v := readString k.rest
      match v.err with
      | some e => ⟨none, some e, v.rest⟩
      | none => readMapOfStringsLoop n (m.set k.val v.val) v.rest

/-- The function `readMapOfStrings`, once `make(map[string]string, cnt)` and
the buffers of the strings have been granted; `readMapOfStringsAborts` says
when a request is refused. -/
def readMapOfStrings (r : List Byte) : Res (Option GoMap) :=
  let cnt := readVInt r
  match cnt.err with
  | some e => ⟨none, some e, cnt.rest⟩
  | none => readMapOfStringsLoop cnt.val.toNat [] cnt.rest

/-! ## The varint writers of `main_test.go` -/

/-- The loop of `writeVIntBytes` and of `writeVLongBytes`: the bytes written,
or `none` when `fuel` iterations do not reach the `return`.  The mask
`i & 0x7F` is `i % 128` and the arithmetic shift `i >>= 7` is the floor
division `i / 128`. -/
def writeVarLoop : Nat → Int → Option (List Byte)
  | 0, _ => none
  | fuel + 1, i =>
    let b := (i % 128).toNat
    let i1 := i / 128
    if i1 = 0 then some [toByte b]
    else (writeVarLoop fuel i1).map (fun bs => toByte (b ||| 0x80) :: bs)

/-- The function `writeVIntBytes`: the bytes appended to the buffer.  A
non-negative 64-bit argument needs at most nine iterations; on a negative one
the Go loop never returns, which is `none` here. -/
def writeVIntBytes (i : Int) : Option (List Byte) := writeVarLoop 10 i

/-- The function `writeVLongBytes`, whose body is that of `writeVIntBytes`. -/
def writeVLongBytes (i : Int) : Option (List Byte) := writeVarLoop 10 i

/-! ## Locating the latest segments_N file -/

/-- The bytes (UTF-8) of a string literal of the source. -/
def str (s : String) : GoString :=
  (s.toList.flatMap String.utf8EncodeChar).map (fun b => toByte b.toNat)

/-- The constant `CODEC_MAGIC`. -/
def CODEC_MAGIC : Int := 0x3fd76c17

/-- The constant `ID_LENGTH`. -/
def ID_LENGTH : Nat := 16

/-- The constant `SEGMENTS_PREFIX`. -/
def SEGMENTS_PREFIX : GoString := str "segments"

/-- The constant `SEGMENTS_GEN_FILE`. -/
def SEGMENTS_GEN_FILE : GoString := str "segments.gen"

/-- Go's `strings.HasPrefix`. -/
def HasPrefix (s pre : GoString) : Bool := pre.isPrefixOf s

/-- The value of one digit in `strconv.ParseUint`: `'0'..'9'` count 0..9 and,
after `lower(c) = c | 0x20`, `'a'..'z'` count 10..35; any other byte is a
syntax error (`none`). -/
def digitVal (c : Byte) : Option Nat :=
  if 48 ≤ c.val ∧ c.val ≤ 57 then some (c.val - 48)
  else if 97 ≤ (c.val ||| 0x20) ∧ (c.val ||| 0x20) ≤ 122 then some ((c.val ||| 0x20) - 97 + 10)
  else none

/-- The digit loop of Go's `strconv.ParseUint(s, 36, 64)`: `n` is the `uint64`
accumulator, the cutoff is `maxUint64/36 + 1` and the largest value is
`2^64 - 1`. -/
def ParseUintLoop : List Byte → Nat → Nat × Option Error
  | [], n => (n, none)
  | c :: cs, n =>
    match digitVal c with
    | none => (0, some Error.parseSyntax)
    | some d =>
      if d ≥ 36 then (0, some Error.parseSyntax)
      else if n ≥ (2 ^ 64 - 1) / 36 + 1 then (2 ^ 64 - 1, some Error.parseRange)
      else
        let n0 := (n * 36) % 2 ^ 64
        let n1 := (n0 + d) % 2 ^ 64
        if n1 < n0 ∨ n1 > 2 ^ 64 - 1 then (2 ^ 64 - 1, some Error.parseRange)
        else ParseUintLoop cs n1

/-- Go's `strconv.ParseUint(s, 36, 64)` (standard library). -/
def ParseUint (s : GoString) : Nat × Option Error :=
  match s with
  | [] => (0, some Error.parseSyntax)
  | _ :: _ => ParseUintLoop s 0

/-- Go's `strconv.ParseInt(s, 36, 64)` (standard library): an optional sign
`'+'` (43) or `'-'` (45), then `ParseUint`, then the signed range check. -/
def ParseInt (s0 : GoString) : Int × Option Error :=
  match s0 with
  | [] => (0, some Error.parseSyntax)
  | c :: cs =>
    let neg : Bool := c.val = 45
    let s := if c.val = 43 ∨ c.val = 45 then cs else s0
    let un := ParseUint s
    if un.2 = some Error.parseSyntax then (0, un.2)
    else if ¬ neg ∧ un.1 ≥ 2 ^ 63 then (2 ^ 63 - 1, some Error.parseRange)
    else if neg ∧ un.1 > 2 ^ 63 then (-2 ^ 63, some Error.parseRange)
    else
      let n := int64 un.1
      (if neg then int64 (uint64 (-n)) else n, none)

/-- The function `generationFromSegmentsFileName`. -/
def generationFromSegmentsFileName (name : GoString) : Int × Option Error :=
  if ¬ HasPrefix name (SEGMENTS_PREFIX ++ str "_") then (-1, some Error.badSegmentsName)
  else
    let suffix := name.drop (SEGMENTS_PREFIX.length + 1)
    let p := ParseInt suffix
    match p.2 with
    | some e => (-1, some e)
    | none => (p.1, none)

/-- An index directory as the decoder sees it: its path, the result of
`os.ReadDir` on it (the entry names, or `none` on failure) and, for each file
name, the result of `os.Open(filepath.Join(dir, name))` (the content of the
file, or `none` on failure).  A file that opens and cannot be read, such as a
directory, behaves as an empty one: every read fails and returns zero values. -/
structure IndexDir where
  /-- The directory path handed to `buildReport`. -/
  path : GoString
  /-- The entry names listed by `os.ReadDir`. -/
  entries : Option (List GoString)
  /-- The content of the file opened under a name. -/
  openFile : GoString → Option (List Byte)

/-- The loop of `findLatestSegmentsFile` over the directory entries, from the
state `bestName`, `bestGen`. -/
def findLatestLoop : List GoString → GoString → Int → GoString × Int
  | [], bestName, bestGen => (bestName, bestGen)
  | name :: fis, bestName, bestGen =>
    if ¬ HasPrefix name SEGMENTS_PREFIX then findLatestLoop fis bestName bestGen
    else if name = SEGMENTS_GEN_FILE then findLatestLoop fis bestName bestGen
    else if name = SEGMENTS_PREFIX then
      if bestGen < 0 then findLatestLoop fis name 0
      else findLatestLoop fis bestName bestGen
    else
      let g := generationFromSegmentsFileName name
      match g.2 with
      | some _ => findLatestLoop fis bestName bestGen
      | none =>
        if g.1 > bestGen then findLatestLoop fis name g.1
        else findLatestLoop fis bestName bestGen

/-- The function `findLatestSegmentsFile`. -/
def findLatestSegmentsFile (dir : IndexDir) : GoString × Option Error :=
  match dir.entries with
  | none => ([], some Error.readDirFailed)
  | some fis =>
    let best := findLatestLoop fis [] (-1)
    if best.1 = [] then ([], some Error.noSegmentsFile) else (best.1, none)

/-- The generation a selected commit file stands for: 0 for the bare name
"segments", the parsed suffix for a name "segments_N". -/
def generationOf (name : GoString) : Option Int :=
  if name = SEGMENTS_PREFIX then some 0
  else
    match generationFromSegmentsFileName name with
    | (g, none) => some g
    | (_, some _) => none

/-! ## Base-36 numerals, as the specification speaks of them -/

/-- The value of a base-36 digit: `'0'..'9'`, then `'a'..'z'` or `'A'..'Z'`
for 10..35. -/
def base36Digit (c : Byte) : Option Nat :=
  if 48 ≤ c.val ∧ c.val ≤ 57 then some (c.val - 48)
  else if 97 ≤ c.val ∧ c.val ≤ 122 then some (c.val - 87)
  else if 65 ≤ c.val ∧ c.val ≤ 90 then some (c.val - 55)
  else none

/-- The unbounded value of a sequence of base-36 digits read after the value
`n`; `none` when a byte is not a digit. -/
def base36Fold : List Byte → Nat → Option Nat
  | [], n => some n
  | c :: cs, n =>
    match base36Digit c with
    | none => none
    | some d => base36Fold cs (n * 36 + d)

/-- The integer denoted by a base-36 numeral: an optional sign followed by at
least one digit; `none` when the string is not such a numeral. -/
def base36Value (s : GoString) : Option Int :=
  match s with
  | [] => none
  | c :: cs =>
    if c.val = 45 then
      if cs = [] then none
      else
        match base36Fold cs 0 with
        | some u => some (-(u : Int))
        | none => none
    else if c.val = 43 then
      if cs = [] then none
      else
        match base36Fold cs 0 with
        | some u => some (u : Int)
        | none => none
    else
      match base36Fold s 0 with
      | some u => some (u : Int)
      | none => none

/-- What holds of the state `r` in which the loop of `findLatestSegmentsFile`
ends on the listing `fis` when started in the state `bn`, `bg`: the generation
has not decreased, bounds every parsed generation of the listing, is at least
0 when the bare name is listed, and belongs to the selected name. -/
def LoopPost (fis : List GoString) (bn : GoString) (bg : Int) (r : GoString × Int) : Prop :=
  bg ≤ r.2 ∧
  (∀ name ∈ fis, ∀ g, generationFromSegmentsFileName name = (g, none) → g ≤ r.2) ∧
  (SEGMENTS_PREFIX ∈ fis → 0 ≤ r.2) ∧
  ((r.1 = bn ∧ r.2 = bg) ∨
    (r.1 ∈ fis ∧ r.1 ≠ [] ∧ r.1 ≠ SEGMENTS_GEN_FILE ∧ generationOf r.1 = some r.2 ∧ 0 ≤ r.2))

/-! ## The .si decoder -/

/-- The function `readMap`: as `readMapOfStrings`, with the errors of the
string reads dropped. -/
def readMapLoop : Nat → GoMap → List Byte → Res (Option GoMap)
  | 0, m, r => ⟨some m, none, r⟩
  | n + 1, m, r =>
    let k := readString r
    let v := readString k.rest
    readMapLoop n (m.set k.val v.val) v.rest

/-- The function `readMap`, once `make(map[string]string, sz)` and the buffers
of the strings have been granted; `readMapAborts` says when a request is
refused. -/
def readMap (r : List Byte) : Res (Option GoMap) :=
  let sz := readVInt r
  match sz.err with
  | some e => ⟨none, some e, sz.rest⟩
  | none => readMapLoop sz.val.toNat [] sz.rest

/-- Go's `binary.Read(r, order, data)` for a fixed-size `data` of `size` bytes:
the buffer is filled with `io.ReadFull`; on a short read the error is returned
and `data` is left untouched (`none`), otherwise the bytes to decode into
`data` are returned. -/
def binaryRead (r : List Byte) (size : Nat) : Res (Option (List Byte)) :=
  let b := readExactly r size
  match b.err with
  | some e => ⟨none, some e, b.rest⟩
  | none => ⟨some b.val, none, b.rest⟩

/-- The value of a `byte` variable declared with `var` (hence 0) after
`binary.Read` into it. -/
def storedByte (data : Option (List Byte)) : Nat :=
  match data with
  | some [b] => b.val
  | _ => 0

/-- The value of an `int32` variable declared with `var` (hence 0) after
`binary.Read(r, binary.LittleEndian, ...)` into it. -/
def storedInt32 (data : Option (List Byte)) : Int :=
  match data with
  | some bs => int32 (leUint bs)
  | none => 0

/-- The four results of `parseSegmentSI`. -/
structure SIResult where
  /-- The document count. -/
  docCount : Int
  /-- The compound-file flag. -/
  isCompound : Bool
  /-- The diagnostics map. -/
  diag : Option GoMap
  /-- The error. -/
  err : Option Error
  deriving DecidableEq, Repr

/-- The function `parseSegmentSI`.  The `Version` struct holds three `int32`
fields, so `binary.Read` into it takes 12 bytes; `hasMin` is one byte and
`docCount` four bytes, little-endian. -/
def parseSegmentSI (dir : IndexDir) (segName : GoString) : SIResult :=
  match dir.openFile (segName ++ str ".si") with
  | none => ⟨0, false, none, some Error.openFailed⟩
  | some f =>
    let r1 := (readBEInt32 f).rest
    let r2 := (readString r1).rest
    let r3 := (readBEInt32 r2).rest
    let r4 := (readExactly r3 16).rest
    let r5 := (readString r4).rest
    let v := binaryRead r5 12
    let hm := binaryRead v.rest 1
    let hasMin := storedByte hm.val
    let r6 := if hasMin = 1 then (binaryRead hm.rest 12).rest else hm.rest
    let dc := binaryRead r6 4
    let docCount := storedInt32 dc.val
    let isCompound := readByte dc.rest
    let diag := readMap isCompound.rest
    ⟨docCount, isCompound.val.val = 1, diag.val, none⟩

/-! ## The segments_N decoder -/

/-- One digit of `hex.EncodeToString`: the character of `"0123456789abcdef"`
at index `n`. -/
def hexDigit (n : Nat) : Byte := toByte (if n < 10 then 48 + n else 87 + n)

/-- Go's `hex.EncodeToString`. -/
def EncodeToString (bs : List Byte) : GoString :=
  bs.flatMap (fun b => [hexDigit (b.val / 16), hexDigit (b.val % 16)])

/-- The struct `SegInfoSummary`. -/
structure SegInfoSummary where
  /-- The segment name. -/
  SegName : GoString
  /-- The segment id, in hex. -/
  SegID : GoString
  /-- The codec name. -/
  SegCodec : GoString
  /-- The document count of the .si file. -/
  MaxDoc : Int
  /-- The compound flag of the .si file. -/
  Compound : Bool
  /-- The file list; the decoder never fills it. -/
  Files : List GoString
  /-- The deletion generation. -/
  DelGen : Int
  /-- The deletion count. -/
  DelCount : Int
  /-- The field-infos generation. -/
  FieldInfosGen : Int
  /-- The doc-values generation. -/
  DVGen : Int
  /-- The soft-deleted count. -/
  SoftDelCount : Int
  /-- The secondary id, in hex; empty when absent. -/
  SciID : GoString
  /-- The diagnostics of the .si file. -/
  Extra : Option GoMap
  deriving DecidableEq, Repr

/-- The block "SCI ID (format > 9)" of `parseSegmentsFile`: the value of
`sciIdBytes` (`[]` is `nil`) and the reader afterwards.  The errors of the two
reads are dropped. -/
def readSciId (formatVer : Int) (r : List Byte) : Res (List Byte) :=
  if formatVer > 9 then
    let marker := readByte r
    if marker.val.val = 1 then
      let b := readExactly marker.rest ID_LENGTH
      ⟨b.val, none, b.rest⟩
    else ⟨[], none, marker.rest⟩
  else ⟨[], none, r⟩

/-- The loop over the doc-values update groups, with `j` iterations left: a
field number and a set of strings are read and dropped. -/
def skipDVLoop : Nat → List Byte → List Byte
  | 0, r => r
  | j + 1, r => skipDVLoop j (readSetOfStrings (readBEInt32 r).rest).rest

/-- The body of the segment loop of `parseSegmentsFile`: the summary appended
and the reader afterwards. -/
def parseSegment (dir : IndexDir) (formatVer : Int) (r : List Byte) :
    SegInfoSummary × List Byte :=
  let name := readString r
  let segIDBytes := readExactly name.rest ID_LENGTH
  let codec := readString segIDBytes.rest
  let si := parseSegmentSI dir name.val
  let delGen := readBELong codec.rest
  let delCount := readBEInt32 delGen.rest
  let fieldInfosGen := readBELong delCount.rest
  let dvGen := readBELong fieldInfosGen.rest
  let softDelCount := readBEInt32 dvGen.rest
  let sciIdBytes := readSciId formatVer softDelCount.rest
  let files := readSetOfStrings sciIdBytes.rest
  let numDV := readBEInt32 files.rest
  let r1 := skipDVLoop numDV.val.toNat numDV.rest
  ({ SegName := name.val
     SegID := EncodeToString segIDBytes.val
     SegCodec := codec.val
     MaxDoc := si.docCount
     Compound := si.isCompound
     Files := []
     DelGen := delGen.val
     DelCount := delCount.val
     FieldInfosGen := fieldInfosGen.val
     DVGen := dvGen.val
     SoftDelCount := softDelCount.val
     SciID := if sciIdBytes.val.length > 0 then EncodeToString sciIdBytes.val else []
     Extra := si.diag }, r1)

/-- The segment loop of `parseSegmentsFile`, with `n` iterations left. -/
def parseSegmentsLoop (dir : IndexDir) (formatVer : Int) :
    Nat → List SegInfoSummary → List Byte → List SegInfoSummary × List Byte
  | 0, summaries, r => (summaries, r)
  | n + 1, summaries, r =>
    let s := parseSegment dir formatVer r
    parseSegmentsLoop dir formatVer n (summaries ++ [s.1]) s.2

/-- What `parseSegmentsFile` keeps of the header of the commit file. -/
structure CommitHeader where
  /-- The format version. -/
  formatVer : Int
  /-- The segment count. -/
  numSegs : Int
  /-- The reader after the segment count. -/
  rest : List Byte
  deriving DecidableEq, Repr

/-- The steps of `parseSegmentsFile` between the magic check and the segment
count, on the reader `r` left after the magic; every error is dropped. -/
def readCommitHeader (r : List Byte) : CommitHeader :=
  let r1 := (readString r).rest
  let formatVer := readBEInt32 r1
  let r2 := (readExactly formatVer.rest 16).rest
  let sufLen := readByte r2
  let r3 := (readExactly sufLen.rest sufLen.val.val).rest
  let r4 := (readByte (readByte (readByte (readByte r3).rest).rest).rest).rest
  let r5 := (readBELong r4).rest
  let r6 := (readVLong r5).rest
  let numSegs := readBEInt32 r6
  ⟨formatVer.val, numSegs.val, numSegs.rest⟩

/-- The block `if numSegs > 0` of `parseSegmentsFile`: three bytes, the minimum
segment version, are read and dropped. -/
def skipMinSegmentVersion (numSegs : Int) (r : List Byte) : List Byte :=
  if numSegs > 0 then (readByte (readByte (readByte r).rest).rest).rest else r

/-- The function `parseSegmentsFile`: the summaries (`[]` is the `nil`
slice), the user data and the error. -/
def parseSegmentsFile (dir : IndexDir) (segFile : GoString) :
    List SegInfoSummary × Option GoMap × Option Error :=
  match dir.openFile segFile with
  | none => ([], none, some Error.openFailed)
  | some f =>
    let magic := readBEInt32 f
    if magic.val ≠ CODEC_MAGIC then ([], none, some Error.badMagic)
    else
      let h := readCommitHeader magic.rest
      let r7 := skipMinSegmentVersion h.numSegs h.rest
      let segs := parseSegmentsLoop dir h.formatVer h.numSegs.toNat [] r7
      let userData := readMapOfStrings segs.2
      (segs.1, userData.val, none)

/-! ## The report -/

/-- The struct `Report`. -/
structure Report where
  /-- The index directory. -/
  IndexPath : GoString
  /-- The commit file. -/
  SegmentsFile : GoString
  /-- The number of summaries. -/
  TotalSegments : Int
  /-- The sum of the document counts. -/
  TotalDocs : Int
  /-- The sum of the deletion counts. -/
  TotalDeletedDocs : Int
  /-- The sum of the soft-deleted counts. -/
  TotalSoftDeletedDocs : Int
  /-- The user data of the commit file. -/
  UserData : Option GoMap
  /-- The summaries. -/
  Segments : List SegInfoSummary
  /-- The notes. -/
  Notes : GoString
  deriving DecidableEq, Repr

/-- The summing loop of `buildReport` over the summaries, on the `int64`
accumulators `totalDocs`, `totalDeleted`, `totalSoftDeleted`. -/
def sumLoop : List SegInfoSummary → Int × Int × Int → Int × Int × Int
  | [], t => t
  | s :: ss, (totalDocs, totalDeleted, totalSoftDeleted) =>
    sumLoop ss (add64 totalDocs s.MaxDoc, add64 totalDeleted s.DelCount,
      add64 totalSoftDeleted s.SoftDelCount)

/-- The text of the field `Notes`. -/
def reportNotes : GoString :=
  str ("Parsed per Lucene90SegmentInfoFormat: segVersion (string), maxDoc (int32), "
    ++ "isCompound (byte), diagnostics, files, attributes.")

/-- The function `buildReport`: the report (`none` is the `nil` pointer) and
the error. -/
def buildReport (dir : IndexDir) : Option Report × Option Error :=
  let segFile := findLatestSegmentsFile dir
  match segFile.2 with
  | some e => (none, some e)
  | none =>
    let p := parseSegmentsFile dir segFile.1
    match p.2.2 with
    | some e => (none, some e)
    | none =>
      let t := sumLoop p.1 (0, 0, 0)
      (some { IndexPath := dir.path
              SegmentsFile := segFile.1
              TotalSegments := (p.1.length : Int)
              TotalDocs := t.1
              TotalDeletedDocs := t.2.1
              TotalSoftDeletedDocs := t.2.2
              UserData := p.2.1
              Segments := p.1
              Notes := reportNotes }, none)

/-! ## The layout of a commit file, as the decoder reads it -/

/-- The bytes of a varint, as `writeVIntBytes` writes them. -/
def encVInt (n : Nat) : List Byte := (writeVIntBytes (n : Int)).getD []

/-- The bytes of a 64-bit varint, as `writeVLongBytes` writes them. -/
def encVLong (n : Nat) : List Byte := (writeVLongBytes (n : Int)).getD []

/-- The four big-endian bytes of a 32-bit integer. -/
def encBE32 (v : Int) : List Byte :=
  [toByte (uint32 v / 2 ^ 24), toByte (uint32 v / 2 ^ 16), toByte (uint32 v / 2 ^ 8),
   toByte (uint32 v)]

/-- The eight big-endian bytes of a 64-bit integer. -/
def encBE64 (v : Int) : List Byte :=
  [toByte (uint64 v / 2 ^ 56), toByte (uint64 v / 2 ^ 48), toByte (uint64 v / 2 ^ 40),
   toByte (uint64 v / 2 ^ 32), toByte (uint64 v / 2 ^ 24), toByte (uint64 v / 2 ^ 16),
   toByte (uint64 v / 2 ^ 8), toByte (uint64 v)]

/-- A string: its length as a varint, then its bytes. -/
def encString (s : GoString) : List Byte := encVInt s.length ++ s

/-- A set of strings: the count as a varint, then the strings. -/
def encStringSet (ss : List GoString) : List Byte :=
  encVInt ss.length ++ ss.flatMap encString

/-- A string map: the count as a varint, then the keys and values in turn. -/
def encStringMap (kvs : List (GoString × GoString)) : List Byte :=
  encVInt kvs.length ++ kvs.flatMap (fun kv => encString kv.1 ++ encString kv.2)

/-- The map holding, for each key of a sequence of pairs, the value of its
last occurrence. -/
def mapOfPairs (kvs : List (GoString × GoString)) : GoMap :=
  kvs.foldl (fun m kv => m.set kv.1 kv.2) []

/-- One segment record of a commit file. -/
structure SegmentRecord where
  /-- The segment name. -/
  name : GoString
  /-- The 16-byte segment id. -/
  id : List Byte
  /-- The codec name. -/
  codec : GoString
  /-- The deletion generation. -/
  delGen : Int
  /-- The deletion count. -/
  delCount : Int
  /-- The field-infos generation. -/
  fieldInfosGen : Int
  /-- The doc-values generation. -/
  dvGen : Int
  /-- The soft-deleted count. -/
  softDelCount : Int
  /-- The secondary id, stored only when the format version exceeds 9. -/
  sciId : Option (List Byte)
  /-- The referenced files. -/
  files : List GoString
  /-- The doc-values update groups: a field number and a set of files each. -/
  dvUpdates : List (Int × List GoString)
  deriving DecidableEq, Repr

/-- The content of a commit file. -/
structure CommitFile where
  /-- The label string, "segments". -/
  label : GoString
  /-- The format version. -/
  formatVer : Int
  /-- The 16-byte id. -/
  id : List Byte
  /-- The suffix, behind its one-byte length. -/
  suffix : List Byte
  /-- The version triple and the created-with version: four bytes. -/
  versions : List Byte
  /-- The info version, a fixed64. -/
  infoVersion : Int
  /-- The counter, a varint64. -/
  counter : Nat
  /-- The minimum segment version: three bytes, stored when there are segments. -/
  minSegVersion : List Byte
  /-- The segment records. -/
  segments : List SegmentRecord
  /-- The pairs of the trailing user-data map. -/
  userData : List (GoString × GoString)
  deriving DecidableEq, Repr

/-- The bytes of the secondary id of a record: nothing up to format version 9,
afterwards the presence byte and, behind a presence byte 1, the 16 id bytes. -/
def encSciId (formatVer : Int) (sciId : Option (List Byte)) : List Byte :=
  if formatVer > 9 then
    match sciId with
    | some b => 1 :: b
    | none => [0]
  else []

/-- The bytes of one doc-values update group. -/
def encDVUpdate (u : Int × List GoString) : List Byte := encBE32 u.1 ++ encStringSet u.2

/-- The bytes of one segment record. -/
def encSegment (formatVer : Int) (s : SegmentRecord) : List Byte :=
  encString s.name ++ (s.id ++ (encString s.codec ++ (encBE64 s.delGen ++
    (encBE32 s.delCount ++ (encBE64 s.fieldInfosGen ++ (encBE64 s.dvGen ++
    (encBE32 s.softDelCount ++ (encSciId formatVer s.sciId ++ (encStringSet s.files ++
    (encBE32 (s.dvUpdates.length : Int) ++ s.dvUpdates.flatMap encDVUpdate))))))))))

/-- The bytes of a commit file up to and including the segment count `n`. -/
def encCommitHeader (c : CommitFile) (n : Int) : List Byte :=
  encBE32 CODEC_MAGIC ++ (encString c.label ++ (encBE32 c.formatVer ++ (c.id ++
    (toByte c.suffix.length :: (c.suffix ++ (c.versions ++ (encBE64 c.infoVersion ++
    (encVLong c.counter ++ encBE32 n))))))))

/-- The bytes of a commit file. -/
def encCommit (c : CommitFile) : List Byte :=
  encCommitHeader c (c.segments.length : Int) ++
    ((if c.segments.length > 0 then c.minSegVersion else []) ++
    (c.segments.flatMap (encSegment c.formatVer) ++ encStringMap c.userData))

/-- A string no longer than 2^31 - 1 bytes. -/
def wfString (s : GoString) : Prop := s.length < 2 ^ 31

/-- A sequence of fewer than 2^31 strings, each no longer than 2^31 - 1 bytes. -/
def wfStringSet (ss : List GoString) : Prop := ss.length < 2 ^ 31 ∧ ∀ s ∈ ss, wfString s

/-- A 32-bit signed integer. -/
def isInt32 (v : Int) : Prop := -2 ^ 31 ≤ v ∧ v < 2 ^ 31

/-- A 64-bit signed integer. -/
def isInt64 (v : Int) : Prop := -2 ^ 63 ≤ v ∧ v < 2 ^ 63

/-- A well-formed segment record: the fields have the sizes of their encodings. -/
def wfSegment (s : SegmentRecord) : Prop :=
  wfString s.name ∧ s.id.length = 16 ∧ wfString s.codec ∧
  isInt64 s.delGen ∧ isInt32 s.delCount ∧ isInt64 s.fieldInfosGen ∧ isInt64 s.dvGen ∧
  isInt32 s.softDelCount ∧ (∀ b ∈ s.sciId, b.length = 16) ∧
  wfStringSet s.files ∧ s.dvUpdates.length < 2 ^ 31 ∧
  ∀ u ∈ s.dvUpdates, isInt32 u.1 ∧ wfStringSet u.2

/-- A well-formed commit file: the fields have the sizes of their encodings. -/
def wfCommit (c : CommitFile) : Prop :=
  wfString c.label ∧ isInt32 c.formatVer ∧ c.id.length = 16 ∧ c.suffix.length < 256 ∧
  c.versions.length = 4 ∧ isInt64 c.infoVersion ∧ c.counter < 2 ^ 63 ∧
  c.minSegVersion.length = 3 ∧ c.segments.length < 2 ^ 31 ∧
  (∀ s ∈ c.segments, wfSegment s) ∧
  c.userData.length < 2 ^ 31 ∧ ∀ kv ∈ c.userData, wfString kv.1 ∧ wfString kv.2

/-- The summary the decoder is to produce for a segment record: the fields of
the record, with the document count, compound flag and diagnostics `si` of the
segment's .si file. -/
def summaryOf (formatVer : Int) (s : SegmentRecord) (si : SIResult) : SegInfoSummary :=
  { SegName := s.name
    SegID := EncodeToString s.id
    SegCodec := s.codec
    MaxDoc := si.docCount
    Compound := si.isCompound
    Files := []
    DelGen := s.delGen
    DelCount := s.delCount
    FieldInfosGen := s.fieldInfosGen
    DVGen := s.dvGen
    SoftDelCount := s.softDelCount
    SciID :=
      if formatVer > 9 then
        match s.sciId with
        | some b => EncodeToString b
        | none => []
      else []
    Extra := si.diag }

/-! ## The layout of a .si file, as the decoder reads it -/

/-- The four little-endian bytes of a 32-bit integer. -/
def encLE32 (v : Int) : List Byte :=
  [toByte (uint32 v), toByte (uint32 v / 2 ^ 8), toByte (uint32 v / 2 ^ 16),
   toByte (uint32 v / 2 ^ 24)]

/-- The content of a .si file. -/
structure SIFile where
  /-- The header magic, a big-endian fixed32. -/
  magic : Int
  /-- The codec name of the header. -/
  codec : GoString
  /-- The header version, a big-endian fixed32. -/
  version : Int
  /-- The 16-byte id of the header. -/
  id : List Byte
  /-- The suffix string of the header. -/
  suffix : GoString
  /-- The writer version: the 12 bytes read into the `Version` struct. -/
  writerVersion : List Byte
  /-- The minimum version, 12 bytes, behind a presence byte 1; absent behind 0. -/
  minVersion : Option (List Byte)
  /-- The document count, a little-endian fixed32. -/
  docCount : Int
  /-- The compound-file byte. -/
  compound : Byte
  /-- The pairs of the diagnostics map. -/
  diagnostics : List (GoString × GoString)
  deriving DecidableEq, Repr

/-- The bytes of a .si file. -/
def encSI (f : SIFile) : List Byte :=
  encBE32 f.magic ++ (encString f.codec ++ (encBE32 f.version ++ (f.id ++
    (encString f.suffix ++ (f.writerVersion ++
    ((match f.minVersion with
      | some m => 1 :: m
      | none => [0]) ++
    (encLE32 f.docCount ++ (f.compound :: encStringMap f.diagnostics))))))))

/-- A well-formed .si file: the fields have the sizes of their encodings. -/
def wfSI (f : SIFile) : Prop :=
  isInt32 f.magic ∧ wfString f.codec ∧ isInt32 f.version ∧ f.id.length = 16 ∧
  wfString f.suffix ∧ f.writerVersion.length = 12 ∧
  (∀ m ∈ f.minVersion, m.length = 12) ∧ isInt32 f.docCount ∧
  f.diagnostics.length < 2 ^ 31 ∧ ∀ kv ∈ f.diagnostics, wfString kv.1 ∧ wfString kv.2

/-- What the .si decoder is to return for a .si file. -/
def resultOfSI (f : SIFile) : SIResult :=
  ⟨f.docCount, f.compound.val = 1, some (mapOfPairs f.diagnostics), none⟩

instance (s : GoString) : Decidable (wfString s) := by
  unfold wfString; infer_instance

instance (ss : List GoString) : Decidable (wfStringSet ss) := by
  unfold wfStringSet; infer_instance

instance (v : Int) : Decidable (isInt32 v) := by
  unfold isInt32; infer_instance

instance (v : Int) : Decidable (isInt64 v) := by
  unfold isInt64; infer_instance

instance (s : SegmentRecord) : Decidable (wfSegment s) := by
  unfold wfSegment; infer_instance

instance (c : CommitFile) : Decidable (wfCommit c) := by
  unfold wfCommit; infer_instance

instance (f : SIFile) : Decidable (wfSI f) := by
  unfold wfSI; infer_instance

/-! ## Example indexes -/

/-- The commit file that `TestBuildReport` writes: format version 9, no
segments, empty user data. -/
def testCommit : CommitFile :=
  { label := str "segments"
    formatVer := 9
    id := List.replicate 16 0
    suffix := []
    versions := [9, 0, 0, 9]
    infoVersion := 1
    counter := 1
    minSegVersion := [9, 0, 0]
    segments := []
    userData := [] }

/-- The directory of `TestBuildReport`: the file "segments_1" alone. -/
def testDir : IndexDir :=
  { path := str "/tmp/test-report"
    entries := some [str "segments_1"]
    openFile := fun name => if name = str "segments_1" then some (encCommit testCommit) else none }

/-- A first example segment: no secondary id, no deletions. -/
def exampleSegment0 : SegmentRecord :=
  { name := str "_0"
    id := [0x00, 0x11, 0x22, 0x33, 0x44, 0x55, 0x66, 0x77, 0x88, 0x99, 0xaa, 0xbb, 0xcc, 0xdd,
           0xee, 0xff]
    codec := str "Lucene90"
    delGen := -1
    delCount := 0
    fieldInfosGen := -1
    dvGen := -1
    softDelCount := 0
    sciId := none
    files := [str "_0.cfs", str "_0.si"]
    dvUpdates := [] }

/-- A second example segment: a secondary id, a deletion count above the
document count of its .si file, one doc-values update group. -/
def exampleSegment1 : SegmentRecord :=
  { name := str "_1"
    id := List.replicate 16 0xab
    codec := str "Lucene90"
    delGen := 3
    delCount := 7
    fieldInfosGen := 2
    dvGen := 2
    softDelCount := 1
    sciId := some (List.replicate 16 0x5c)
    files := [str "_1.cfs"]
    dvUpdates := [(4, [str "_1_2.dvd"])] }

/-- An example commit file of format version 10 with two segments. -/
def exampleCommit : CommitFile :=
  { label := str "segments"
    formatVer := 10
    id := List.replicate 16 1
    suffix := []
    versions := [9, 4, 2, 9]
    infoVersion := 12
    counter := 300
    minSegVersion := [9, 4, 2]
    segments := [exampleSegment0, exampleSegment1]
    userData := [(str "k", str "v1"), (str "k", str "v2")] }

/-- An example .si file with the given document count and compound byte. -/
def exampleSI (docCount : Int) (compound : Byte) (minVersion : Option (List Byte)) : SIFile :=
  { magic := CODEC_MAGIC
    codec := str "Lucene90SegmentInfo"
    version := 0
    id := List.replicate 16 0xab
    suffix := []
    writerVersion := [9, 0, 0, 0, 4, 0, 0, 0, 2, 0, 0, 0]
    minVersion := minVersion
    docCount := docCount
    compound := compound
    diagnostics := [(str "source", str "flush")] }

/-- The .si file of each example segment, by segment name. -/
def exampleSIOf (name : GoString) : SIFile :=
  if name = str "_0" then exampleSI 1000 1 none
  else exampleSI 5 0 (some [9, 0, 0, 0, 0, 0, 0, 0, 0, 0, 0, 0])

/-- An example index directory: two commit files, the pointer file, and the
.si files of the two segments. -/
def exampleDir : IndexDir :=
  { path := str "/idx"
    entries := some [str "_0.si", str "_1.si", str "segments.gen", str "segments_1",
      str "segments_2"]
    openFile := fun name =>
      if name = str "segments_2" then some (encCommit exampleCommit)
      else if name = str "segments_1" then some (encCommit testCommit)
      else if name = str "_0.si" then some (encSI (exampleSIOf (str "_0")))
      else if name = str "_1.si" then some (encSI (exampleSIOf (str "_1")))
      else none }

/-! ## The fields of a .si file, byte by byte -/

/-- The fields of a .si file as raw bytes: the header (4 bytes, a string, 4
bytes, 16 bytes, a string), the writer version (the 12 bytes of the `Version`
struct), the presence byte, the minimum version (12 bytes behind a presence
byte 1, nothing otherwise), the 4 bytes of the document count, the compound
byte and the pairs of the diagnostics map. -/
structure SIFields where
  /-- The 4 bytes of the header magic. -/
  magic : List Byte
  /-- The codec name of the header. -/
  codec : GoString
  /-- The 4 bytes of the header version. -/
  version : List Byte
  /-- The 16 bytes of the header id. -/
  id : List Byte
  /-- The suffix string of the header. -/
  suffix : GoString
  /-- The writer version. -/
  writerVersion : List Byte
  /-- The presence byte of the minimum version. -/
  presence : Byte
  /-- The minimum version. -/
  minVersion : List Byte
  /-- The 4 bytes of the document count. -/
  docCount : List Byte
  deriving DecidableEq, Repr

/-- The header of a .si file, as bytes. -/
def encSIHeader (f : SIFields) : List Byte :=
  f.magic ++ (encString f.codec ++ (f.version ++ (f.id ++ encString f.suffix)))

/-- The bytes of a .si file up to and including the document count. -/
def encSIHead (f : SIFields) : List Byte :=
  f.magic ++ (encString f.codec ++ (f.version ++ (f.id ++ (encString f.suffix ++
    (f.writerVersion ++ (f.presence :: (f.minVersion ++ f.docCount)))))))

/-- Well-formed fields of a .si file: each has the size the decoder reads, the
minimum version being there if and only if the presence byte is 1. -/
def wfSIFields (f : SIFields) : Prop :=
  f.magic.length = 4 ∧ wfString f.codec ∧ f.version.length = 4 ∧ f.id.length = 16 ∧
  wfString f.suffix ∧ f.writerVersion.length = 12 ∧
  f.minVersion.length = (if f.presence.val = 1 then 12 else 0) ∧ f.docCount.length = 4

instance (f : SIFields) : Decidable (wfSIFields f) := by
  unfold wfSIFields; infer_instance

/-- The lookup `v, ok := m[k]` in a non-nil map. -/
def GoMap.get : GoMap → GoString → Option GoString
  | [], _ => none
  | (k1, v1) :: m, k => if k1 = k then some v1 else GoMap.get m k

/-- The value of the last pair with key `k` in a sequence of pairs. -/
def lastValue : List (GoString × GoString) → GoString → Option GoString
  | [], _ => none
  | (k1, v1) :: kvs, k =>
    match lastValue kvs k with
    | some v => some v
    | none => if k1 = k then some v1 else none

/-- An example .si header and writer version, for a file whose document count
is given by its 4 bytes. -/
def exampleSIFields (presence : Byte) (minVersion docCount : List Byte) : SIFields :=
  { magic := [0x3f, 0xd7, 0x6c, 0x17]
    codec := str "Lucene90SegmentInfo"
    version := [0, 0, 0, 0]
    id := List.replicate 16 0xab
    suffix := []
    writerVersion := [9, 0, 0, 0, 5, 0, 0, 0, 1, 0, 0, 0]
    presence := presence
    minVersion := minVersion
    docCount := docCount }

/-- A directory holding one file, under the name given. -/
def singleFileDir (name : GoString) (content : List Byte) : IndexDir :=
  { path := str "/idx"
    entries := some [name]
    openFile := fun n => if n = name then some content else none }

/-- An example commit file with one segment whose stored deletion count is -5. -/
def negativeCommit : CommitFile :=
  { label := str "segments"
    formatVer := 9
    id := List.replicate 16 1
    suffix := []
    versions := [9, 4, 2, 9]
    infoVersion := 3
    counter := 2
    minSegVersion := [9, 4, 2]
    segments := [{ exampleSegment0 with delCount := -5 }]
    userData := [] }

/-! ## A commit file cut off behind its header -/

/-- The bytes of a commit file in front of the segment count. -/
def encCommitPrefix (c : CommitFile) : List Byte :=
  encBE32 CODEC_MAGIC ++ (encString c.label ++ (encBE32 c.formatVer ++ (c.id ++
    (toByte c.suffix.length :: (c.suffix ++ (c.versions ++ (encBE64 c.infoVersion ++
    encVLong c.counter)))))))

/-- The summary emitted for a segment record that lies behind the end of the
input: every field read from the commit file is empty or zero, the id is the
hex of 16 zero bytes, and the document count, compound flag and diagnostics
are those the .si decoder returns for the empty segment name. -/
def summaryPastEnd (dir : IndexDir) : SegInfoSummary :=
  { SegName := []
    SegID := str "00000000000000000000000000000000"
    SegCodec := []
    MaxDoc := (parseSegmentSI dir []).docCount
    Compound := (parseSegmentSI dir []).isCompound
    Files := []
    DelGen := 0
    DelCount := 0
    FieldInfosGen := 0
    DVGen := 0
    SoftDelCount := 0
    SciID := []
    Extra := (parseSegmentSI dir []).diag }

/-! ## Allocation

The functions above give what the Go functions return when every `make` is
granted.  Some requests take their size from the input, before any of the data
asked for is read: the buffer of `readExactly` under `readString` (the length
of the string), the slice of `readSetOfStrings` and the maps of
`readMapOfStrings` and `readMap` (the count), and the slice of summaries of
`parseSegmentsFile`, which `append` grows to the declared number of segments.
When the runtime cannot provide the memory, the process is terminated inside
the call and nothing is returned.

A run is described relative to a number `limit`: the runtime grants a request
for at most `limit` elements and refuses a larger one.  The buffers of a fixed
size (the 4, 8, 12 and 16 byte fields, the suffix of at most 255 bytes and the
4096 bytes of `bufio.NewReader`) are taken to be granted. -/

/-- How a call ends: the process is terminated inside a `make` that the
runtime refuses, or the call returns. -/
inductive Outcome (α : Type) where
  /-- The process was terminated; nothing is returned. -/
  | aborted : Outcome α
  /-- The call returned. -/
  | returned : α → Outcome α
  deriving DecidableEq, Repr

/-- The outcome of a call that returns `a` unless it is terminated. -/
def outcome {α : Type} (aborts : Bool) (a : α) : Outcome α :=
  if aborts then Outcome.aborted else Outcome.returned a

/-- Whether the runtime refuses a request for `n` elements. -/
def refused (limit n : Nat) : Bool := decide (limit < n)

/-- Whether `readExactly(r, n)` is terminated: in `make([]byte, n)`, which
precedes the read, whatever the reader holds. -/
def readExactlyAborts (limit n : Nat) : Bool := refused limit n

/-- Whether `readString` is terminated: the length `n` has been read with no
error, and the function calls `readExactly(r, n)`.  For `n = 0` the function
returns before that call, and a request for no bytes is never refused. -/
def readStringAborts (limit : Nat) (r : List Byte) : Bool :=
  decide ((readVInt r).err = none) && readExactlyAborts limit (readVInt r).val.toNat

/-- Whether the loop of `readSetOfStrings`, with `k` iterations left, is
terminated: in a call of `readString`, as long as no read has failed. -/
def readSetOfStringsLoopAborts (limit : Nat) : Nat → List Byte → Bool
  | 0, _ => false
  | k + 1, r =>
    readStringAborts limit r ||
      (decide ((readString r).err = none) &&
        readSetOfStringsLoopAborts limit k (readString r).rest)

/-- Whether `readSetOfStrings` is terminated: the count `cnt` has been read
with no error, and the function asks for `make([]string, 0, cnt)` and then
runs its loop. -/
def readSetOfStringsAborts (limit : Nat) (r : List Byte) : Bool :=
  decide ((readVInt r).err = none) &&
    (refused limit (readVInt r).val.toNat ||
      readSetOfStringsLoopAborts limit (readVInt r).val.toNat (readVInt r).rest)

/-- Whether the loop of `readMapOfStrings`, with `n` iterations left, is
terminated: in the read of a key or of a value, as long as no read has
failed. -/
def readMapOfStringsLoopAborts (limit : Nat) : Nat → List Byte → Bool
  | 0, _ => false
  | n + 1, r =>
    readStringAborts limit r ||
      (decide ((readString r).err = none) &&
        (readStringAborts limit (readString r).rest ||
          (decide ((readString (readString r).rest).err = none) &&
            readMapOfStringsLoopAborts limit n (readString (readString r).rest).rest)))

/-- Whether `readMapOfStrings` is terminated: the count `cnt` has been read
with no error, and the function asks for `make(map[string]string, cnt)` and
then runs its loop. -/
def readMapOfStringsAborts (limit : Nat) (r : List Byte) : Bool :=
  decide ((readVInt r).err = none) &&
    (refused limit (readVInt r).val.toNat ||
      readMapOfStringsLoopAborts limit (readVInt r).val.toNat (readVInt r).rest)

/-- Whether the loop of `readMap`, with `n` iterations left, is terminated: in
the read of a key or of a value; the loop goes on after a failed read. -/
def readMapLoopAborts (limit : Nat) : Nat → List Byte → Bool
  | 0, _ => false
  | n + 1, r =>
    readStringAborts limit r || readStringAborts limit (readString r).rest ||
      readMapLoopAborts limit n (readString (readString r).rest).rest

/-- Whether `readMap` is terminated: the count `sz` has been read with no
error, and the function asks for `make(map[string]string, sz)` and then runs
its loop. -/
def readMapAborts (limit : Nat) (r : List Byte) : Bool :=
  decide ((readVInt r).err = none) &&
    (refused limit (readVInt r).val.toNat ||
      readMapLoopAborts limit (readVInt r).val.toNat (readVInt r).rest)

/-- Whether `parseSegmentSI` is terminated: in the read of the codec name or
of the suffix of the header, or in `readMap`; never when the file does not
open. -/
def parseSegmentSIAborts (limit : Nat) (dir : IndexDir) (segName : GoString) : Bool :=
  match dir.openFile (segName ++ str ".si") with
  | none => false
  | some f =>
    let r1 := (readBEInt32 f).rest
    let r2 := (readString r1).rest
    let r3 := (readBEInt32 r2).rest
    let r4 := (readExactly r3 16).rest
    let r5 := (readString r4).rest
    let v := binaryRead r5 12
    let hm := binaryRead v.rest 1
    let hasMin := storedByte hm.val
    let r6 := if hasMin = 1 then (binaryRead hm.rest 12).rest else hm.rest
    let dc := binaryRead r6 4
    let isCompound := readByte dc.rest
    readStringAborts limit r1 || readStringAborts limit r4 ||
      readMapAborts limit isCompound.rest

/-- The outcome of `parseSegmentSI`. -/
def parseSegmentSIRun (limit : Nat) (dir : IndexDir) (segName : GoString) :
    Outcome SIResult :=
  outcome (parseSegmentSIAborts limit dir segName) (parseSegmentSI dir segName)

/-- Whether the loop over the doc-values update groups, with `j` iterations
left, is terminated: in a call of `readSetOfStrings`. -/
def skipDVLoopAborts (limit : Nat) : Nat → List Byte → Bool
  | 0, _ => false
  | j + 1, r =>
    readSetOfStringsAborts limit (readBEInt32 r).rest ||
      skipDVLoopAborts limit j (readSetOfStrings (readBEInt32 r).rest).rest

/-- Whether the body of the segment loop of `parseSegmentsFile` is terminated:
in the read of the name or of the codec, in `parseSegmentSI`, or in a call of
`readSetOfStrings`. -/
def parseSegmentAborts (limit : Nat) (dir : IndexDir) (formatVer : Int) (r : List Byte) :
    Bool :=
  let name := readString r
  let segIDBytes := readExactly name.rest ID_LENGTH
  let codec := readString segIDBytes.rest
  let delGen := readBELong codec.rest
  let delCount := readBEInt32 delGen.rest
  let fieldInfosGen := readBELong delCount.rest
  let dvGen := readBELong fieldInfosGen.rest
  let softDelCount := readBEInt32 dvGen.rest
  let sciIdBytes := readSciId formatVer softDelCount.rest
  let files := readSetOfStrings sciIdBytes.rest
  let numDV := readBEInt32 files.rest
  readStringAborts limit r || readStringAborts limit segIDBytes.rest ||
    parseSegmentSIAborts limit dir name.val ||
    readSetOfStringsAborts limit sciIdBytes.rest ||
    skipDVLoopAborts limit numDV.val.toNat numDV.rest

/-- Whether the segment loop of `parseSegmentsFile`, with `n` iterations left,
is terminated in one of its bodies. -/
def parseSegmentsLoopAborts (limit : Nat) (dir : IndexDir) (formatVer : Int) :
    Nat → List Byte → Bool
  | 0, _ => false
  | n + 1, r =>
    parseSegmentAborts limit dir formatVer r ||
      parseSegmentsLoopAborts limit dir formatVer n (parseSegment dir formatVer r).2

/-- Whether `parseSegmentsFile` is terminated: in the read of the label, in
the segment loop, whose slice of summaries grows to `numSegs` elements
whatever the input holds, or in `readMapOfStrings`; never when the file does
not open or the magic differs. -/
def parseSegmentsFileAborts (limit : Nat) (dir : IndexDir) (segFile : GoString) : Bool :=
  match dir.openFile segFile with
  | none => false
  | some f =>
    let magic := readBEInt32 f
    if magic.val ≠ CODEC_MAGIC then false
    else
      let h := readCommitHeader magic.rest
      let r7 := skipMinSegmentVersion h.numSegs h.rest
      let segs := parseSegmentsLoop dir h.formatVer h.numSegs.toNat [] r7
      readStringAborts limit magic.rest || refused limit h.numSegs.toNat ||
        parseSegmentsLoopAborts limit dir h.formatVer h.numSegs.toNat r7 ||
        readMapOfStringsAborts limit segs.2

/-- Whether `buildReport` is terminated: in `parseSegmentsFile`, once a commit
file has been found. -/
def buildReportAborts (limit : Nat) (dir : IndexDir) : Bool :=
  match (findLatestSegmentsFile dir).2 with
  | some _ => false
  | none => parseSegmentsFileAborts limit dir (findLatestSegmentsFile dir).1

/-- The outcome of `readString`. -/
def readStringRun (limit : Nat) (r : List Byte) : Outcome (Res GoString) :=
  outcome (readStringAborts limit r) (readString r)

/-- The outcome of `readMapOfStrings`. -/
def readMapOfStringsRun (limit : Nat) (r : List Byte) : Outcome (Res (Option GoMap)) :=
  outcome (readMapOfStringsAborts limit r) (readMapOfStrings r)

/-- The outcome of `parseSegmentsFile`. -/
def parseSegmentsFileRun (limit : Nat) (dir : IndexDir) (segFile : GoString) :
    Outcome (List SegInfoSummary × Option GoMap × Option Error) :=
  outcome (parseSegmentsFileAborts limit dir segFile) (parseSegmentsFile dir segFile)

/-- The outcome of `buildReport`. -/
def buildReportRun (limit : Nat) (dir : IndexDir) : Outcome (Option Report × Option Error) :=
  outcome (buildReportAborts limit dir) (buildReport dir)

/-- A directory that holds a commit file and one other file. -/
def twoFileDir (segFile : GoString) (content : List Byte) (other : GoString)
    (otherContent : List Byte) : IndexDir :=
  ⟨str "/index", some [segFile, other],
    fun n => if n = segFile then some content else if n = other then some otherContent
      else none⟩

/-! ## Facts about bytes and machine integers -/

theorem toByte_val (n : Nat) : (toByte n).val = n % 256 := rfl

theorem low7_terminal : ∀ b, b < 128 →
    (toByte b).val &&& 0x7F = b ∧ (toByte b).val &&& 0x80 = 0 := by
  decide

theorem low7_continued : ∀ b, b < 128 →
    (toByte (b ||| 0x80)).val &&& 0x7F = b ∧ (toByte (b ||| 0x80)).val &&& 0x80 ≠ 0 := by
  decide

theorem or_shift_eq_add (result c shift : Nat) (h : result < 2 ^ shift)
    (hb : result + c * 2 ^ shift < 2 ^ 64) :
    result ||| ((c <<< shift) % 2 ^ 64) = result + c * 2 ^ shift := by
  have h1 : c * 2 ^ shift < 2 ^ 64 := by omega
  rw [Nat.shiftLeft_eq, Nat.mod_eq_of_lt h1, Nat.or_comm, Nat.mul_comm c,
    ← Nat.mul_add_lt_is_or h c]
  omega

theorem int64_of_lt (n : Nat) (h : n < 2 ^ 63) : int64 n = (n : Int) := by
  unfold int64
  have h1 : n % 2 ^ 64 = n := Nat.mod_eq_of_lt (by omega)
  rw [h1, if_pos h]

/-! ## Varint round trip -/

theorem writeVarLoop_natCast_succ (fuel n : Nat) :
    writeVarLoop (fuel + 1) (n : Int) =
      if n / 128 = 0 then some [toByte (n % 128)]
      else (writeVarLoop fuel ((n / 128 : Nat) : Int)).map
        (fun bs => toByte (n % 128 ||| 0x80) :: bs) := by
  have h1 : ((n : Int) % 128).toNat = n % 128 := by omega
  have h2 : (n : Int) / 128 = ((n / 128 : Nat) : Int) := by omega
  rw [writeVarLoop]
  simp only [h1, h2]
  by_cases h : n / 128 = 0
  · have h3 : ((n / 128 : Nat) : Int) = 0 := by omega
    rw [if_pos h, if_pos h3]
  · have h3 : ¬ ((n / 128 : Nat) : Int) = 0 := by omega
    rw [if_neg h, if_neg h3]

/-- The bytes written for a natural number that fits in `7 * (fuel + 1)` bits
are decoded by `readVIntLoop` to that number added above the accumulator. -/
theorem readVIntLoop_write (fuel : Nat) : ∀ (n k result shift : Nat),
    n < 128 ^ (fuel + 1) → fuel < k → result < 2 ^ shift →
    result + n * 2 ^ shift < 2 ^ 63 →
    ∃ bs, writeVarLoop (fuel + 1) (n : Int) = some bs ∧ bs.length ≤ fuel + 1 ∧
      ∀ rest, readVIntLoop k result shift (bs ++ rest)
        = ⟨((result + n * 2 ^ shift : Nat) : Int), none, rest⟩ := by
  induction fuel with
  | zero =>
    intro n k result shift hn hk hr hb
    have hn1 : n < 128 := by simpa using hn
    obtain ⟨k, rfl⟩ : ∃ j, k = j + 1 := ⟨k - 1, by omega⟩
    refine ⟨[toByte n], ?_, by simp, ?_⟩
    · rw [writeVarLoop_natCast_succ]
      have : n / 128 = 0 := by omega
      have h2 : n % 128 = n := by omega
      rw [if_pos this, h2]
    · intro rest
      obtain ⟨h7, h8⟩ := low7_terminal n hn1
      simp only [List.singleton_append, readVIntLoop, readByte, h7, h8, if_true]
      rw [or_shift_eq_add result n shift hr (by omega), int64_of_lt _ hb]
  | succ fuel ih =>
    intro n k result shift hn hk hr hb
    obtain ⟨k, rfl⟩ : ∃ j, k = j + 1 := ⟨k - 1, by omega⟩
    rw [writeVarLoop_natCast_succ]
    by_cases h0 : n / 128 = 0
    · refine ⟨[toByte (n % 128)], by rw [if_pos h0], by simp, ?_⟩
      intro rest
      have hn1 : n < 128 := by omega
      have h2 : n % 128 = n := by omega
      obtain ⟨h7, h8⟩ := low7_terminal n hn1
      simp only [h2, List.singleton_append, readVIntLoop, readByte, h7, h8, if_true]
      rw [or_shift_eq_add result n shift hr (by omega), int64_of_lt _ hb]
    · have hq : n / 128 < 128 ^ (fuel + 1) := by
        rw [Nat.div_lt_iff_lt_mul (by decide)]
        calc n < 128 ^ (fuel + 1 + 1) := hn
          _ = 128 ^ (fuel + 1) * 128 := by ring
      have hsplit : n = n % 128 + 128 * (n / 128) := (Nat.mod_add_div n 128).symm
      have hpow : 2 ^ (shift + 7) = 2 ^ shift * 128 := by rw [pow_add]; norm_num
      have hlow : n % 128 < 128 := Nat.mod_lt _ (by decide)
      have hmul : n * 2 ^ shift
          = n % 128 * 2 ^ shift + n / 128 * 2 ^ (shift + 7) := by
        rw [hpow]
        conv_lhs => rw [hsplit]
        ring
      have hr1 : result + n % 128 * 2 ^ shift < 2 ^ (shift + 7) := by
        rw [hpow]
        have : n % 128 * 2 ^ shift ≤ 127 * 2 ^ shift := Nat.mul_le_mul_right _ (by omega)
        omega
      have hb1 : result + n % 128 * 2 ^ shift + n / 128 * 2 ^ (shift + 7) < 2 ^ 63 := by
        omega
      obtain ⟨bs, hw, hlen, hrd⟩ := ih (n / 128) k (result + n % 128 * 2 ^ shift)
        (shift + 7) hq (by omega) hr1 hb1
      refine ⟨toByte (n % 128 ||| 0x80) :: bs, by rw [if_neg h0, hw]; rfl, by simp; omega, ?_⟩
      intro rest
      obtain ⟨h7, h8⟩ := low7_continued (n % 128) hlow
      simp only [List.cons_append, readVIntLoop, readByte, h7, h8, if_false]
      rw [or_shift_eq_add result (n % 128) shift hr (by omega), hrd rest, hmul]
      congr 2
      omega

/-- The bytes written for a natural number that fits in `7 * (fuel + 1)` bits
are decoded by `readVLongLoop` as well, to that number added above the accumulator. -/
theorem readVLongLoop_write (fuel : Nat) : ∀ (n k result shift : Nat),
    n < 128 ^ (fuel + 1) → fuel < k → result < 2 ^ shift →
    result + n * 2 ^ shift < 2 ^ 63 →
    ∃ bs, writeVarLoop (fuel + 1) (n : Int) = some bs ∧ bs.length ≤ fuel + 1 ∧
      ∀ rest, readVLongLoop k result shift (bs ++ rest)
        = ⟨((result + n * 2 ^ shift : Nat) : Int), none, rest⟩ := by
  induction fuel with
  | zero =>
    intro n k result shift hn hk hr hb
    have hn1 : n < 128 := by simpa using hn
    obtain ⟨k, rfl⟩ : ∃ j, k = j + 1 := ⟨k - 1, by omega⟩
    refine ⟨[toByte n], ?_, by simp, ?_⟩
    · rw [writeVarLoop_natCast_succ]
      have : n / 128 = 0 := by omega
      have h2 : n % 128 = n := by omega
      rw [if_pos this, h2]
    · intro rest
      obtain ⟨h7, h8⟩ := low7_terminal n hn1
      simp only [List.singleton_append, readVLongLoop, readByte, h7, h8, if_true]
      rw [or_shift_eq_add result n shift hr (by omega), int64_of_lt _ hb]
  | succ fuel ih =>
    intro n k result shift hn hk hr hb
    obtain ⟨k, rfl⟩ : ∃ j, k = j + 1 := ⟨k - 1, by omega⟩
    rw [writeVarLoop_natCast_succ]
    by_cases h0 : n / 128 = 0
    · refine ⟨[toByte (n % 128)], by rw [if_pos h0], by simp, ?_⟩
      intro rest
      have hn1 : n < 128 := by omega
      have h2 : n % 128 = n := by omega
      obtain ⟨h7, h8⟩ := low7_terminal n hn1
      simp only [h2, List.singleton_append, readVLongLoop, readByte, h7, h8, if_true]
      rw [or_shift_eq_add result n shift hr (by omega), int64_of_lt _ hb]
    · have hq : n / 128 < 128 ^ (fuel + 1) := by
        rw [Nat.div_lt_iff_lt_mul (by decide)]
        calc n < 128 ^ (fuel + 1 + 1) := hn
          _ = 128 ^ (fuel + 1) * 128 := by ring
      have hsplit : n = n % 128 + 128 * (n / 128) := (Nat.mod_add_div n 128).symm
      have hpow : 2 ^ (shift + 7) = 2 ^ shift * 128 := by rw [pow_add]; norm_num
      have hlow : n % 128 < 128 := Nat.mod_lt _ (by decide)
      have hmul : n * 2 ^ shift
          = n % 128 * 2 ^ shift + n / 128 * 2 ^ (shift + 7) := by
        rw [hpow]
        conv_lhs => rw [hsplit]
        ring
      have hr1 : result + n % 128 * 2 ^ shift < 2 ^ (shift + 7) := by
        rw [hpow]
        have : n % 128 * 2 ^ shift ≤ 127 * 2 ^ shift := Nat.mul_le_mul_right _ (by omega)
        omega
      have hb1 : result + n % 128 * 2 ^ shift + n / 128 * 2 ^ (shift + 7) < 2 ^ 63 := by
        omega
      obtain ⟨bs, hw, hlen, hrd⟩ := ih (n / 128) k (result + n % 128 * 2 ^ shift)
        (shift + 7) hq (by omega) hr1 hb1
      refine ⟨toByte (n % 128 ||| 0x80) :: bs, by rw [if_neg h0, hw]; rfl, by simp; omega, ?_⟩
      intro rest
      obtain ⟨h7, h8⟩ := low7_continued (n % 128) hlow
      simp only [List.cons_append, readVLongLoop, readByte, h7, h8, if_false]
      rw [or_shift_eq_add result (n % 128) shift hr (by omega), hrd rest, hmul]
      congr 2
      omega

theorem writeVarLoop_mono (f : Nat) : ∀ (g : Nat) (i : Int) (bs : List Byte),
    writeVarLoop f i = some bs → f ≤ g → writeVarLoop g i = some bs := by
  induction f with
  | zero => intro g i bs h; simp [writeVarLoop] at h
  | succ f ih =>
    intro g i bs h hg
    obtain ⟨g, rfl⟩ : ∃ j, g = j + 1 := ⟨g - 1, by omega⟩
    rw [writeVarLoop] at h ⊢
    by_cases h0 : i / 128 = 0
    · simpa [h0] using h
    · simp only [h0, if_false] at h ⊢
      cases hw : writeVarLoop f (i / 128) with
      | none => simp [hw] at h
      | some t =>
        rw [hw] at h
        rw [ih g (i / 128) t hw (by omega)]
        exact h

/-- C10. Varint round trip: for every integer n with 0 <= n <= 2^31 - 1 the
bytes produced by writeVIntBytes(n) are read back by readVInt as n, with no
error and with the reader left directly after them; and for every n with
0 <= n <= 2^63 - 1 the same holds of writeVLongBytes and readVLong. -/
theorem varint_round_trip (n : Int) (h0 : 0 ≤ n) :
    (n ≤ 2 ^ 31 - 1 → ∃ bs, writeVIntBytes n = some bs ∧
        ∀ rest, readVInt (bs ++ rest) = ⟨n, none, rest⟩) ∧
    (n ≤ 2 ^ 63 - 1 → ∃ bs, writeVLongBytes n = some bs ∧
        ∀ rest, readVLong (bs ++ rest) = ⟨n, none, rest⟩) := by
  obtain ⟨m, rfl⟩ := Int.eq_ofNat_of_zero_le h0
  constructor
  · intro h
    have hm : m < 128 ^ (4 + 1) := by norm_num; omega
    obtain ⟨bs, hw, _, hr⟩ := readVIntLoop_write 4 m 5 0 0 hm (by omega) (by norm_num)
      (by norm_num; omega)
    refine ⟨bs, writeVarLoop_mono 5 10 _ bs hw (by omega), ?_⟩
    intro rest
    have := hr rest
    simpa [readVInt] using this
  · intro h
    have hm : m < 128 ^ (8 + 1) := by norm_num; omega
    obtain ⟨bs, hw, _, hr⟩ := readVLongLoop_write 8 m 10 0 0 hm (by omega) (by norm_num)
      (by norm_num; omega)
    refine ⟨bs, writeVarLoop_mono 9 10 _ bs hw (by omega), ?_⟩
    intro rest
    have := hr rest
    simpa [readVLong] using this

/-- C10 at n = 300, a two-byte encoding. -/
theorem varint_round_trip_witness :
    (∃ bs, writeVIntBytes 300 = some bs ∧
        ∀ rest, readVInt (bs ++ rest) = ⟨300, none, rest⟩) ∧
    (∃ bs, writeVLongBytes 300 = some bs ∧
        ∀ rest, readVLong (bs ++ rest) = ⟨300, none, rest⟩) :=
  ⟨(varint_round_trip 300 (by decide)).1 (by decide),
   (varint_round_trip 300 (by decide)).2 (by decide)⟩

/-! ## The base-36 parser -/

set_option maxRecDepth 100000 in
theorem digitVal_eq_base36Digit : ∀ c : Byte, digitVal c = base36Digit c := by
  decide

theorem base36Digit_lt (c : Byte) (d : Nat) (h : base36Digit c = some d) : d < 36 := by
  unfold base36Digit at h
  split_ifs at h <;> simp at h <;> omega

theorem base36Fold_ge : ∀ (cs : List Byte) (n v : Nat), base36Fold cs n = some v → n ≤ v := by
  intro cs
  induction cs with
  | nil => intro n v h; simp [base36Fold] at h; omega
  | cons c cs ih =>
    intro n v h
    rw [base36Fold] at h
    cases hd : base36Digit c with
    | none => simp [hd] at h
    | some d =>
      simp only [hd] at h
      have := ih _ _ h
      omega

/-- On a digit sequence whose value fits in 64 bits the loop of `ParseUint`
returns that value. -/
theorem ParseUintLoop_of_fold : ∀ (cs : List Byte) (n v : Nat),
    base36Fold cs n = some v → v < 2 ^ 64 → ParseUintLoop cs n = (v, none) := by
  intro cs
  induction cs with
  | nil => intro n v h _; simp [base36Fold] at h; simp [ParseUintLoop, h]
  | cons c cs ih =>
    intro n v h hv
    rw [base36Fold] at h
    cases hd : base36Digit c with
    | none => simp [hd] at h
    | some d =>
      simp only [hd] at h
      have hge := base36Fold_ge _ _ _ h
      have hd36 := base36Digit_lt c d hd
      rw [ParseUintLoop, digitVal_eq_base36Digit, hd]
      have h1 : ¬ d ≥ 36 := by omega
      have h2 : ¬ n ≥ (2 ^ 64 - 1) / 36 + 1 := by omega
      have h3 : n * 36 % 2 ^ 64 = n * 36 := Nat.mod_eq_of_lt (by omega)
      have h4 : (n * 36 + d) % 2 ^ 64 = n * 36 + d := Nat.mod_eq_of_lt (by omega)
      have h5 : ¬ (n * 36 + d < n * 36 ∨ n * 36 + d > 2 ^ 64 - 1) := by omega
      simp only [h1, h2, h3, h4, h5, if_false]
      exact ih _ _ h hv

/-- The loop of `ParseUint` fails with a syntax error and 0, or with a range
error and the largest value, unless the digits denote a 64-bit value. -/
theorem ParseUintLoop_cases : ∀ (cs : List Byte) (n : Nat), n < 2 ^ 64 →
    (∃ v, base36Fold cs n = some v ∧ v < 2 ^ 64 ∧ ParseUintLoop cs n = (v, none)) ∨
    ((base36Fold cs n = none ∨ ∃ v, base36Fold cs n = some v ∧ 2 ^ 64 ≤ v) ∧
      (ParseUintLoop cs n = (0, some Error.parseSyntax) ∨
       ParseUintLoop cs n = (2 ^ 64 - 1, some Error.parseRange))) := by
  intro cs
  induction cs with
  | nil => intro n hn; left; exact ⟨n, rfl, hn, rfl⟩
  | cons c cs ih =>
    intro n hn
    rw [base36Fold, ParseUintLoop, digitVal_eq_base36Digit]
    cases hd : base36Digit c with
    | none => right; simp
    | some d =>
      have hd36 := base36Digit_lt c d hd
      have h1 : ¬ d ≥ 36 := by omega
      simp only [h1, if_false]
      by_cases h2 : n ≥ (2 ^ 64 - 1) / 36 + 1
      · right
        simp only [h2, if_true, or_true, and_true]
        cases hf : base36Fold cs (n * 36 + d) with
        | none => left; rfl
        | some v =>
          right
          have := base36Fold_ge _ _ _ hf
          exact ⟨v, rfl, by omega⟩
      · have h3 : n * 36 % 2 ^ 64 = n * 36 := Nat.mod_eq_of_lt (by omega)
        simp only [h2, h3, if_false]
        by_cases h4 : n * 36 + d < 2 ^ 64
        · have h5 : (n * 36 + d) % 2 ^ 64 = n * 36 + d := Nat.mod_eq_of_lt h4
          have h6 : ¬ (n * 36 + d < n * 36 ∨ n * 36 + d > 2 ^ 64 - 1) := by omega
          simp only [h5, h6, if_false]
          exact ih _ h4
        · right
          have h6 : (n * 36 + d) % 2 ^ 64 < n * 36 ∨ (n * 36 + d) % 2 ^ 64 > 2 ^ 64 - 1 := by
            omega
          simp only [h6, if_true, or_true, and_true]
          cases hf : base36Fold cs (n * 36 + d) with
          | none => left; rfl
          | some v =>
            right
            have := base36Fold_ge _ _ _ hf
            exact ⟨v, rfl, by omega⟩

theorem ParseUint_of_fold (s : GoString) (v : Nat) (hs : s ≠ [])
    (h : base36Fold s 0 = some v) (hv : v < 2 ^ 64) : ParseUint s = (v, none) := by
  cases s with
  | nil => exact absurd rfl hs
  | cons c cs => exact ParseUintLoop_of_fold _ _ _ h hv

theorem ParseUint_cases (s : GoString) :
    (∃ v, s ≠ [] ∧ base36Fold s 0 = some v ∧ v < 2 ^ 64 ∧ ParseUint s = (v, none)) ∨
    ((s = [] ∨ base36Fold s 0 = none ∨ ∃ v, base36Fold s 0 = some v ∧ 2 ^ 64 ≤ v) ∧
      (ParseUint s = (0, some Error.parseSyntax) ∨
       ParseUint s = (2 ^ 64 - 1, some Error.parseRange))) := by
  cases s with
  | nil => right; exact ⟨Or.inl rfl, Or.inl rfl⟩
  | cons c cs =>
    rcases ParseUintLoop_cases (c :: cs) 0 (by norm_num) with ⟨v, h1, h2, h3⟩ | ⟨h1, h2⟩
    · left; exact ⟨v, by simp, h1, h2, h3⟩
    · right; exact ⟨Or.inr h1, h2⟩

theorem neg_int64_wrap (u : Nat) (h : u ≤ 2 ^ 63) :
    int64 (uint64 (-(int64 u))) = -(u : Int) := by
  unfold int64 uint64
  split_ifs <;> omega

/-- The tail of `ParseInt` after the call of `ParseUint`. -/
theorem ParseInt_cons (c : Byte) (cs : List Byte) :
    ParseInt (c :: cs) =
      (let neg : Bool := c.val = 45
       let un := ParseUint (if c.val = 43 ∨ c.val = 45 then cs else c :: cs)
       if un.2 = some Error.parseSyntax then (0, un.2)
       else if ¬ neg ∧ un.1 ≥ 2 ^ 63 then (2 ^ 63 - 1, some Error.parseRange)
       else if neg ∧ un.1 > 2 ^ 63 then (-2 ^ 63, some Error.parseRange)
       else (if neg then int64 (uint64 (-(int64 un.1))) else int64 un.1, none)) := rfl

/-- The function `ParseInt` returns the value of every base-36 numeral that
denotes a signed 64-bit integer. -/
theorem ParseInt_of_value (s : GoString) (v : Int) (h : base36Value s = some v)
    (hlo : -2 ^ 63 ≤ v) (hhi : v < 2 ^ 63) : ParseInt s = (v, none) := by
  cases s with
  | nil => simp [base36Value] at h
  | cons c cs =>
    rw [base36Value] at h
    rw [ParseInt_cons]
    by_cases hm : c.val = 45
    · simp only [hm, if_true] at h
      by_cases hcs : cs = []
      · simp [hcs] at h
      · simp only [hcs, if_false] at h
        cases hf : base36Fold cs 0 with
        | none => simp [hf] at h
        | some u =>
          simp only [hf, Option.some.injEq] at h
          have hu : u ≤ 2 ^ 63 := by omega
          have hp := ParseUint_of_fold cs u hcs hf (by omega)
          have h3 : ¬ u > 2 ^ 63 := by omega
          have h4 : ¬ (9223372036854775808 < u) := by omega
          simp [hm, hp, h4, neg_int64_wrap u hu, h]
    · by_cases hp : c.val = 43
      · rw [if_neg hm, if_pos hp] at h
        by_cases hcs : cs = []
        · simp [hcs] at h
        · simp only [hcs, if_false] at h
          cases hf : base36Fold cs 0 with
          | none => simp [hf] at h
          | some u =>
            simp only [hf, Option.some.injEq] at h
            have hu : u < 2 ^ 63 := by omega
            have hq := ParseUint_of_fold cs u hcs hf (by omega)
            have h4 : ¬ (9223372036854775808 ≤ u) := by omega
            simp [hp, hq, h4, int64_of_lt u hu, h]
      · simp only [hm, hp, if_false] at h
        cases hf : base36Fold (c :: cs) 0 with
        | none => simp [hf] at h
        | some u =>
          simp only [hf, Option.some.injEq] at h
          have hu : u < 2 ^ 63 := by omega
          have hq := ParseUint_of_fold (c :: cs) u (by simp) hf (by omega)
          have h4 : ¬ (9223372036854775808 ≤ u) := by omega
          simp [hm, hp, hq, h4, int64_of_lt u hu, h]

/-- The function `ParseInt` fails on every string that is not a base-36 numeral. -/
theorem ParseInt_err_of_none (s : GoString) (h : base36Value s = none) :
    (ParseInt s).2 ≠ none := by
  cases s with
  | nil => simp [ParseInt]
  | cons c cs =>
    rw [base36Value] at h
    rw [ParseInt_cons]
    have key : ∀ t : GoString, (t = [] ∨ base36Fold t 0 = none) → ∀ neg : Bool,
        (if (ParseUint t).2 = some Error.parseSyntax then ((0 : Int), (ParseUint t).2)
          else if ¬ neg ∧ (ParseUint t).1 ≥ 2 ^ 63 then (2 ^ 63 - 1, some Error.parseRange)
          else if neg ∧ (ParseUint t).1 > 2 ^ 63 then (-2 ^ 63, some Error.parseRange)
          else (if neg then int64 (uint64 (-(int64 (ParseUint t).1)))
                else int64 (ParseUint t).1, none)).2 ≠ none := by
      intro t ht neg
      rcases ParseUint_cases t with ⟨v, h1, h2, _, _⟩ | ⟨_, h2 | h2⟩
      · rcases ht with ht | ht
        · exact absurd ht h1
        · rw [ht] at h2; simp at h2
      · simp [h2]
      · cases neg <;> simp [h2]
    have fold_none : ∀ t : GoString, (match base36Fold t 0 with
        | some u => some (-(u : Int))
        | none => none) = none → base36Fold t 0 = none := by
      intro t ht
      cases hf : base36Fold t 0 with
      | none => rfl
      | some u => simp [hf] at ht
    have fold_none2 : ∀ t : GoString, (match base36Fold t 0 with
        | some u => some (u : Int)
        | none => none) = none → base36Fold t 0 = none := by
      intro t ht
      cases hf : base36Fold t 0 with
      | none => rfl
      | some u => simp [hf] at ht
    by_cases hm : c.val = 45
    · simp only [hm, if_true] at h
      have ht : cs = [] ∨ base36Fold cs 0 = none := by
        by_cases hcs : cs = []
        · exact Or.inl hcs
        · right
          simp only [hcs, if_false] at h
          exact fold_none cs h
      have := key cs ht true
      simpa [hm] using this
    · by_cases hp : c.val = 43
      · rw [if_neg hm, if_pos hp] at h
        have ht : cs = [] ∨ base36Fold cs 0 = none := by
          by_cases hcs : cs = []
          · exact Or.inl hcs
          · right
            simp only [hcs, if_false] at h
            exact fold_none2 cs h
        have := key cs ht false
        simpa [hm, hp] using this
      · simp only [hm, hp, if_false] at h
        have ht : (c :: cs) = [] ∨ base36Fold (c :: cs) 0 = none :=
          Or.inr (fold_none2 _ h)
        have := key (c :: cs) ht false
        simpa [hm, hp] using this

/-! ## The commit-point resolver -/

theorem segments_underscore_bytes :
    SEGMENTS_PREFIX ++ str "_" = [115, 101, 103, 109, 101, 110, 116, 115, 95] := by
  decide

theorem str_segments_underscore :
    str "segments_" = [115, 101, 103, 109, 101, 110, 116, 115, 95] := by
  decide

theorem segments_bytes : SEGMENTS_PREFIX = [115, 101, 103, 109, 101, 110, 116, 115] := by
  decide

theorem segments_gen_bytes :
    SEGMENTS_GEN_FILE = [115, 101, 103, 109, 101, 110, 116, 115, 46, 103, 101, 110] := by
  decide

/-- On a name with the prefix "segments_" the generation is what `ParseInt`
makes of the suffix. -/
theorem generation_of_numbered (s : GoString) :
    generationFromSegmentsFileName (str "segments_" ++ s) =
      (match (ParseInt s).2 with
       | some e => (-1, some e)
       | none => ((ParseInt s).1, none)) := by
  have hp : HasPrefix (str "segments_" ++ s) (SEGMENTS_PREFIX ++ str "_") = true := by
    rw [segments_underscore_bytes, str_segments_underscore]
    simp [HasPrefix, List.isPrefixOf]
  have hd : (str "segments_" ++ s).drop (SEGMENTS_PREFIX.length + 1) = s := by
    rw [segments_bytes, str_segments_underscore]
    rfl
  unfold generationFromSegmentsFileName
  simp only [hp, hd, not_true_eq_false, if_false]

/-- A name with the prefix "segments_" is that prefix followed by its suffix. -/
theorem eq_append_of_hasPrefix (name : GoString)
    (h : HasPrefix name (str "segments_") = true) : name = str "segments_" ++ name.drop 9 := by
  rw [str_segments_underscore] at h ⊢
  simp only [HasPrefix, List.isPrefixOf_iff_prefix] at h
  obtain ⟨t, rfl⟩ := h
  rfl

/-- C7. For every name "segments_" followed by a suffix that is a base-36
numeral of a signed 64-bit integer, generationFromSegmentsFileName returns that
integer with no error ("segments_1" gives 1, "segments_a" gives 10); for every
name that does not start with "segments_" (such as "segments" and
"segments.gen") or whose suffix is not a base-36 numeral, it returns -1
together with an error. -/
theorem generationFromSegmentsFileName_spec :
    (∀ (s : GoString) (v : Int), base36Value s = some v → -2 ^ 63 ≤ v → v < 2 ^ 63 →
        generationFromSegmentsFileName (str "segments_" ++ s) = (v, none)) ∧
    (∀ name : GoString,
        (HasPrefix name (str "segments_") = false ∨ base36Value (name.drop 9) = none) →
        (generationFromSegmentsFileName name).1 = -1 ∧
        (generationFromSegmentsFileName name).2 ≠ none) ∧
    generationFromSegmentsFileName (str "segments_1") = (1, none) ∧
    generationFromSegmentsFileName (str "segments_a") = (10, none) ∧
    generationFromSegmentsFileName (str "segments") = (-1, some Error.badSegmentsName) ∧
    generationFromSegmentsFileName (str "segments.gen") = (-1, some Error.badSegmentsName) := by
  refine ⟨?_, ?_, by decide, by decide, by decide, by decide⟩
  · intro s v h hlo hhi
    rw [generation_of_numbered, ParseInt_of_value s v h hlo hhi]
  · intro name h
    by_cases hp : HasPrefix name (str "segments_") = true
    · have hv : base36Value (name.drop 9) = none := by
        rcases h with h | h
        · rw [hp] at h; exact absurd h (by decide)
        · exact h
      have he := ParseInt_err_of_none _ hv
      rw [eq_append_of_hasPrefix name hp, generation_of_numbered]
      cases hq : (ParseInt (List.drop 9 name)).2 with
      | none => exact absurd hq he
      | some e => simp
    · have hp2 : HasPrefix name (SEGMENTS_PREFIX ++ str "_") = false := by
        rw [segments_underscore_bytes, ← str_segments_underscore]
        simpa using hp
      unfold generationFromSegmentsFileName
      simp [hp2]

/-- C7 at the suffix "z" (generation 35) and at the name "segments_!". -/
theorem generationFromSegmentsFileName_spec_witness :
    generationFromSegmentsFileName (str "segments_" ++ str "z") = (35, none) ∧
    ((generationFromSegmentsFileName (str "segments_!")).1 = -1 ∧
      (generationFromSegmentsFileName (str "segments_!")).2 ≠ none) :=
  ⟨generationFromSegmentsFileName_spec.1 (str "z") 35 (by decide) (by decide) (by decide),
   generationFromSegmentsFileName_spec.2.1 (str "segments_!") (Or.inr (by decide))⟩

theorem generation_err_of_not_hasPrefix (name : GoString)
    (h : ¬ HasPrefix name SEGMENTS_PREFIX = true) :
    generationFromSegmentsFileName name = (-1, some Error.badSegmentsName) := by
  have hp2 : ¬ HasPrefix name (SEGMENTS_PREFIX ++ str "_") = true := by
    intro hc
    apply h
    simp only [HasPrefix, List.isPrefixOf_iff_prefix] at hc ⊢
    exact (List.prefix_append _ _).trans hc
  unfold generationFromSegmentsFileName
  simp [hp2]

theorem ne_nil_of_hasPrefix (name : GoString) (h : HasPrefix name SEGMENTS_PREFIX = true) :
    name ≠ [] := by
  rintro rfl
  revert h
  decide

/-- The loop of `findLatestSegmentsFile` ends in a state described by `LoopPost`. -/
theorem findLatestLoop_spec (fis : List GoString) : ∀ (bn : GoString) (bg : Int), -1 ≤ bg →
    LoopPost fis bn bg (findLatestLoop fis bn bg) := by
  induction fis with
  | nil => intro bn bg _; simp [findLatestLoop, LoopPost]
  | cons name fis ih =>
    intro bn bg hbg
    -- the two ways the state can move on: unchanged, or to the current name
    have keep : (∀ g, generationFromSegmentsFileName name = (g, none) → g ≤ bg) →
        (name = SEGMENTS_PREFIX → 0 ≤ bg) →
        findLatestLoop (name :: fis) bn bg = findLatestLoop fis bn bg →
        LoopPost (name :: fis) bn bg (findLatestLoop (name :: fis) bn bg) := by
      intro hgen hbare heq
      rw [heq]
      unfold LoopPost
      obtain ⟨h1, h2, h3, h4⟩ := ih bn bg hbg
      refine ⟨h1, ?_, ?_, ?_⟩
      · intro n hn g hg
        rcases List.mem_cons.1 hn with rfl | hn
        · exact le_trans (hgen g hg) h1
        · exact h2 n hn g hg
      · intro hm
        rcases List.mem_cons.1 hm with hm | hm
        · exact le_trans (hbare hm.symm) h1
        · exact h3 hm
      · rcases h4 with h4 | ⟨h5, h6⟩
        · exact Or.inl h4
        · exact Or.inr ⟨List.mem_cons_of_mem _ h5, h6⟩
    have move : ∀ g : Int, bg ≤ g → 0 ≤ g → name ≠ [] → name ≠ SEGMENTS_GEN_FILE →
        generationOf name = some g →
        (∀ g1, generationFromSegmentsFileName name = (g1, none) → g1 ≤ g) →
        findLatestLoop (name :: fis) bn bg = findLatestLoop fis name g →
        LoopPost (name :: fis) bn bg (findLatestLoop (name :: fis) bn bg) := by
      intro g hle h0 hne hgf hof hgen heq
      rw [heq]
      unfold LoopPost
      obtain ⟨h1, h2, h3, h4⟩ := ih name g (by omega)
      refine ⟨le_trans hle h1, ?_, ?_, ?_⟩
      · intro n hn g1 hg
        rcases List.mem_cons.1 hn with rfl | hn
        · exact le_trans (hgen g1 hg) h1
        · exact h2 n hn g1 hg
      · intro _
        exact le_trans h0 h1
      · right
        rcases h4 with ⟨h5, h6⟩ | ⟨h5, h6⟩
        · rw [h5, h6]
          exact ⟨List.mem_cons_self _ _, hne, hgf, hof, h0⟩
        · exact ⟨List.mem_cons_of_mem _ h5, h6⟩
    have hgenfile : ∀ g, ¬ generationFromSegmentsFileName SEGMENTS_GEN_FILE = (g, none) := by
      intro g hg
      have h2 : (generationFromSegmentsFileName SEGMENTS_GEN_FILE).2 ≠ none := by decide
      rw [hg] at h2
      exact h2 rfl
    have hgenbare : ∀ g, ¬ generationFromSegmentsFileName SEGMENTS_PREFIX = (g, none) := by
      intro g hg
      have h2 : (generationFromSegmentsFileName SEGMENTS_PREFIX).2 ≠ none := by decide
      rw [hg] at h2
      exact h2 rfl
    have hne : SEGMENTS_PREFIX ≠ SEGMENTS_GEN_FILE := by decide
    by_cases hp : HasPrefix name SEGMENTS_PREFIX = true
    · have hp1 : ¬ ¬ HasPrefix name SEGMENTS_PREFIX = true := not_not.2 hp
      by_cases hgfile : name = SEGMENTS_GEN_FILE
      · apply keep
        · intro g hg; rw [hgfile] at hg; exact absurd hg (hgenfile g)
        · intro hb; rw [hb] at hgfile; exact absurd hgfile hne
        · rw [findLatestLoop, if_neg hp1, if_pos hgfile]
      · by_cases hbare : name = SEGMENTS_PREFIX
        · by_cases hneg : bg < 0
          · apply move 0 (by omega) (le_refl 0) (ne_nil_of_hasPrefix name hp) hgfile
            · rw [generationOf, if_pos hbare]
            · intro g hg; rw [hbare] at hg; exact absurd hg (hgenbare g)
            · rw [findLatestLoop, if_neg hp1, if_neg hgfile, if_pos hbare, if_pos hneg]
          · apply keep
            · intro g hg; rw [hbare] at hg; exact absurd hg (hgenbare g)
            · intro _; omega
            · rw [findLatestLoop, if_neg hp1, if_neg hgfile, if_pos hbare, if_neg hneg]
        · cases hg2 : (generationFromSegmentsFileName name).2 with
          | some e =>
            apply keep
            · intro g hg; rw [hg] at hg2; simp at hg2
            · intro hb; exact absurd hb hbare
            · rw [findLatestLoop, if_neg hp1, if_neg hgfile, if_neg hbare]
              simp only [hg2]
          | none =>
            have hpair : generationFromSegmentsFileName name
                = ((generationFromSegmentsFileName name).1, none) := by
              rw [← hg2]
            by_cases hgt : (generationFromSegmentsFileName name).1 > bg
            · apply move (generationFromSegmentsFileName name).1 (by omega) (by omega)
                (ne_nil_of_hasPrefix name hp) hgfile
              · rw [generationOf, if_neg hbare, hpair]
              · intro g1 hg1; rw [hg1]
              · rw [findLatestLoop, if_neg hp1, if_neg hgfile, if_neg hbare]
                simp only [hg2, if_pos hgt]
            · apply keep
              · intro g hg; rw [hg] at hgt; simpa using hgt
              · intro hb; exact absurd hb hbare
              · rw [findLatestLoop, if_neg hp1, if_neg hgfile, if_neg hbare]
                simp only [hg2, if_neg hgt]
    · apply keep
      · intro g hg
        rw [generation_err_of_not_hasPrefix name hp] at hg
        simp at hg
      · intro hb; rw [hb] at hp; exact absurd (by decide) hp
      · rw [findLatestLoop, if_pos hp]

/-- The result of `findLatestSegmentsFile` in terms of the end state of its loop. -/
theorem findLatestSegmentsFile_of_entries (dir : IndexDir) (fis : List GoString)
    (hd : dir.entries = some fis) :
    findLatestSegmentsFile dir =
      if (findLatestLoop fis [] (-1)).1 = [] then ([], some Error.noSegmentsFile)
      else ((findLatestLoop fis [] (-1)).1, none) := by
  unfold findLatestSegmentsFile
  rw [hd]

/-- The name R that `findLatestSegmentsFile` returns is listed, is not
"segments.gen", and its generation (0 for the bare "segments") bounds every
generation that `generationFromSegmentsFileName` returns with no error on a
name of the listing. -/
theorem findLatestSegmentsFile_max (dir : IndexDir) (fis : List GoString) (R : GoString)
    (hd : dir.entries = some fis) (h : findLatestSegmentsFile dir = (R, none)) :
    R ∈ fis ∧ R ≠ SEGMENTS_GEN_FILE ∧
    (∃ gR, generationOf R = some gR ∧
      ∀ name ∈ fis, ∀ g, generationFromSegmentsFileName name = (g, none) → g ≤ gR) ∧
    findLatestSegmentsFile
      ⟨dir.path, some [str "segments_1", str "segments_2", str "segments_a", str "segments.gen"],
        dir.openFile⟩ = (str "segments_a", none) := by
  rw [findLatestSegmentsFile_of_entries dir fis hd] at h
  obtain ⟨_, h2, _, h4⟩ := findLatestLoop_spec fis [] (-1) (le_refl _)
  by_cases hnil : (findLatestLoop fis [] (-1)).1 = []
  · rw [if_pos hnil] at h
    simp at h
  · rw [if_neg hnil] at h
    have hR : (findLatestLoop fis [] (-1)).1 = R := by
      simpa using congrArg Prod.fst h
    rcases h4 with ⟨h5, _⟩ | ⟨h5, _, h7, h8, _⟩
    · exact absurd h5 hnil
    · rw [hR] at h5 h7 h8
      refine ⟨h5, h7, ⟨_, h8, h2⟩, ?_⟩
      rw [findLatestSegmentsFile_of_entries _ _ rfl]
      decide

/-- C8 as stated fails: the suffix "-1" parses as the base-36 integer -1, and
the listing of "segments_-1" and "segments.gen" has no result. -/
theorem resolve_parsed_suffix_counterexample :
    ParseInt (str "-1") = (-1, none) ∧ base36Value (str "-1") = some (-1) ∧
    findLatestSegmentsFile
      ⟨[], some [str "segments_" ++ str "-1", str "segments.gen"], fun _ => none⟩
      = ([], some Error.noSegmentsFile) := by
  decide

/-- C8, amended. For every suffix s that is the base-36 numeral of a
non-negative signed 64-bit integer, findLatestSegmentsFile on the listing of
"segments_" + s and "segments.gen" succeeds and returns "segments_" + s. -/
theorem resolve_nonneg_suffix (dir : IndexDir) (s : GoString) (v : Int)
    (hs : base36Value s = some v) (h0 : 0 ≤ v) (hv : v < 2 ^ 63)
    (hd : dir.entries = some [str "segments_" ++ s, str "segments.gen"]) :
    findLatestSegmentsFile dir = (str "segments_" ++ s, none) := by
  rw [findLatestSegmentsFile_of_entries dir _ hd]
  have hgen : generationFromSegmentsFileName (str "segments_" ++ s) = (v, none) := by
    rw [generation_of_numbered, ParseInt_of_value s v hs (by omega) hv]
  have hp : ¬ ¬ HasPrefix (str "segments_" ++ s) SEGMENTS_PREFIX = true := by
    rw [str_segments_underscore, segments_bytes]
    simp [HasPrefix, List.isPrefixOf]
  have hne1 : ¬ str "segments_" ++ s = SEGMENTS_GEN_FILE := by
    rw [str_segments_underscore, segments_gen_bytes]
    simp
  have hne2 : ¬ str "segments_" ++ s = SEGMENTS_PREFIX := by
    rw [str_segments_underscore, segments_bytes]
    simp
  have hp2 : ¬ ¬ HasPrefix (str "segments.gen") SEGMENTS_PREFIX = true := by decide
  have hgt : v > -1 := by omega
  have hloop : findLatestLoop [str "segments_" ++ s, str "segments.gen"] [] (-1)
      = (str "segments_" ++ s, v) := by
    rw [findLatestLoop, if_neg hp, if_neg hne1, if_neg hne2]
    simp only [hgen, if_pos hgt]
    rw [findLatestLoop, if_neg hp2, if_pos (by decide), findLatestLoop]
  rw [hloop]
  have hnil : ¬ str "segments_" ++ s = [] := by
    rw [str_segments_underscore]; simp
  exact if_neg hnil

/-- C8, amended, at the suffix "a". -/
theorem resolve_nonneg_suffix_witness :
    findLatestSegmentsFile
      ⟨[], some [str "segments_" ++ str "a", str "segments.gen"], fun _ => none⟩
      = (str "segments_" ++ str "a", none) :=
  resolve_nonneg_suffix
    ⟨[], some [str "segments_" ++ str "a", str "segments.gen"], fun _ => none⟩
    (str "a") 10 (by decide) (by decide) (by decide) rfl

/-- C9 as stated fails: the listing of "segments" and "segments_0" contains the
numbered candidate "segments_0", and the bare name "segments" is returned. -/
theorem resolve_bare_selected_counterexample :
    generationFromSegmentsFileName (str "segments_0") = (0, none) ∧
    findLatestSegmentsFile ⟨[], some [str "segments", str "segments_0"], fun _ => none⟩
      = (str "segments", none) := by
  decide

/-- On a listing with a name whose generation
`generationFromSegmentsFileName` returns with no error and is at least 1,
`findLatestSegmentsFile` succeeds and returns neither "segments" nor
"segments.gen"; on a listing with the bare name on which that function fails
for every name, it returns "segments". -/
theorem resolve_numbered_over_bare (dir : IndexDir) (fis : List GoString)
    (hd : dir.entries = some fis) :
    ((∃ name ∈ fis, ∃ g, generationFromSegmentsFileName name = (g, none) ∧ 1 ≤ g) →
      (findLatestSegmentsFile dir).2 = none ∧
      (findLatestSegmentsFile dir).1 ≠ SEGMENTS_PREFIX ∧
      (findLatestSegmentsFile dir).1 ≠ SEGMENTS_GEN_FILE) ∧
    (SEGMENTS_PREFIX ∈ fis →
      (∀ name ∈ fis, (generationFromSegmentsFileName name).2 ≠ none) →
      findLatestSegmentsFile dir = (SEGMENTS_PREFIX, none)) := by
  rw [findLatestSegmentsFile_of_entries dir fis hd]
  obtain ⟨_, h2, h3, h4⟩ := findLatestLoop_spec fis [] (-1) (le_refl _)
  constructor
  · rintro ⟨name, hmem, g, hg, hg1⟩
    have hbig := h2 name hmem g hg
    rcases h4 with ⟨_, h6⟩ | ⟨_, h6, h7, h8, _⟩
    · omega
    · rw [if_neg h6]
      refine ⟨rfl, ?_, h7⟩
      intro hb
      simp only at hb
      rw [hb, generationOf, if_pos rfl] at h8
      have : (0 : Int) = (findLatestLoop fis [] (-1)).2 := by simpa using h8
      omega
  · intro hbare hnone
    have h0 := h3 hbare
    rcases h4 with ⟨_, h6⟩ | ⟨h5, h6, _, h8, _⟩
    · omega
    · rw [if_neg h6]
      by_cases hb : (findLatestLoop fis [] (-1)).1 = SEGMENTS_PREFIX
      · rw [hb]
      · exfalso
        rw [generationOf, if_neg hb] at h8
        have hn := hnone _ h5
        revert h8 hn
        generalize generationFromSegmentsFileName (findLatestLoop fis [] (-1)).1 = p
        rcases p with ⟨g, _ | e⟩ <;> simp

/-! ## Ranges of the decoded integers -/

theorem int32_range (n : Nat) : -2 ^ 31 ≤ int32 n ∧ int32 n < 2 ^ 31 := by
  unfold int32
  split_ifs <;> omega

theorem add64_exact (a x : Int) (h1 : -2 ^ 63 ≤ a + x) (h2 : a + x < 2 ^ 63) :
    add64 a x = a + x := by
  unfold add64 int64 uint64
  split_ifs <;> omega

theorem readBEInt32_range (r : List Byte) :
    -2 ^ 31 ≤ (readBEInt32 r).val ∧ (readBEInt32 r).val < 2 ^ 31 := by
  unfold readBEInt32
  cases h : (readExactly r 4).err with
  | none => simpa [h] using int32_range _
  | some e => simp [h]

theorem parseSegmentSI_range (dir : IndexDir) (name : GoString) :
    -2 ^ 31 ≤ (parseSegmentSI dir name).docCount ∧
    (parseSegmentSI dir name).docCount < 2 ^ 31 := by
  have hs : ∀ o, -2 ^ 31 ≤ storedInt32 o ∧ storedInt32 o < 2 ^ 31 := by
    intro o
    unfold storedInt32
    split
    · exact int32_range _
    · simp
  unfold parseSegmentSI
  split
  · simp
  · simp only
    exact hs _

/-- The three counts of a summary are 32-bit values. -/
theorem parseSegment_range (dir : IndexDir) (fv : Int) (r : List Byte) :
    (-2 ^ 31 ≤ (parseSegment dir fv r).1.MaxDoc ∧ (parseSegment dir fv r).1.MaxDoc < 2 ^ 31) ∧
    (-2 ^ 31 ≤ (parseSegment dir fv r).1.DelCount ∧
      (parseSegment dir fv r).1.DelCount < 2 ^ 31) ∧
    (-2 ^ 31 ≤ (parseSegment dir fv r).1.SoftDelCount ∧
      (parseSegment dir fv r).1.SoftDelCount < 2 ^ 31) := by
  unfold parseSegment
  simp only
  exact ⟨parseSegmentSI_range _ _, readBEInt32_range _, readBEInt32_range _⟩

theorem parseSegmentsLoop_range (dir : IndexDir) (fv : Int) (n : Nat) :
    ∀ (acc : List SegInfoSummary) (r : List Byte),
    (∀ s ∈ acc, (-2 ^ 31 ≤ s.MaxDoc ∧ s.MaxDoc < 2 ^ 31) ∧
      (-2 ^ 31 ≤ s.DelCount ∧ s.DelCount < 2 ^ 31) ∧
      (-2 ^ 31 ≤ s.SoftDelCount ∧ s.SoftDelCount < 2 ^ 31)) →
    (parseSegmentsLoop dir fv n acc r).1.length = acc.length + n ∧
    ∀ s ∈ (parseSegmentsLoop dir fv n acc r).1,
      (-2 ^ 31 ≤ s.MaxDoc ∧ s.MaxDoc < 2 ^ 31) ∧
      (-2 ^ 31 ≤ s.DelCount ∧ s.DelCount < 2 ^ 31) ∧
      (-2 ^ 31 ≤ s.SoftDelCount ∧ s.SoftDelCount < 2 ^ 31) := by
  induction n with
  | zero => intro acc r h; exact ⟨rfl, h⟩
  | succ n ih =>
    intro acc r h
    rw [parseSegmentsLoop]
    have h2 : ∀ s ∈ acc ++ [(parseSegment dir fv r).1],
        (-2 ^ 31 ≤ s.MaxDoc ∧ s.MaxDoc < 2 ^ 31) ∧
        (-2 ^ 31 ≤ s.DelCount ∧ s.DelCount < 2 ^ 31) ∧
        (-2 ^ 31 ≤ s.SoftDelCount ∧ s.SoftDelCount < 2 ^ 31) := by
      intro s hs
      rcases List.mem_append.1 hs with hs | hs
      · exact h s hs
      · rw [List.mem_singleton.1 hs]; exact parseSegment_range dir fv r
    obtain ⟨h3, h4⟩ := ih (acc ++ [(parseSegment dir fv r).1]) (parseSegment dir fv r).2 h2
    refine ⟨?_, h4⟩
    rw [h3, List.length_append, List.length_singleton]
    omega

/-- The result of `parseSegmentsFile` on a file that opens and starts with the magic. -/
theorem parseSegmentsFile_of_magic (dir : IndexDir) (segFile : GoString) (f : List Byte)
    (hf : dir.openFile segFile = some f) (hm : (readBEInt32 f).val = CODEC_MAGIC) :
    parseSegmentsFile dir segFile =
      ((parseSegmentsLoop dir (readCommitHeader (readBEInt32 f).rest).formatVer
          (readCommitHeader (readBEInt32 f).rest).numSegs.toNat []
          (skipMinSegmentVersion (readCommitHeader (readBEInt32 f).rest).numSegs
            (readCommitHeader (readBEInt32 f).rest).rest)).1,
       (readMapOfStrings
        (parseSegmentsLoop dir (readCommitHeader (readBEInt32 f).rest).formatVer
          (readCommitHeader (readBEInt32 f).rest).numSegs.toNat []
          (skipMinSegmentVersion (readCommitHeader (readBEInt32 f).rest).numSegs
            (readCommitHeader (readBEInt32 f).rest).rest)).2).val,
       none) := by
  unfold parseSegmentsFile
  simp only [hf]
  rw [if_neg (not_not.2 hm)]

/-- The result of `parseSegmentsFile` on a file that opens and does not start
with the magic. -/
theorem parseSegmentsFile_of_bad_magic (dir : IndexDir) (segFile : GoString) (f : List Byte)
    (hf : dir.openFile segFile = some f) (hm : (readBEInt32 f).val ≠ CODEC_MAGIC) :
    parseSegmentsFile dir segFile = ([], none, some Error.badMagic) := by
  unfold parseSegmentsFile
  simp only [hf]
  rw [if_pos hm]

/-- The summaries of `parseSegmentsFile` are fewer than 2^31 and carry 32-bit counts. -/
theorem parseSegmentsFile_range (dir : IndexDir) (segFile : GoString) :
    (parseSegmentsFile dir segFile).1.length < 2 ^ 31 ∧
    ∀ s ∈ (parseSegmentsFile dir segFile).1,
      (-2 ^ 31 ≤ s.MaxDoc ∧ s.MaxDoc < 2 ^ 31) ∧
      (-2 ^ 31 ≤ s.DelCount ∧ s.DelCount < 2 ^ 31) ∧
      (-2 ^ 31 ≤ s.SoftDelCount ∧ s.SoftDelCount < 2 ^ 31) := by
  cases hf : dir.openFile segFile with
  | none =>
    have : parseSegmentsFile dir segFile = ([], none, some Error.openFailed) := by
      unfold parseSegmentsFile
      simp only [hf]
    rw [this]
    simp
  | some f =>
    by_cases hm : (readBEInt32 f).val = CODEC_MAGIC
    · rw [parseSegmentsFile_of_magic dir segFile f hf hm]
      have hn : (readCommitHeader (readBEInt32 f).rest).numSegs < 2 ^ 31 :=
        (readBEInt32_range _).2
      obtain ⟨h1, h2⟩ := parseSegmentsLoop_range dir
        (readCommitHeader (readBEInt32 f).rest).formatVer
        (readCommitHeader (readBEInt32 f).rest).numSegs.toNat []
        (skipMinSegmentVersion (readCommitHeader (readBEInt32 f).rest).numSegs
          (readCommitHeader (readBEInt32 f).rest).rest) (by simp)
      refine ⟨?_, h2⟩
      simp only [h1, List.length_nil]
      omega
    · rw [parseSegmentsFile_of_bad_magic dir segFile f hf hm]
      simp

/-- The 64-bit accumulators of `buildReport` hold the exact sums as long as
the list is shorter than 2^32 minus the number of summands already added. -/
theorem sumLoop_exact (ss : List SegInfoSummary) : ∀ (a b c : Int) (k : Nat),
    (∀ s ∈ ss, (-2 ^ 31 ≤ s.MaxDoc ∧ s.MaxDoc < 2 ^ 31) ∧
      (-2 ^ 31 ≤ s.DelCount ∧ s.DelCount < 2 ^ 31) ∧
      (-2 ^ 31 ≤ s.SoftDelCount ∧ s.SoftDelCount < 2 ^ 31)) →
    k + ss.length ≤ 2 ^ 31 →
    (-(k : Int) * 2 ^ 31 ≤ a ∧ a ≤ k * 2 ^ 31) →
    (-(k : Int) * 2 ^ 31 ≤ b ∧ b ≤ k * 2 ^ 31) →
    (-(k : Int) * 2 ^ 31 ≤ c ∧ c ≤ k * 2 ^ 31) →
    sumLoop ss (a, b, c) =
      (a + (ss.map (fun s => s.MaxDoc)).sum, b + (ss.map (fun s => s.DelCount)).sum,
        c + (ss.map (fun s => s.SoftDelCount)).sum) := by
  induction ss with
  | nil => intro a b c k _ _ _ _ _; simp [sumLoop]
  | cons s ss ih =>
    intro a b c k hr hk ha hb hc
    obtain ⟨h1, h2, h3⟩ := hr s (List.mem_cons_self _ _)
    have hlen : k + (ss.length + 1) ≤ 2 ^ 31 := by simpa using hk
    have hk2 : (k : Int) ≤ 2 ^ 31 := by omega
    rw [sumLoop, add64_exact a s.MaxDoc (by omega) (by omega),
      add64_exact b s.DelCount (by omega) (by omega),
      add64_exact c s.SoftDelCount (by omega) (by omega)]
    rw [ih _ _ _ (k + 1) (fun t ht => hr t (List.mem_cons_of_mem _ ht)) (by omega)
      (by push_cast; omega) (by push_cast; omega) (by push_cast; omega)]
    simp only [List.map_cons, List.sum_cons]
    congr 1
    · ring
    · congr 1 <;> ring

/-! ## The report builder -/

/-- The result of `buildReport` when a commit file was found. -/
theorem buildReport_of_found (dir : IndexDir) (segFile : GoString)
    (h : findLatestSegmentsFile dir = (segFile, none)) :
    buildReport dir =
      match (parseSegmentsFile dir segFile).2.2 with
      | some e => (none, some e)
      | none =>
        (some { IndexPath := dir.path
                SegmentsFile := segFile
                TotalSegments := ((parseSegmentsFile dir segFile).1.length : Int)
                TotalDocs := (sumLoop (parseSegmentsFile dir segFile).1 (0, 0, 0)).1
                TotalDeletedDocs := (sumLoop (parseSegmentsFile dir segFile).1 (0, 0, 0)).2.1
                TotalSoftDeletedDocs :=
                  (sumLoop (parseSegmentsFile dir segFile).1 (0, 0, 0)).2.2
                UserData := (parseSegmentsFile dir segFile).2.1
                Segments := (parseSegmentsFile dir segFile).1
                Notes := reportNotes }, none) := by
  unfold buildReport
  simp only [h]

/-- Every report comes from a commit file that was found and decoded. -/
theorem buildReport_some (dir : IndexDir) (rep : Report) (e : Option Error)
    (h : buildReport dir = (some rep, e)) :
    e = none ∧ (findLatestSegmentsFile dir).2 = none ∧
    (parseSegmentsFile dir (findLatestSegmentsFile dir).1).2.2 = none ∧
    rep = { IndexPath := dir.path
            SegmentsFile := (findLatestSegmentsFile dir).1
            TotalSegments :=
              ((parseSegmentsFile dir (findLatestSegmentsFile dir).1).1.length : Int)
            TotalDocs :=
              (sumLoop (parseSegmentsFile dir (findLatestSegmentsFile dir).1).1 (0, 0, 0)).1
            TotalDeletedDocs :=
              (sumLoop (parseSegmentsFile dir (findLatestSegmentsFile dir).1).1 (0, 0, 0)).2.1
            TotalSoftDeletedDocs :=
              (sumLoop (parseSegmentsFile dir (findLatestSegmentsFile dir).1).1 (0, 0, 0)).2.2
            UserData := (parseSegmentsFile dir (findLatestSegmentsFile dir).1).2.1
            Segments := (parseSegmentsFile dir (findLatestSegmentsFile dir).1).1
            Notes := reportNotes } := by
  unfold buildReport at h
  cases h1 : (findLatestSegmentsFile dir).2 with
  | some e1 => simp [h1] at h
  | none =>
    simp only [h1] at h
    cases h2 : (parseSegmentsFile dir (findLatestSegmentsFile dir).1).2.2 with
    | some e2 => simp [h2] at h
    | none =>
      simp only [h2, Prod.mk.injEq, Option.some.injEq] at h
      exact ⟨h.2.symm, rfl, rfl, h.1.symm⟩

/-- C3. For every report returned by buildReport, TotalDocs, TotalDeletedDocs
and TotalSoftDeletedDocs equal the exact sums of MaxDoc, DelCount and
SoftDelCount over the report's segment summaries (the 64-bit accumulators do
not wrap, whatever segment count the commit file declares), and TotalSegments
equals the length of the segment list. -/
theorem buildReport_totals (dir : IndexDir) (rep : Report) (e : Option Error)
    (h : buildReport dir = (some rep, e)) :
    rep.TotalDocs = (rep.Segments.map (fun s => s.MaxDoc)).sum ∧
    rep.TotalDeletedDocs = (rep.Segments.map (fun s => s.DelCount)).sum ∧
    rep.TotalSoftDeletedDocs = (rep.Segments.map (fun s => s.SoftDelCount)).sum ∧
    rep.TotalSegments = (rep.Segments.length : Int) := by
  obtain ⟨_, _, _, hrep⟩ := buildReport_some dir rep e h
  obtain ⟨hlen, hr⟩ := parseSegmentsFile_range dir (findLatestSegmentsFile dir).1
  have hs := sumLoop_exact _ 0 0 0 0 hr (by omega) (by simp) (by simp) (by simp)
  rw [hrep, hs]
  simp

/-! ## Reading back the encoded fields -/

theorem readExactly_append (a rest : List Byte) (n : Nat) (h : a.length = n) :
    readExactly (a ++ rest) n = ⟨a, none, rest⟩ := by
  subst h
  unfold readExactly
  simp

theorem int32_uint32 (v : Int) (h : isInt32 v) : int32 (uint32 v) = v := by
  obtain ⟨h1, h2⟩ := h
  unfold int32 uint32
  split_ifs <;> omega

theorem int64_uint64 (v : Int) (h : isInt64 v) : int64 (uint64 v) = v := by
  obtain ⟨h1, h2⟩ := h
  unfold int64 uint64
  split_ifs <;> omega

theorem beUint_encBE32 (v : Int) : beUint (encBE32 v) = uint32 v := by
  have hu : uint32 v < 2 ^ 32 := by unfold uint32; omega
  simp only [beUint, encBE32, List.foldl, toByte]
  omega

theorem beUint_encBE64 (v : Int) : beUint (encBE64 v) = uint64 v := by
  have hu : uint64 v < 2 ^ 64 := by unfold uint64; omega
  simp only [beUint, encBE64, List.foldl, toByte]
  omega

theorem readBEInt32_enc (v : Int) (rest : List Byte) (h : isInt32 v) :
    readBEInt32 (encBE32 v ++ rest) = ⟨v, none, rest⟩ := by
  unfold readBEInt32
  rw [readExactly_append (encBE32 v) rest 4 rfl]
  simp only [beUint_encBE32, int32_uint32 v h]

theorem readBELong_enc (v : Int) (rest : List Byte) (h : isInt64 v) :
    readBELong (encBE64 v ++ rest) = ⟨v, none, rest⟩ := by
  unfold readBELong
  rw [readExactly_append (encBE64 v) rest 8 rfl]
  simp only [beUint_encBE64, int64_uint64 v h]

theorem readVInt_enc (n : Nat) (rest : List Byte) (h : n < 2 ^ 31) :
    readVInt (encVInt n ++ rest) = ⟨(n : Int), none, rest⟩ := by
  obtain ⟨bs, hw, _, hr⟩ := readVIntLoop_write 4 n 5 0 0 (by norm_num; omega) (by omega)
    (by norm_num) (by norm_num; omega)
  have hw2 : writeVIntBytes (n : Int) = some bs := writeVarLoop_mono 5 10 _ bs hw (by omega)
  unfold encVInt readVInt
  rw [hw2]
  simpa using hr rest

theorem readVLong_enc (n : Nat) (rest : List Byte) (h : n < 2 ^ 63) :
    readVLong (encVLong n ++ rest) = ⟨(n : Int), none, rest⟩ := by
  obtain ⟨bs, hw, _, hr⟩ := readVLongLoop_write 8 n 10 0 0 (by norm_num; omega) (by omega)
    (by norm_num) (by norm_num; omega)
  have hw2 : writeVLongBytes (n : Int) = some bs := writeVarLoop_mono 9 10 _ bs hw (by omega)
  unfold encVLong readVLong
  rw [hw2]
  simpa using hr rest

theorem readString_enc (s : GoString) (rest : List Byte) (h : wfString s) :
    readString (encString s ++ rest) = ⟨s, none, rest⟩ := by
  unfold readString encString
  rw [List.append_assoc, readVInt_enc s.length (s ++ rest) h]
  simp only
  have h0 : ¬ ((s.length : Int) < 0) := by omega
  rw [if_neg h0]
  by_cases hz : (s.length : Int) = 0
  · have : s = [] := List.length_eq_zero.1 (by omega)
    subst this
    simp
  · rw [if_neg hz, Int.toNat_ofNat, readExactly_append s rest s.length rfl]

theorem readSetOfStringsLoop_enc (rest : List Byte) (ss : List GoString) :
    ∀ out : List GoString, (∀ s ∈ ss, wfString s) →
    readSetOfStringsLoop ss.length out (ss.flatMap encString ++ rest)
      = ⟨out ++ ss, none, rest⟩ := by
  induction ss with
  | nil => intro out _; simp [readSetOfStringsLoop]
  | cons s ss ih =>
    intro out h
    rw [List.length_cons, readSetOfStringsLoop, List.flatMap_cons, List.append_assoc,
      readString_enc s _ (h s (List.mem_cons_self _ _))]
    simp only
    rw [ih _ (fun t ht => h t (List.mem_cons_of_mem _ ht))]
    simp

theorem readSetOfStrings_enc (ss : List GoString) (rest : List Byte) (h : wfStringSet ss) :
    readSetOfStrings (encStringSet ss ++ rest) = ⟨ss, none, rest⟩ := by
  unfold readSetOfStrings encStringSet
  rw [List.append_assoc, readVInt_enc ss.length _ h.1]
  simp only [Int.toNat_ofNat]
  rw [readSetOfStringsLoop_enc rest ss [] h.2]
  simp

theorem readMapOfStringsLoop_enc (rest : List Byte) (kvs : List (GoString × GoString)) :
    ∀ m : GoMap, (∀ kv ∈ kvs, wfString kv.1 ∧ wfString kv.2) →
    readMapOfStringsLoop kvs.length m
        (kvs.flatMap (fun kv => encString kv.1 ++ encString kv.2) ++ rest)
      = ⟨some (kvs.foldl (fun m kv => m.set kv.1 kv.2) m), none, rest⟩ := by
  induction kvs with
  | nil => intro m _; simp [readMapOfStringsLoop]
  | cons kv kvs ih =>
    intro m h
    obtain ⟨h1, h2⟩ := h kv (List.mem_cons_self _ _)
    rw [List.length_cons, readMapOfStringsLoop, List.flatMap_cons, List.append_assoc,
      List.append_assoc, readString_enc kv.1 _ h1]
    simp only
    rw [readString_enc kv.2 _ h2]
    simp only
    rw [ih _ (fun t ht => h t (List.mem_cons_of_mem _ ht))]
    simp

theorem readMapOfStrings_enc (kvs : List (GoString × GoString)) (rest : List Byte)
    (hlen : kvs.length < 2 ^ 31) (h : ∀ kv ∈ kvs, wfString kv.1 ∧ wfString kv.2) :
    readMapOfStrings (encStringMap kvs ++ rest) = ⟨some (mapOfPairs kvs), none, rest⟩ := by
  unfold readMapOfStrings encStringMap mapOfPairs
  rw [List.append_assoc, readVInt_enc kvs.length _ hlen]
  simp only [Int.toNat_ofNat]
  rw [readMapOfStringsLoop_enc rest kvs [] h]

theorem skipDVLoop_enc (rest : List Byte) (us : List (Int × List GoString)) :
    (∀ u ∈ us, isInt32 u.1 ∧ wfStringSet u.2) →
    skipDVLoop us.length (us.flatMap encDVUpdate ++ rest) = rest := by
  induction us with
  | nil => intro _; simp [skipDVLoop]
  | cons u us ih =>
    intro h
    obtain ⟨h1, h2⟩ := h u (List.mem_cons_self _ _)
    rw [List.length_cons, skipDVLoop, List.flatMap_cons, List.append_assoc, encDVUpdate,
      List.append_assoc, readBEInt32_enc u.1 _ h1]
    simp only
    rw [readSetOfStrings_enc u.2 _ h2]
    simp only
    exact ih (fun t ht => h t (List.mem_cons_of_mem _ ht))

theorem readSciId_enc (fv : Int) (sci : Option (List Byte)) (rest : List Byte)
    (h : ∀ b, sci = some b → b.length = 16) :
    readSciId fv (encSciId fv sci ++ rest) =
      ⟨if fv > 9 then (match sci with
        | some b => b
        | none => []) else [], none, rest⟩ := by
  unfold readSciId encSciId
  by_cases hv : fv > 9
  · simp only [hv, if_true]
    cases sci with
    | none => simp [readByte]
    | some b =>
      have hb := h b rfl
      simp only [List.cons_append, readByte]
      rw [if_pos (by decide), readExactly_append b rest ID_LENGTH hb]
  · simp only [hv, if_false, List.nil_append]

/-! ## Decoding a well-formed commit file -/

theorem length_sciId_pos (fv : Int) (sci : Option (List Byte))
    (h : ∀ b, sci = some b → b.length = 16) :
    (if (if fv > 9 then (match sci with
        | some b => b
        | none => []) else ([] : List Byte)).length > 0
      then EncodeToString (if fv > 9 then (match sci with
        | some b => b
        | none => []) else [])
      else []) =
    (if fv > 9 then (match sci with
        | some b => EncodeToString b
        | none => []) else []) := by
  by_cases hv : fv > 9
  · simp only [hv, if_true]
    cases sci with
    | none => simp
    | some b =>
      have hb := h b rfl
      simp [hb]
  · simp [hv]

/-- The body of the segment loop decodes an encoded record to its summary and
stops directly behind the record. -/
theorem parseSegment_enc (dir : IndexDir) (fv : Int) (s : SegmentRecord) (rest : List Byte)
    (h : wfSegment s) :
    parseSegment dir fv (encSegment fv s ++ rest)
      = (summaryOf fv s (parseSegmentSI dir s.name), rest) := by
  obtain ⟨h1, h2, h3, h4, h5, h6, h7, h8, h9, h10, h11, h12⟩ := h
  unfold parseSegment encSegment summaryOf
  simp only [List.append_assoc]
  rw [readString_enc s.name _ h1]
  simp only
  rw [readExactly_append s.id _ ID_LENGTH h2]
  simp only
  rw [readString_enc s.codec _ h3]
  simp only
  rw [readBELong_enc s.delGen _ h4]
  simp only
  rw [readBEInt32_enc s.delCount _ h5]
  simp only
  rw [readBELong_enc s.fieldInfosGen _ h6]
  simp only
  rw [readBELong_enc s.dvGen _ h7]
  simp only
  rw [readBEInt32_enc s.softDelCount _ h8]
  simp only
  rw [readSciId_enc fv s.sciId _ h9]
  simp only
  rw [readSetOfStrings_enc s.files _ h10]
  simp only
  rw [readBEInt32_enc (s.dvUpdates.length : Int) _ ⟨by omega, by omega⟩]
  simp only [Int.toNat_ofNat]
  rw [skipDVLoop_enc rest s.dvUpdates h12, length_sciId_pos fv s.sciId h9]

theorem parseSegmentsLoop_enc (dir : IndexDir) (fv : Int) (rest : List Byte)
    (ss : List SegmentRecord) : ∀ acc : List SegInfoSummary, (∀ s ∈ ss, wfSegment s) →
    parseSegmentsLoop dir fv ss.length acc (ss.flatMap (encSegment fv) ++ rest)
      = (acc ++ ss.map (fun s => summaryOf fv s (parseSegmentSI dir s.name)), rest) := by
  induction ss with
  | nil => intro acc _; simp [parseSegmentsLoop]
  | cons s ss ih =>
    intro acc h
    rw [List.length_cons, parseSegmentsLoop, List.flatMap_cons, List.append_assoc,
      parseSegment_enc dir fv s _ (h s (List.mem_cons_self _ _))]
    simp only
    rw [ih _ (fun t ht => h t (List.mem_cons_of_mem _ ht))]
    simp

/-- The header steps read back the format version and the segment count of an
encoded header and stop directly behind the count. -/
theorem readCommitHeader_enc (c : CommitFile) (n : Int) (rest : List Byte)
    (h1 : wfString c.label) (h2 : isInt32 c.formatVer) (h3 : c.id.length = 16)
    (h4 : c.suffix.length < 256) (h5 : c.versions.length = 4) (h6 : isInt64 c.infoVersion)
    (h7 : c.counter < 2 ^ 63) (hn : isInt32 n) :
    readCommitHeader (encString c.label ++ (encBE32 c.formatVer ++ (c.id ++
      (toByte c.suffix.length :: (c.suffix ++ (c.versions ++ (encBE64 c.infoVersion ++
      (encVLong c.counter ++ (encBE32 n ++ rest)))))))))
      = ⟨c.formatVer, n, rest⟩ := by
  unfold readCommitHeader
  rw [readString_enc c.label _ h1]
  simp only
  rw [readBEInt32_enc c.formatVer _ h2]
  simp only
  rw [readExactly_append c.id _ 16 h3]
  simp only [readByte]
  have hs : (toByte c.suffix.length).val = c.suffix.length := by
    rw [toByte_val]; omega
  rw [hs, readExactly_append c.suffix _ c.suffix.length rfl]
  simp only
  obtain ⟨v1, v2, v3, v4, hv⟩ : ∃ v1 v2 v3 v4, c.versions = [v1, v2, v3, v4] := by
    match hc : c.versions, h5 with
    | [v1, v2, v3, v4], _ => exact ⟨v1, v2, v3, v4, rfl⟩
  rw [hv]
  simp only [List.cons_append, List.nil_append, readByte]
  rw [readBELong_enc c.infoVersion _ h6]
  simp only
  rw [readVLong_enc c.counter _ h7]
  simp only
  rw [readBEInt32_enc n _ hn]

theorem readBEInt32_magic (rest : List Byte) :
    readBEInt32 (encBE32 CODEC_MAGIC ++ rest) = ⟨CODEC_MAGIC, none, rest⟩ :=
  readBEInt32_enc CODEC_MAGIC rest (by unfold isInt32 CODEC_MAGIC; omega)

/-- The decoder reads an encoded well-formed commit file back: one summary per
record, in order, and the user data. -/
theorem parseSegmentsFile_enc (dir : IndexDir) (segFile : GoString) (c : CommitFile)
    (hw : wfCommit c) (hf : dir.openFile segFile = some (encCommit c)) :
    parseSegmentsFile dir segFile =
      (c.segments.map (fun s => summaryOf c.formatVer s (parseSegmentSI dir s.name)),
        some (mapOfPairs c.userData), none) := by
  obtain ⟨h1, h2, h3, h4, h5, h6, h7, h8, h9, h10, h11, h12⟩ := hw
  have hm : readBEInt32 (encCommit c) = ⟨CODEC_MAGIC, none,
      encString c.label ++ (encBE32 c.formatVer ++ (c.id ++
      (toByte c.suffix.length :: (c.suffix ++ (c.versions ++ (encBE64 c.infoVersion ++
      (encVLong c.counter ++ (encBE32 (c.segments.length : Int) ++
        ((if c.segments.length > 0 then c.minSegVersion else []) ++
        (c.segments.flatMap (encSegment c.formatVer) ++ encStringMap c.userData))))))))))⟩ := by
    unfold encCommit encCommitHeader
    simp only [List.append_assoc, List.cons_append]
    exact readBEInt32_magic _
  rw [parseSegmentsFile_of_magic dir segFile _ hf (by rw [hm]), hm]
  simp only
  rw [readCommitHeader_enc c _ _ h1 h2 h3 h4 h5 h6 h7 ⟨by omega, by omega⟩]
  simp only [Int.toNat_ofNat]
  have hskip : skipMinSegmentVersion (c.segments.length : Int)
      ((if c.segments.length > 0 then c.minSegVersion else []) ++
        (c.segments.flatMap (encSegment c.formatVer) ++ encStringMap c.userData))
      = c.segments.flatMap (encSegment c.formatVer) ++ encStringMap c.userData := by
    unfold skipMinSegmentVersion
    by_cases hz : c.segments.length > 0
    · have hz2 : (c.segments.length : Int) > 0 := by omega
      rw [if_pos hz, if_pos hz2]
      obtain ⟨v1, v2, v3, hv⟩ : ∃ v1 v2 v3, c.minSegVersion = [v1, v2, v3] := by
        match hc : c.minSegVersion, h8 with
        | [v1, v2, v3], _ => exact ⟨v1, v2, v3, rfl⟩
      rw [hv]
      simp [readByte]
    · have hz2 : ¬ (c.segments.length : Int) > 0 := by omega
      rw [if_neg hz, if_neg hz2, List.nil_append]
  rw [hskip, parseSegmentsLoop_enc dir c.formatVer _ c.segments [] h10]
  simp only [List.nil_append]
  have hmap := readMapOfStrings_enc c.userData [] h11 h12
  rw [List.append_nil] at hmap
  rw [hmap]

/-! ## Decoding a well-formed .si file -/

theorem leUint_encLE32 (v : Int) : leUint (encLE32 v) = uint32 v := by
  have hu : uint32 v < 2 ^ 32 := by unfold uint32; omega
  simp only [leUint, encLE32, List.foldr, toByte]
  omega

theorem readMapLoop_enc (rest : List Byte) (kvs : List (GoString × GoString)) :
    ∀ m : GoMap, (∀ kv ∈ kvs, wfString kv.1 ∧ wfString kv.2) →
    readMapLoop kvs.length m
        (kvs.flatMap (fun kv => encString kv.1 ++ encString kv.2) ++ rest)
      = ⟨some (kvs.foldl (fun m kv => m.set kv.1 kv.2) m), none, rest⟩ := by
  induction kvs with
  | nil => intro m _; simp [readMapLoop]
  | cons kv kvs ih =>
    intro m h
    obtain ⟨h1, h2⟩ := h kv (List.mem_cons_self _ _)
    rw [List.length_cons, readMapLoop, List.flatMap_cons, List.append_assoc,
      List.append_assoc, readString_enc kv.1 _ h1]
    simp only
    rw [readString_enc kv.2 _ h2]
    simp only
    rw [ih _ (fun t ht => h t (List.mem_cons_of_mem _ ht))]
    simp

theorem readMap_enc (kvs : List (GoString × GoString)) (rest : List Byte)
    (hlen : kvs.length < 2 ^ 31) (h : ∀ kv ∈ kvs, wfString kv.1 ∧ wfString kv.2) :
    readMap (encStringMap kvs ++ rest) = ⟨some (mapOfPairs kvs), none, rest⟩ := by
  unfold readMap encStringMap mapOfPairs
  rw [List.append_assoc, readVInt_enc kvs.length _ hlen]
  simp only [Int.toNat_ofNat]
  rw [readMapLoop_enc rest kvs [] h]

theorem binaryRead_append (a rest : List Byte) (n : Nat) (h : a.length = n) :
    binaryRead (a ++ rest) n = ⟨some a, none, rest⟩ := by
  unfold binaryRead
  rw [readExactly_append a rest n h]

theorem storedByte_singleton (b : Byte) : storedByte (some [b]) = b.val := rfl

theorem storedInt32_some (bs : List Byte) : storedInt32 (some bs) = int32 (leUint bs) := rfl

/-- The .si decoder reads an encoded well-formed .si file back. -/
theorem parseSegmentSI_enc (dir : IndexDir) (name : GoString) (f : SIFile) (hw : wfSI f)
    (hf : dir.openFile (name ++ str ".si") = some (encSI f)) :
    parseSegmentSI dir name = resultOfSI f := by
  obtain ⟨h1, h2, h3, h4, h5, h6, h7, h8, h9, h10⟩ := hw
  have hmap := readMap_enc f.diagnostics [] h9 h10
  rw [List.append_nil] at hmap
  have hdoc : int32 (leUint (encLE32 f.docCount)) = f.docCount := by
    rw [leUint_encLE32, int32_uint32 f.docCount h8]
  unfold parseSegmentSI resultOfSI
  rw [hf]
  unfold encSI
  cases hmin : f.minVersion with
  | none =>
    have e1 : ∀ t : List Byte, binaryRead ([0] ++ t) 1 = ⟨some [0], none, t⟩ :=
      fun t => binaryRead_append [0] t 1 rfl
    simp only [readBEInt32_enc f.magic _ h1, readString_enc f.codec _ h2,
      readBEInt32_enc f.version _ h3, readExactly_append f.id _ 16 h4,
      readString_enc f.suffix _ h5, binaryRead_append f.writerVersion _ 12 h6, e1,
      storedByte_singleton, Fin.val_zero, zero_ne_one, if_false,
      binaryRead_append (encLE32 f.docCount) _ 4 rfl, storedInt32_some, hdoc, readByte, hmap]
  | some m =>
    have hm := h7 m hmin
    have e1 : ∀ t : List Byte, binaryRead (1 :: m ++ t) 1 = ⟨some [1], none, m ++ t⟩ :=
      fun t => binaryRead_append [1] (m ++ t) 1 rfl
    simp only [readBEInt32_enc f.magic _ h1, readString_enc f.codec _ h2,
      readBEInt32_enc f.version _ h3, readExactly_append f.id _ 16 h4,
      readString_enc f.suffix _ h5, binaryRead_append f.writerVersion _ 12 h6, e1,
      storedByte_singleton, Fin.val_one, if_true, binaryRead_append m _ 12 hm,
      binaryRead_append (encLE32 f.docCount) _ 4 rfl, storedInt32_some, hdoc, readByte, hmap]

/-! ## The claims about the commit-file decoder -/

/-- C1. For every well-formed commit file laid out as the decoder reads it
(magic, label string, format version, 16-byte id, suffix, 4 version bytes,
fixed64, varint64, segment count N, 3 bytes if N > 0, N segment records, string
map) whose referenced .si files are present and well-formed, parseSegmentsFile
returns no error and exactly N summaries in file order; the i-th summary
carries the i-th record's name, the hex of its id, its codec name and DelGen,
DelCount, FieldInfosGen, DVGen, SoftDelCount as stored in the record (not
clamped against MaxDoc), with MaxDoc, Compound and diagnostics of the segment's
.si file; the user data returned is the trailing map. -/
theorem parseSegmentsFile_wellFormed (dir : IndexDir) (segFile : GoString) (c : CommitFile)
    (si : GoString → SIFile) (hw : wfCommit c)
    (hf : dir.openFile segFile = some (encCommit c))
    (hsi : ∀ s ∈ c.segments, wfSI (si s.name) ∧
      dir.openFile (s.name ++ str ".si") = some (encSI (si s.name))) :
    parseSegmentsFile dir segFile =
      (c.segments.map (fun s => summaryOf c.formatVer s (resultOfSI (si s.name))),
       some (mapOfPairs c.userData), none) ∧
    (parseSegmentsFile dir segFile).1.length = c.segments.length := by
  have h1 : parseSegmentsFile dir segFile =
      (c.segments.map (fun s => summaryOf c.formatVer s (resultOfSI (si s.name))),
       some (mapOfPairs c.userData), none) := by
    rw [parseSegmentsFile_enc dir segFile c hw hf]
    congr 1
    apply List.map_congr_left
    intro s hs
    rw [parseSegmentSI_enc dir s.name (si s.name) (hsi s hs).1 (hsi s hs).2]
  refine ⟨h1, ?_⟩
  rw [h1]
  simp

set_option maxRecDepth 100000 in
/-- C1 on the example index: two segments, the second with a deletion count
above its document count. -/
theorem parseSegmentsFile_wellFormed_witness :
    parseSegmentsFile exampleDir (str "segments_2") =
      (exampleCommit.segments.map
        (fun s => summaryOf exampleCommit.formatVer s (resultOfSI (exampleSIOf s.name))),
       some (mapOfPairs exampleCommit.userData), none) ∧
    (parseSegmentsFile exampleDir (str "segments_2")).1.length = exampleCommit.segments.length :=
  parseSegmentsFile_wellFormed exampleDir (str "segments_2") exampleCommit exampleSIOf
    (by decide) (by decide) (by decide)

set_option maxRecDepth 100000 in
/-- The summaries and user data decoded from the example index, written out. -/
theorem parseSegmentsFile_example :
    parseSegmentsFile exampleDir (str "segments_2") =
      ([{ SegName := str "_0"
          SegID := str "00112233445566778899aabbccddeeff"
          SegCodec := str "Lucene90"
          MaxDoc := 1000
          Compound := true
          Files := []
          DelGen := -1
          DelCount := 0
          FieldInfosGen := -1
          DVGen := -1
          SoftDelCount := 0
          SciID := []
          Extra := some [(str "source", str "flush")] },
        { SegName := str "_1"
          SegID := str "abababababababababababababababab"
          SegCodec := str "Lucene90"
          MaxDoc := 5
          Compound := false
          Files := []
          DelGen := 3
          DelCount := 7
          FieldInfosGen := 2
          DVGen := 2
          SoftDelCount := 1
          SciID := str "5c5c5c5c5c5c5c5c5c5c5c5c5c5c5c5c"
          Extra := some [(str "source", str "flush")] }],
       some [(str "k", str "v2")], none) := by
  decide

theorem readBEInt32_ne_magic (f : List Byte)
    (hm : f.length < 4 ∨ beUint (f.take 4) ≠ 0x3fd76c17) :
    (readBEInt32 f).val ≠ CODEC_MAGIC := by
  unfold readBEInt32 readExactly
  by_cases h4 : 4 ≤ f.length
  · have hne : beUint (f.take 4) ≠ 0x3fd76c17 := by
      rcases hm with hm | hm
      · omega
      · exact hm
    rw [if_pos h4]
    simp only
    match f, h4 with
    | a :: b :: c :: d :: rest, _ =>
      simp only [List.take, beUint, List.foldl] at hne ⊢
      have ha := a.isLt
      have hb := b.isLt
      have hc := c.isLt
      have hd := d.isLt
      unfold int32 CODEC_MAGIC
      split_ifs <;> omega
  · rw [if_neg h4]
    simp only
    unfold CODEC_MAGIC
    omega

/-- C2. For every commit file whose first four bytes, read as a big-endian
32-bit integer, differ from the codec magic 0x3fd76c17 (or that is shorter than
four bytes), parseSegmentsFile returns an error with no summaries and no user
data, and buildReport returns an error and no report. -/
theorem bad_magic_rejected (dir : IndexDir) (segFile : GoString) (f : List Byte)
    (hf : dir.openFile segFile = some f)
    (hm : f.length < 4 ∨ beUint (f.take 4) ≠ 0x3fd76c17) :
    parseSegmentsFile dir segFile = ([], none, some Error.badMagic) ∧
    (findLatestSegmentsFile dir = (segFile, none) →
      buildReport dir = (none, some Error.badMagic)) := by
  have h1 := parseSegmentsFile_of_bad_magic dir segFile f hf (readBEInt32_ne_magic f hm)
  refine ⟨h1, ?_⟩
  intro hseg
  rw [buildReport_of_found dir segFile hseg, h1]

/-- C2 on a directory whose commit file starts with 0x3fd76c18. -/
theorem bad_magic_rejected_witness :
    parseSegmentsFile
        ⟨[], some [str "segments_1"], fun _ => some [0x3f, 0xd7, 0x6c, 0x18, 0, 0, 0, 0]⟩
        (str "segments_1") = ([], none, some Error.badMagic) ∧
    buildReport
        ⟨[], some [str "segments_1"], fun _ => some [0x3f, 0xd7, 0x6c, 0x18, 0, 0, 0, 0]⟩
        = (none, some Error.badMagic) :=
  ⟨(bad_magic_rejected
      ⟨[], some [str "segments_1"], fun _ => some [0x3f, 0xd7, 0x6c, 0x18, 0, 0, 0, 0]⟩
      (str "segments_1") [0x3f, 0xd7, 0x6c, 0x18, 0, 0, 0, 0] rfl (Or.inr (by decide))).1,
   (bad_magic_rejected
      ⟨[], some [str "segments_1"], fun _ => some [0x3f, 0xd7, 0x6c, 0x18, 0, 0, 0, 0]⟩
      (str "segments_1") [0x3f, 0xd7, 0x6c, 0x18, 0, 0, 0, 0] rfl (Or.inr (by decide))).2
      (by decide)⟩

/-- The report built from the example index. -/
theorem buildReport_example :
    buildReport exampleDir =
      (some { IndexPath := str "/idx"
              SegmentsFile := str "segments_2"
              TotalSegments := 2
              TotalDocs := 1005
              TotalDeletedDocs := 7
              TotalSoftDeletedDocs := 1
              UserData := (parseSegmentsFile exampleDir (str "segments_2")).2.1
              Segments := (parseSegmentsFile exampleDir (str "segments_2")).1
              Notes := reportNotes }, none) := by
  rw [buildReport_of_found exampleDir (str "segments_2") (by decide), parseSegmentsFile_example]
  decide

set_option maxRecDepth 100000 in
/-- C3 on the example index. -/
theorem buildReport_totals_witness :
    (1005 : Int) = ((parseSegmentsFile exampleDir (str "segments_2")).1.map
      (fun s => s.MaxDoc)).sum ∧
    (7 : Int) = ((parseSegmentsFile exampleDir (str "segments_2")).1.map
      (fun s => s.DelCount)).sum ∧
    (1 : Int) = ((parseSegmentsFile exampleDir (str "segments_2")).1.map
      (fun s => s.SoftDelCount)).sum ∧
    (2 : Int) = ((parseSegmentsFile exampleDir (str "segments_2")).1.length : Int) :=
  buildReport_totals exampleDir
    { IndexPath := str "/idx"
      SegmentsFile := str "segments_2"
      TotalSegments := 2
      TotalDocs := 1005
      TotalDeletedDocs := 7
      TotalSoftDeletedDocs := 1
      UserData := (parseSegmentsFile exampleDir (str "segments_2")).2.1
      Segments := (parseSegmentsFile exampleDir (str "segments_2")).1
      Notes := reportNotes } none buildReport_example

theorem parseSegmentsLoop_all (P : SegInfoSummary → Prop) (dir : IndexDir) (fv : Int)
    (hP : ∀ r, P (parseSegment dir fv r).1) (n : Nat) :
    ∀ (acc : List SegInfoSummary) (r : List Byte), (∀ s ∈ acc, P s) →
    ∀ s ∈ (parseSegmentsLoop dir fv n acc r).1, P s := by
  induction n with
  | zero => intro acc r h; exact h
  | succ n ih =>
    intro acc r h
    rw [parseSegmentsLoop]
    apply ih
    intro s hs
    rcases List.mem_append.1 hs with hs | hs
    · exact h s hs
    · rw [List.mem_singleton.1 hs]; exact hP r

theorem readSciId_old (fv : Int) (h : fv ≤ 9) (r : List Byte) :
    readSciId fv r = ⟨[], none, r⟩ := by
  unfold readSciId
  rw [if_neg (by omega)]

theorem parseSegment_SciID (dir : IndexDir) (fv : Int) (r : List Byte) :
    (parseSegment dir fv r).1.SciID =
      if (readSciId fv (readBEInt32 (readBELong (readBELong (readBEInt32 (readBELong
          (readString (readExactly (readString r).rest ID_LENGTH).rest).rest).rest).rest
          ).rest).rest).rest).val.length > 0
      then EncodeToString (readSciId fv (readBEInt32 (readBELong (readBELong (readBEInt32
          (readBELong (readString (readExactly (readString r).rest ID_LENGTH).rest).rest
          ).rest).rest).rest).rest).rest).val
      else [] := rfl

/-- C4. For every commit file with format version <= 9, parseSegmentsFile
consumes no secondary-id presence byte in any segment record (the reader is
handed unchanged to the read of the referenced-files set) and every summary's
SciID is empty; with format version > 9 it consumes exactly one presence byte
per segment, followed by 16 id bytes if and only if that byte equals 1, so that
in a well-formed commit file, also with presence bytes 0, every record and the
user data are decoded at their offsets. -/
theorem sci_presence_byte (dir : IndexDir) (fv : Int) (m : Byte) (r : List Byte) :
    (fv ≤ 9 → readSciId fv r = ⟨[], none, r⟩ ∧ (parseSegment dir fv r).1.SciID = []) ∧
    (∀ (segFile : GoString) (f : List Byte), dir.openFile segFile = some f →
      (readBEInt32 f).val = CODEC_MAGIC →
      (readCommitHeader (readBEInt32 f).rest).formatVer ≤ 9 →
      ∀ s ∈ (parseSegmentsFile dir segFile).1, s.SciID = []) ∧
    (fv > 9 → readSciId fv [] = ⟨[], none, []⟩ ∧
      readSciId fv (m :: r) =
        if m.val = 1 then ⟨(readExactly r 16).val, none, (readExactly r 16).rest⟩
        else ⟨[], none, r⟩) ∧
    (∀ (s : SegmentRecord) (rest : List Byte), wfSegment s →
      encSciId fv s.sciId =
        (if fv > 9 then (if s.sciId = none then [0] else 1 :: s.sciId.getD []) else []) ∧
      parseSegment dir fv (encSegment fv s ++ rest)
        = (summaryOf fv s (parseSegmentSI dir s.name), rest)) ∧
    (∀ (segFile : GoString) (c : CommitFile), wfCommit c →
      dir.openFile segFile = some (encCommit c) →
      parseSegmentsFile dir segFile =
        (c.segments.map (fun s => summaryOf c.formatVer s (parseSegmentSI dir s.name)),
          some (mapOfPairs c.userData), none)) := by
  refine ⟨?_, ?_, ?_, ?_, ?_⟩
  · intro h
    refine ⟨readSciId_old fv h r, ?_⟩
    rw [parseSegment_SciID, readSciId_old fv h]
    simp
  · intro segFile f hf hm hv
    rw [parseSegmentsFile_of_magic dir segFile f hf hm]
    apply parseSegmentsLoop_all (fun s => s.SciID = []) dir _ _ _ [] _ (by simp)
    intro r1
    rw [parseSegment_SciID, readSciId_old _ hv]
    simp
  · intro h
    unfold readSciId
    rw [if_pos h, if_pos h]
    refine ⟨by simp [readByte], ?_⟩
    simp only [readByte, ID_LENGTH]
  · intro s rest hs
    refine ⟨?_, parseSegment_enc dir fv s rest hs⟩
    unfold encSciId
    cases s.sciId <;> simp
  · intro segFile c hw hf
    exact parseSegmentsFile_enc dir segFile c hw hf

set_option maxRecDepth 100000 in
/-- C4 at format version 9 and at format version 10, and on the example commit
file, whose first record has the presence byte 0. -/
theorem sci_presence_byte_witness :
    (readSciId 9 [1, 2, 3] = ⟨[], none, [1, 2, 3]⟩ ∧
      (parseSegment exampleDir 9 [1, 2, 3]).1.SciID = []) ∧
    (readSciId 10 [] = ⟨[], none, []⟩ ∧
      readSciId 10 (0 :: [1, 2, 3]) =
        if (0 : Byte).val = 1 then
          ⟨(readExactly [1, 2, 3] 16).val, none, (readExactly [1, 2, 3] 16).rest⟩
        else ⟨[], none, [1, 2, 3]⟩) ∧
    (∀ s ∈ (parseSegmentsFile exampleDir (str "segments_1")).1, s.SciID = []) ∧
    parseSegmentsFile exampleDir (str "segments_2") =
      (exampleCommit.segments.map
        (fun s => summaryOf exampleCommit.formatVer s (parseSegmentSI exampleDir s.name)),
        some (mapOfPairs exampleCommit.userData), none) :=
  ⟨(sci_presence_byte exampleDir 9 0 [1, 2, 3]).1 (by decide),
   (sci_presence_byte exampleDir 10 0 [1, 2, 3]).2.2.1 (by decide),
   (sci_presence_byte exampleDir 9 0 []).2.1 (str "segments_1") (encCommit testCommit)
      (by decide) (by decide) (by decide),
   (sci_presence_byte exampleDir 9 0 []).2.2.2.2 (str "segments_2") exampleCommit
      (by decide) (by decide)⟩

theorem findLatestSegmentsFile_congr (dir dir2 : IndexDir) (h : dir2.entries = dir.entries) :
    findLatestSegmentsFile dir2 = findLatestSegmentsFile dir := by
  unfold findLatestSegmentsFile
  rw [h]

/-- The header steps on an encoded header followed by any bytes. -/
theorem readCommitHeader_of_layout (c : CommitFile) (n : Int) (tail : List Byte)
    (hw : wfCommit c) (hn : isInt32 n) :
    readBEInt32 (encCommitHeader c n ++ tail) = ⟨CODEC_MAGIC, none,
      (encString c.label ++ (encBE32 c.formatVer ++ (c.id ++
      (toByte c.suffix.length :: (c.suffix ++ (c.versions ++ (encBE64 c.infoVersion ++
      (encVLong c.counter ++ (encBE32 n ++ tail)))))))))⟩ ∧
    readCommitHeader (readBEInt32 (encCommitHeader c n ++ tail)).rest
      = ⟨c.formatVer, n, tail⟩ := by
  obtain ⟨h1, h2, h3, h4, h5, h6, h7, _⟩ := hw
  have hm : readBEInt32 (encCommitHeader c n ++ tail) = ⟨CODEC_MAGIC, none,
      (encString c.label ++ (encBE32 c.formatVer ++ (c.id ++
      (toByte c.suffix.length :: (c.suffix ++ (c.versions ++ (encBE64 c.infoVersion ++
      (encVLong c.counter ++ (encBE32 n ++ tail)))))))))⟩ := by
    unfold encCommitHeader
    simp only [List.append_assoc, List.cons_append]
    exact readBEInt32_magic _
  refine ⟨hm, ?_⟩
  rw [hm]
  exact readCommitHeader_enc c n tail h1 h2 h3 h4 h5 h6 h7 hn

/-- The report for a commit file that starts with the magic and whose segment
count reads as 0. -/
theorem buildReport_of_zero (dir : IndexDir) (segFile : GoString) (f : List Byte)
    (hseg : findLatestSegmentsFile dir = (segFile, none))
    (hf : dir.openFile segFile = some f)
    (hm : (readBEInt32 f).val = CODEC_MAGIC)
    (h0 : (readCommitHeader (readBEInt32 f).rest).numSegs = 0) :
    buildReport dir =
      (some { IndexPath := dir.path
              SegmentsFile := segFile
              TotalSegments := 0
              TotalDocs := 0
              TotalDeletedDocs := 0
              TotalSoftDeletedDocs := 0
              UserData := (readMapOfStrings (readCommitHeader (readBEInt32 f).rest).rest).val
              Segments := []
              Notes := reportNotes }, none) := by
  rw [buildReport_of_found dir segFile hseg, parseSegmentsFile_of_magic dir segFile f hf hm, h0]
  simp [skipMinSegmentVersion, parseSegmentsLoop, sumLoop]

/-- C5. For every commit file with valid magic that declares segment count 0,
buildReport succeeds with TotalSegments = 0, TotalDocs = 0, TotalDeletedDocs =
0, TotalSoftDeletedDocs = 0 and an empty segment list; the user-data map is
read directly after the count (the three minimum-segment-version bytes are not
consumed); and no .si file is opened: the report is the same in every
directory with the same path, listing and commit file. -/
theorem zero_segments_report (dir : IndexDir) (segFile : GoString) (f : List Byte)
    (hseg : findLatestSegmentsFile dir = (segFile, none))
    (hf : dir.openFile segFile = some f) :
    ((readBEInt32 f).val = CODEC_MAGIC →
      (readCommitHeader (readBEInt32 f).rest).numSegs = 0 →
      buildReport dir =
        (some { IndexPath := dir.path
                SegmentsFile := segFile
                TotalSegments := 0
                TotalDocs := 0
                TotalDeletedDocs := 0
                TotalSoftDeletedDocs := 0
                UserData :=
                  (readMapOfStrings (readCommitHeader (readBEInt32 f).rest).rest).val
                Segments := []
                Notes := reportNotes }, none) ∧
      ∀ dir2 : IndexDir, dir2.path = dir.path → dir2.entries = dir.entries →
        dir2.openFile segFile = some f → buildReport dir2 = buildReport dir) ∧
    (∀ (c : CommitFile) (tail : List Byte), wfCommit c → f = encCommitHeader c 0 ++ tail →
      buildReport dir =
        (some { IndexPath := dir.path
                SegmentsFile := segFile
                TotalSegments := 0
                TotalDocs := 0
                TotalDeletedDocs := 0
                TotalSoftDeletedDocs := 0
                UserData := (readMapOfStrings tail).val
                Segments := []
                Notes := reportNotes }, none)) := by
  constructor
  · intro hm h0
    refine ⟨buildReport_of_zero dir segFile f hseg hf hm h0, ?_⟩
    intro dir2 hp he hf2
    have hseg2 : findLatestSegmentsFile dir2 = (segFile, none) := by
      rw [findLatestSegmentsFile_congr dir dir2 he, hseg]
    rw [buildReport_of_zero dir segFile f hseg hf hm h0,
      buildReport_of_zero dir2 segFile f hseg2 hf2 hm h0, hp]
  · intro c tail hw hfe
    obtain ⟨h1, h2⟩ := readCommitHeader_of_layout c 0 tail hw (by unfold isInt32; omega)
    rw [← hfe] at h1 h2
    have hm : (readBEInt32 f).val = CODEC_MAGIC := by rw [h1]
    have h0 : (readCommitHeader (readBEInt32 f).rest).numSegs = 0 := by rw [h2]
    rw [buildReport_of_zero dir segFile f hseg hf hm h0, h2]

set_option maxRecDepth 100000 in
/-- C5 on the directory and commit file of `TestBuildReport`, and on that
commit file followed by three more bytes: they are read as the user data. -/
theorem zero_segments_report_witness :
    (buildReport testDir =
        (some { IndexPath := testDir.path
                SegmentsFile := str "segments_1"
                TotalSegments := 0
                TotalDocs := 0
                TotalDeletedDocs := 0
                TotalSoftDeletedDocs := 0
                UserData := (readMapOfStrings (readCommitHeader
                  (readBEInt32 (encCommit testCommit)).rest).rest).val
                Segments := []
                Notes := reportNotes }, none) ∧
      ∀ dir2 : IndexDir, dir2.path = testDir.path → dir2.entries = testDir.entries →
        dir2.openFile (str "segments_1") = some (encCommit testCommit) →
        buildReport dir2 = buildReport testDir) ∧
    buildReport ⟨[], some [str "segments_1"],
        fun _ => some (encCommitHeader testCommit 0 ++ [1, 0, 0])⟩ =
      (some { IndexPath := []
              SegmentsFile := str "segments_1"
              TotalSegments := 0
              TotalDocs := 0
              TotalDeletedDocs := 0
              TotalSoftDeletedDocs := 0
              UserData := (readMapOfStrings [1, 0, 0]).val
              Segments := []
              Notes := reportNotes }, none) :=
  ⟨(zero_segments_report testDir (str "segments_1") (encCommit testCommit)
      (by decide) (by decide)).1 (by decide) (by decide),
   (zero_segments_report
      ⟨[], some [str "segments_1"], fun _ => some (encCommitHeader testCommit 0 ++ [1, 0, 0])⟩
      (str "segments_1") (encCommitHeader testCommit 0 ++ [1, 0, 0])
      (by decide) rfl).2 testCommit [1, 0, 0] (by decide) rfl⟩

/-! ## Over-long varints -/

theorem readVIntLoop_rest (k : Nat) : ∀ (result shift : Nat) (r : List Byte),
    ∃ j, j ≤ k ∧ (readVIntLoop k result shift r).rest = r.drop j := by
  induction k with
  | zero => intro result shift r; exact ⟨0, le_refl _, rfl⟩
  | succ k ih =>
    intro result shift r
    cases r with
    | nil => exact ⟨0, by omega, rfl⟩
    | cons b r =>
      rw [readVIntLoop]
      simp only [readByte]
      by_cases hb : b.val &&& 0x80 = 0
      · rw [if_pos hb]; exact ⟨1, by omega, rfl⟩
      · rw [if_neg hb]
        obtain ⟨j, hj, he⟩ := ih (result ||| (((b.val &&& 0x7F) <<< shift) % 2 ^ 64))
          (shift + 7) r
        exact ⟨j + 1, by omega, by rw [he]; rfl⟩

theorem readVLongLoop_rest (k : Nat) : ∀ (result shift : Nat) (r : List Byte),
    ∃ j, j ≤ k ∧ (readVLongLoop k result shift r).rest = r.drop j := by
  induction k with
  | zero => intro result shift r; exact ⟨0, le_refl _, rfl⟩
  | succ k ih =>
    intro result shift r
    cases r with
    | nil => exact ⟨0, by omega, rfl⟩
    | cons b r =>
      rw [readVLongLoop]
      simp only [readByte]
      by_cases hb : b.val &&& 0x80 = 0
      · rw [if_pos hb]; exact ⟨1, by omega, rfl⟩
      · rw [if_neg hb]
        obtain ⟨j, hj, he⟩ := ih (result ||| (((b.val &&& 0x7F) <<< shift) % 2 ^ 64))
          (shift + 7) r
        exact ⟨j + 1, by omega, by rw [he]; rfl⟩

theorem readVIntLoop_overlong (bs : List Byte) : ∀ (result shift : Nat) (rest : List Byte),
    (∀ b ∈ bs, b.val &&& 0x80 ≠ 0) →
    readVIntLoop bs.length result shift (bs ++ rest) = ⟨0, some Error.invalidVInt, rest⟩ := by
  induction bs with
  | nil => intro result shift rest _; rfl
  | cons b bs ih =>
    intro result shift rest h
    rw [List.length_cons, List.cons_append, readVIntLoop]
    simp only [readByte]
    rw [if_neg (h b (List.mem_cons_self _ _))]
    exact ih _ _ rest (fun c hc => h c (List.mem_cons_of_mem _ hc))

theorem readVLongLoop_overlong (bs : List Byte) : ∀ (result shift : Nat) (rest : List Byte),
    (∀ b ∈ bs, b.val &&& 0x80 ≠ 0) →
    readVLongLoop bs.length result shift (bs ++ rest) = ⟨0, some Error.invalidVLong, rest⟩ := by
  induction bs with
  | nil => intro result shift rest _; rfl
  | cons b bs ih =>
    intro result shift rest h
    rw [List.length_cons, List.cons_append, readVLongLoop]
    simp only [readByte]
    rw [if_neg (h b (List.mem_cons_self _ _))]
    exact ih _ _ rest (fun c hc => h c (List.mem_cons_of_mem _ hc))

/-- C11. For every byte stream whose first 5 bytes all have the continuation
(high) bit set, readVInt returns an error and reads exactly those 5 bytes; for
every byte stream whose first 10 bytes all have the continuation bit set,
readVLong returns an error and reads exactly those 10 bytes; on every input
readVInt stops after at most 5 bytes and readVLong after at most 10. -/
theorem varint_too_long (bs rest r : List Byte) (h : ∀ b ∈ bs, b.val &&& 0x80 ≠ 0) :
    (bs.length = 5 → readVInt (bs ++ rest) = ⟨0, some Error.invalidVInt, rest⟩) ∧
    (bs.length = 10 → readVLong (bs ++ rest) = ⟨0, some Error.invalidVLong, rest⟩) ∧
    (∃ j, j ≤ 5 ∧ (readVInt r).rest = r.drop j) ∧
    (∃ j, j ≤ 10 ∧ (readVLong r).rest = r.drop j) := by
  refine ⟨?_, ?_, readVIntLoop_rest 5 0 0 r, readVLongLoop_rest 10 0 0 r⟩
  · intro h5
    have := readVIntLoop_overlong bs 0 0 rest h
    rw [h5] at this
    exact this
  · intro h10
    have := readVLongLoop_overlong bs 0 0 rest h
    rw [h10] at this
    exact this

set_option maxRecDepth 100000 in
/-- C11 on five bytes 0x80 and on ten bytes 0xff, each followed by the byte 7. -/
theorem varint_too_long_witness :
    readVInt ([0x80, 0x80, 0x80, 0x80, 0x80] ++ [7]) = ⟨0, some Error.invalidVInt, [7]⟩ ∧
    readVLong ([0xff, 0xff, 0xff, 0xff, 0xff, 0xff, 0xff, 0xff, 0xff, 0xff] ++ [7])
      = ⟨0, some Error.invalidVLong, [7]⟩ :=
  ⟨(varint_too_long [0x80, 0x80, 0x80, 0x80, 0x80] [7] [] (by decide)).1 rfl,
   (varint_too_long [0xff, 0xff, 0xff, 0xff, 0xff, 0xff, 0xff, 0xff, 0xff, 0xff] [7] []
      (by decide)).2.1 rfl⟩

/-! ## Read failures behind the magic -/

theorem readBEInt32_magic_bytes (t : List Byte) :
    readBEInt32 ([0x3f, 0xd7, 0x6c, 0x17] ++ t) = ⟨CODEC_MAGIC, none, t⟩ := by
  have h := readBEInt32_magic t
  have he : encBE32 CODEC_MAGIC = [0x3f, 0xd7, 0x6c, 0x17] := by decide
  rw [he] at h
  exact h

/-- The error of `parseSegmentsFile` is nil once the file opens and starts with the magic. -/
theorem parseSegmentsFile_err_of_magic (dir : IndexDir) (segFile : GoString) (f : List Byte)
    (hf : dir.openFile segFile = some f) (hm : (readBEInt32 f).val = CODEC_MAGIC) :
    (parseSegmentsFile dir segFile).2.2 = none := by
  rw [parseSegmentsFile_of_magic dir segFile f hf hm]

/-- A report is built whenever a commit file is found and decoded without error. -/
theorem buildReport_of_no_error (dir : IndexDir) (segFile : GoString)
    (hseg : findLatestSegmentsFile dir = (segFile, none))
    (he : (parseSegmentsFile dir segFile).2.2 = none) :
    ∃ rep, buildReport dir = (some rep, none) ∧
      rep.Segments = (parseSegmentsFile dir segFile).1 ∧
      rep.UserData = (parseSegmentsFile dir segFile).2.1 ∧
      rep.IndexPath = dir.path ∧ rep.SegmentsFile = segFile := by
  rw [buildReport_of_found dir segFile hseg]
  simp only [he]
  exact ⟨_, rfl, rfl, rfl, rfl, rfl⟩

set_option maxRecDepth 100000 in
/-- C12 as stated fails: a commit file that ends directly behind the magic, and
the example commit file cut off after 60 bytes, are decoded with a nil error,
and a report is built. -/
theorem truncated_commit_counterexample :
    parseSegmentsFile (singleFileDir (str "segments_1") [0x3f, 0xd7, 0x6c, 0x17])
      (str "segments_1") = ([], none, none) ∧
    (buildReport (singleFileDir (str "segments_1") [0x3f, 0xd7, 0x6c, 0x17])).2 = none ∧
    (buildReport (singleFileDir (str "segments_1") [0x3f, 0xd7, 0x6c, 0x17])).1 ≠ none ∧
    (parseSegmentsFile (singleFileDir (str "segments_1") ((encCommit exampleCommit).take 60))
      (str "segments_1")).2.2 = none ∧
    (parseSegmentsFile (singleFileDir (str "segments_1") ((encCommit exampleCommit).take 60))
      (str "segments_1")).1.length = 2 := by
  decide

/-- What `parseSegmentsFile` and `buildReport` return, when their allocations
are granted, on a commit file with valid magic (a nil error and a report,
whatever follows the magic) and on one shorter than four bytes (the error
"bad segments magic", no summaries and no report). -/
theorem truncation_not_reported (dir : IndexDir) (segFile : GoString) (f t : List Byte)
    (hf : dir.openFile segFile = some f) :
    (f = [0x3f, 0xd7, 0x6c, 0x17] ++ t →
      (parseSegmentsFile dir segFile).2.2 = none ∧
      (findLatestSegmentsFile dir = (segFile, none) →
        ∃ rep, buildReport dir = (some rep, none))) ∧
    (f.length < 4 →
      parseSegmentsFile dir segFile = ([], none, some Error.badMagic) ∧
      (findLatestSegmentsFile dir = (segFile, none) →
        buildReport dir = (none, some Error.badMagic))) := by
  constructor
  · intro hft
    have hm : (readBEInt32 f).val = CODEC_MAGIC := by rw [hft, readBEInt32_magic_bytes]
    have he := parseSegmentsFile_err_of_magic dir segFile f hf hm
    refine ⟨he, ?_⟩
    intro hseg
    obtain ⟨rep, hrep, _⟩ := buildReport_of_no_error dir segFile hseg he
    exact ⟨rep, hrep⟩
  · intro hlen
    have h1 := parseSegmentsFile_of_bad_magic dir segFile f hf
      (readBEInt32_ne_magic f (Or.inl hlen))
    refine ⟨h1, ?_⟩
    intro hseg
    rw [buildReport_of_found dir segFile hseg, h1]

set_option maxRecDepth 100000 in
/-- C13 as stated fails: in a directory that holds the example commit file and
no .si file, parseSegmentsFile returns a nil error and a summary for each of
the two segments, with document count 0, and buildReport returns a report. -/
theorem missing_si_counterexample :
    (parseSegmentsFile (singleFileDir (str "segments_2") (encCommit exampleCommit))
      (str "segments_2")).2.2 = none ∧
    (parseSegmentsFile (singleFileDir (str "segments_2") (encCommit exampleCommit))
      (str "segments_2")).1.map (fun s => (s.SegName, s.MaxDoc))
      = [(str "_0", 0), (str "_1", 0)] ∧
    parseSegmentSI (singleFileDir (str "segments_2") (encCommit exampleCommit)) (str "_0")
      = ⟨0, false, none, some Error.openFailed⟩ ∧
    (buildReport (singleFileDir (str "segments_2") (encCommit exampleCommit))).2 = none ∧
    (buildReport (singleFileDir (str "segments_2") (encCommit exampleCommit))).1.map
      (fun rep => rep.TotalSegments) = some 2 := by
  decide

/-- What `parseSegmentsFile` and `buildReport` return, when their allocations
are granted, on a well-formed commit file: a nil error and one summary per
record, with the values `parseSegmentSI` returned for it, which are document
count 0, compound flag false and nil diagnostics when the .si file cannot be
opened. -/
theorem si_failure_not_fatal (dir : IndexDir) (segFile : GoString) (c : CommitFile)
    (hw : wfCommit c) (hf : dir.openFile segFile = some (encCommit c)) :
    parseSegmentsFile dir segFile =
      (c.segments.map (fun s => summaryOf c.formatVer s (parseSegmentSI dir s.name)),
        some (mapOfPairs c.userData), none) ∧
    (∀ s ∈ c.segments, dir.openFile (s.name ++ str ".si") = none →
      summaryOf c.formatVer s (parseSegmentSI dir s.name)
        = summaryOf c.formatVer s ⟨0, false, none, some Error.openFailed⟩) ∧
    (findLatestSegmentsFile dir = (segFile, none) →
      ∃ rep, buildReport dir = (some rep, none) ∧
        rep.Segments = c.segments.map
          (fun s => summaryOf c.formatVer s (parseSegmentSI dir s.name))) := by
  have h1 := parseSegmentsFile_enc dir segFile c hw hf
  refine ⟨h1, ?_, ?_⟩
  · intro s _ hs
    have : parseSegmentSI dir s.name = ⟨0, false, none, some Error.openFailed⟩ := by
      unfold parseSegmentSI
      rw [hs]
    rw [this]
  · intro hseg
    obtain ⟨rep, hrep, hsegs, _⟩ := buildReport_of_no_error dir segFile hseg (by rw [h1])
    exact ⟨rep, hrep, by rw [hsegs, h1]⟩

/-! ## The .si decoder on raw fields -/

theorem readBEInt32_rest (a rest : List Byte) (h : a.length = 4) :
    (readBEInt32 (a ++ rest)).rest = rest := by
  unfold readBEInt32
  rw [readExactly_append a rest 4 h]

theorem parseSegmentSI_err (dir : IndexDir) (name : GoString) :
    (parseSegmentSI dir name).err ≠ none ↔ dir.openFile (name ++ str ".si") = none := by
  unfold parseSegmentSI
  cases dir.openFile (name ++ str ".si") with
  | none => simp
  | some f => simp

/-- The .si decoder on a file that starts with well-formed fields up to the
document count: the count is the little-endian value of its 4 bytes, and the
compound byte and the diagnostics are read from what follows. -/
theorem parseSegmentSI_head (dir : IndexDir) (name : GoString) (f : SIFields)
    (tail : List Byte) (hw : wfSIFields f)
    (hf : dir.openFile (name ++ str ".si") = some (encSIHead f ++ tail)) :
    parseSegmentSI dir name =
      ⟨int32 (leUint f.docCount), (readByte tail).val.val = 1,
        (readMap (readByte tail).rest).val, none⟩ := by
  obtain ⟨h1, h2, h3, h4, h5, h6, h7, h8⟩ := hw
  have e1 : ∀ t : List Byte, binaryRead (f.presence :: t) 1 = ⟨some [f.presence], none, t⟩ :=
    fun t => binaryRead_append [f.presence] t 1 rfl
  unfold parseSegmentSI
  rw [hf]
  unfold encSIHead
  by_cases hp : f.presence.val = 1
  · rw [if_pos hp] at h7
    simp only [List.append_assoc, List.cons_append, readBEInt32_rest f.magic _ h1,
      readString_enc f.codec _ h2, readBEInt32_rest f.version _ h3,
      readExactly_append f.id _ 16 h4, readString_enc f.suffix _ h5,
      binaryRead_append f.writerVersion _ 12 h6, e1, storedByte_singleton, hp, if_true,
      binaryRead_append f.minVersion _ 12 h7, binaryRead_append f.docCount _ 4 h8,
      storedInt32_some]
  · rw [if_neg hp] at h7
    have hnil : f.minVersion = [] := List.length_eq_zero.1 h7
    simp only [hnil, List.nil_append, List.append_assoc, List.cons_append,
      readBEInt32_rest f.magic _ h1,
      readString_enc f.codec _ h2, readBEInt32_rest f.version _ h3,
      readExactly_append f.id _ 16 h4, readString_enc f.suffix _ h5,
      binaryRead_append f.writerVersion _ 12 h6, e1, storedByte_singleton, hp, if_false,
      binaryRead_append f.docCount _ 4 h8, storedInt32_some]

set_option maxRecDepth 100000 in
/-- C14 as stated fails: an empty .si file, and a .si file whose diagnostics
count is an over-long varint, are decoded with a nil error. -/
theorem truncated_si_counterexample :
    parseSegmentSI (singleFileDir (str "_0.si") []) (str "_0") = ⟨0, false, none, none⟩ ∧
    parseSegmentSI
      (singleFileDir (str "_0.si")
        (encSIHead (exampleSIFields 0 [] [5, 0, 0, 0]) ++ [1, 0x80, 0x80, 0x80, 0x80, 0x80]))
      (str "_0") = ⟨5, true, none, none⟩ := by
  decide

/-- The error that `parseSegmentSI` returns, when its allocations are granted,
is nil exactly when the .si file can be opened. -/
theorem parseSegmentSI_error_iff_open_fails (dir : IndexDir) (name : GoString) :
    ((parseSegmentSI dir name).err ≠ none ↔ dir.openFile (name ++ str ".si") = none) ∧
    (∀ f, dir.openFile (name ++ str ".si") = some f → (parseSegmentSI dir name).err = none) := by
  refine ⟨parseSegmentSI_err dir name, ?_⟩
  intro f hf
  by_contra hne
  rw [(parseSegmentSI_err dir name).1 hne] at hf
  simp at hf

set_option maxRecDepth 100000 in
/-- C15 as stated fails: behind the header, the bytes 9, 0, 0 (a version in
three single bytes), the byte 0 and the bytes 5, 0, 0, 0 would give the
document count 5; the decoder takes the first 12 bytes behind the header as
the version, the thirteenth as the presence byte, and returns the document
count 42 stored behind it. -/
theorem version_three_bytes_counterexample :
    int32 (leUint [5, 0, 0, 0]) = 5 ∧
    (parseSegmentSI
      (singleFileDir (str "_0.si")
        (encSIHeader (exampleSIFields 0 [] []) ++ ([9, 0, 0] ++ ([0] ++ ([5, 0, 0, 0] ++
          [1, 0, 0, 0, 0, 42, 0, 0, 0, 1, 0])))))
      (str "_0")).docCount = 42 := by
  decide

/-- C15, amended. parseSegmentSI reads the writer version triple as three
little-endian 32-bit integers (12 bytes) following the header, so that the
minimum-version presence byte is the thirteenth byte after the header; when
that byte is not 1 the document count occupies the four bytes directly after
it, and when it is 1 the four bytes after the 12 bytes of the minimum
version. -/
theorem version_twelve_bytes (dir : IndexDir) (name : GoString) (f : SIFields)
    (tail : List Byte) (hw : wfSIFields f)
    (hf : dir.openFile (name ++ str ".si") = some (encSIHead f ++ tail)) :
    encSIHead f = encSIHeader f ++ (f.writerVersion ++ (f.presence :: (f.minVersion ++
      f.docCount))) ∧
    f.writerVersion.length = 12 ∧
    (f.presence.val ≠ 1 → f.minVersion = []) ∧
    (f.presence.val = 1 → f.minVersion.length = 12) ∧
    (parseSegmentSI dir name).docCount = int32 (leUint f.docCount) := by
  have h := parseSegmentSI_head dir name f tail hw hf
  obtain ⟨_, _, _, _, _, h6, h7, _⟩ := hw
  refine ⟨?_, h6, ?_, ?_, by rw [h]⟩
  · unfold encSIHead encSIHeader
    simp only [List.append_assoc]
  · intro hp
    rw [if_neg hp] at h7
    exact List.length_eq_zero.1 h7
  · intro hp
    rw [if_pos hp] at h7
    exact h7

set_option maxRecDepth 100000 in
/-- C15, amended, on a file with presence byte 0 and document count 42. -/
theorem version_twelve_bytes_witness :
    encSIHead (exampleSIFields 0 [] [42, 0, 0, 0]) =
      encSIHeader (exampleSIFields 0 [] [42, 0, 0, 0]) ++
        ((exampleSIFields 0 [] [42, 0, 0, 0]).writerVersion ++
        ((exampleSIFields 0 [] [42, 0, 0, 0]).presence ::
        ((exampleSIFields 0 [] [42, 0, 0, 0]).minVersion ++
          (exampleSIFields 0 [] [42, 0, 0, 0]).docCount))) ∧
    (exampleSIFields 0 [] [42, 0, 0, 0]).writerVersion.length = 12 ∧
    ((exampleSIFields 0 [] [42, 0, 0, 0]).presence.val ≠ 1 →
      (exampleSIFields 0 [] [42, 0, 0, 0]).minVersion = []) ∧
    ((exampleSIFields 0 [] [42, 0, 0, 0]).presence.val = 1 →
      (exampleSIFields 0 [] [42, 0, 0, 0]).minVersion.length = 12) ∧
    (parseSegmentSI
      (singleFileDir (str "_0.si") (encSIHead (exampleSIFields 0 [] [42, 0, 0, 0]) ++ [1, 0]))
      (str "_0")).docCount = int32 (leUint (exampleSIFields 0 [] [42, 0, 0, 0]).docCount) :=
  version_twelve_bytes
    (singleFileDir (str "_0.si") (encSIHead (exampleSIFields 0 [] [42, 0, 0, 0]) ++ [1, 0]))
    (str "_0") (exampleSIFields 0 [] [42, 0, 0, 0]) [1, 0] (by decide) (by decide)

/-- C16. For every .si file consisting of a header (4 bytes, a string, 4
bytes, 16 bytes, a string), a writer version (12 bytes), a presence byte p, a
second version of the same size if and only if p = 1, four bytes d, one byte c
and an encoded string map m, parseSegmentSI returns no error, a document count
equal to d decoded as a little-endian signed 32-bit integer, a compound flag
that is true exactly when c = 1, and diagnostics equal to m. -/
theorem parseSegmentSI_layout (dir : IndexDir) (name : GoString) (f : SIFields) (c : Byte)
    (m : List (GoString × GoString)) (hw : wfSIFields f) (hlen : m.length < 2 ^ 31)
    (hm : ∀ kv ∈ m, wfString kv.1 ∧ wfString kv.2)
    (hf : dir.openFile (name ++ str ".si") = some (encSIHead f ++ (c :: encStringMap m))) :
    parseSegmentSI dir name =
      ⟨int32 (leUint f.docCount), c.val = 1, some (mapOfPairs m), none⟩ ∧
    ((parseSegmentSI dir name).isCompound = true ↔ c.val = 1) := by
  have h := parseSegmentSI_head dir name f (c :: encStringMap m) hw hf
  have hmap := readMap_enc m [] hlen hm
  rw [List.append_nil] at hmap
  simp only [readByte, hmap] at h
  refine ⟨h, ?_⟩
  rw [h]
  simp

set_option maxRecDepth 100000 in
/-- C16 on a file with a minimum version, the document count 0xfffffffe = -2,
the compound byte 2 and one diagnostics pair. -/
theorem parseSegmentSI_layout_witness :
    parseSegmentSI
      (singleFileDir (str "_0.si")
        (encSIHead (exampleSIFields 1 [9, 0, 0, 0, 0, 0, 0, 0, 0, 0, 0, 0]
          [0xfe, 0xff, 0xff, 0xff]) ++ (2 :: encStringMap [(str "os", str "linux")])))
      (str "_0")
      = ⟨int32 (leUint (exampleSIFields 1 [9, 0, 0, 0, 0, 0, 0, 0, 0, 0, 0, 0]
          [0xfe, 0xff, 0xff, 0xff]).docCount), (2 : Byte).val = 1,
          some (mapOfPairs [(str "os", str "linux")]), none⟩ ∧
    ((parseSegmentSI
      (singleFileDir (str "_0.si")
        (encSIHead (exampleSIFields 1 [9, 0, 0, 0, 0, 0, 0, 0, 0, 0, 0, 0]
          [0xfe, 0xff, 0xff, 0xff]) ++ (2 :: encStringMap [(str "os", str "linux")])))
      (str "_0")).isCompound = true ↔ (2 : Byte).val = 1) :=
  parseSegmentSI_layout
    (singleFileDir (str "_0.si")
      (encSIHead (exampleSIFields 1 [9, 0, 0, 0, 0, 0, 0, 0, 0, 0, 0, 0]
        [0xfe, 0xff, 0xff, 0xff]) ++ (2 :: encStringMap [(str "os", str "linux")])))
    (str "_0")
    (exampleSIFields 1 [9, 0, 0, 0, 0, 0, 0, 0, 0, 0, 0, 0] [0xfe, 0xff, 0xff, 0xff]) 2
    [(str "os", str "linux")] (by decide) (by decide) (by decide) (by decide)

/-- C17. For every index directory and segment name whose "<name>.si" file
does not exist, parseSegmentSI returns a non-nil error together with document
count 0, compound flag false and a nil diagnostics map. -/
theorem parseSegmentSI_missing (dir : IndexDir) (name : GoString)
    (h : dir.openFile (name ++ str ".si") = none) :
    (parseSegmentSI dir name).err ≠ none ∧ (parseSegmentSI dir name).docCount = 0 ∧
    (parseSegmentSI dir name).isCompound = false ∧ (parseSegmentSI dir name).diag = none := by
  unfold parseSegmentSI
  rw [h]
  simp

/-- C17 on the name of the repository's test, in a directory without that file. -/
theorem parseSegmentSI_missing_witness :
    (parseSegmentSI testDir (str "non_existent_segment")).err ≠ none ∧
    (parseSegmentSI testDir (str "non_existent_segment")).docCount = 0 ∧
    (parseSegmentSI testDir (str "non_existent_segment")).isCompound = false ∧
    (parseSegmentSI testDir (str "non_existent_segment")).diag = none :=
  parseSegmentSI_missing testDir (str "non_existent_segment") (by decide)

/-! ## Signs of the totals -/

theorem sum_nonneg_of_forall (l : List Int) (h : ∀ x ∈ l, 0 ≤ x) : 0 ≤ l.sum := by
  induction l with
  | nil => simp
  | cons a l ih =>
    rw [List.sum_cons]
    have h1 := h a (List.mem_cons_self _ _)
    have h2 := ih (fun x hx => h x (List.mem_cons_of_mem _ hx))
    omega

/-- The totals of a report are the exact sums over its summaries. -/
theorem buildReport_sums (dir : IndexDir) (rep : Report) (e : Option Error)
    (h : buildReport dir = (some rep, e)) :
    rep.TotalDocs = (rep.Segments.map (fun s => s.MaxDoc)).sum ∧
    rep.TotalDeletedDocs = (rep.Segments.map (fun s => s.DelCount)).sum ∧
    rep.TotalSoftDeletedDocs = (rep.Segments.map (fun s => s.SoftDelCount)).sum ∧
    rep.TotalSegments = (rep.Segments.length : Int) := by
  obtain ⟨_, _, _, hrep⟩ := buildReport_some dir rep e h
  obtain ⟨hlen, hr⟩ := parseSegmentsFile_range dir (findLatestSegmentsFile dir).1
  have hs := sumLoop_exact _ 0 0 0 0 hr (by omega) (by simp) (by simp) (by simp)
  rw [hrep, hs]
  simp

set_option maxRecDepth 100000 in
/-- C18 as stated fails: the commit file of one segment whose stored deletion
count is -5 gives a report with TotalDeletedDocs = -5. -/
theorem negative_total_counterexample :
    (buildReport (singleFileDir (str "segments_1") (encCommit negativeCommit))).2 = none ∧
    (buildReport (singleFileDir (str "segments_1") (encCommit negativeCommit))).1.map
      (fun rep => rep.TotalDeletedDocs) = some (-5) := by
  decide

/-- C18, amended. For every report returned by buildReport, TotalSegments is
non-negative, and each of TotalDocs, TotalDeletedDocs and TotalSoftDeletedDocs
is non-negative whenever the corresponding count (MaxDoc, DelCount,
SoftDelCount) of every segment summary of the report is non-negative. -/
theorem totals_nonneg (dir : IndexDir) (rep : Report) (e : Option Error)
    (h : buildReport dir = (some rep, e)) :
    0 ≤ rep.TotalSegments ∧
    ((∀ s ∈ rep.Segments, 0 ≤ s.MaxDoc) → 0 ≤ rep.TotalDocs) ∧
    ((∀ s ∈ rep.Segments, 0 ≤ s.DelCount) → 0 ≤ rep.TotalDeletedDocs) ∧
    ((∀ s ∈ rep.Segments, 0 ≤ s.SoftDelCount) → 0 ≤ rep.TotalSoftDeletedDocs) := by
  obtain ⟨h1, h2, h3, h4⟩ := buildReport_sums dir rep e h
  refine ⟨by rw [h4]; omega, ?_, ?_, ?_⟩
  · intro hs
    rw [h1]
    apply sum_nonneg_of_forall
    intro x hx
    obtain ⟨s, hs1, rfl⟩ := List.mem_map.1 hx
    exact hs s hs1
  · intro hs
    rw [h2]
    apply sum_nonneg_of_forall
    intro x hx
    obtain ⟨s, hs1, rfl⟩ := List.mem_map.1 hx
    exact hs s hs1
  · intro hs
    rw [h3]
    apply sum_nonneg_of_forall
    intro x hx
    obtain ⟨s, hs1, rfl⟩ := List.mem_map.1 hx
    exact hs s hs1

set_option maxRecDepth 100000 in
/-- C18, amended, on the report of the example index. -/
theorem totals_nonneg_witness :
    (0 : Int) ≤ 2 ∧ (0 : Int) ≤ 1005 ∧ (0 : Int) ≤ 7 ∧ (0 : Int) ≤ 1 :=
  ⟨(totals_nonneg exampleDir
      { IndexPath := str "/idx"
        SegmentsFile := str "segments_2"
        TotalSegments := 2
        TotalDocs := 1005
        TotalDeletedDocs := 7
        TotalSoftDeletedDocs := 1
        UserData := (parseSegmentsFile exampleDir (str "segments_2")).2.1
        Segments := (parseSegmentsFile exampleDir (str "segments_2")).1
        Notes := reportNotes } none buildReport_example).1,
   (totals_nonneg exampleDir
      { IndexPath := str "/idx"
        SegmentsFile := str "segments_2"
        TotalSegments := 2
        TotalDocs := 1005
        TotalDeletedDocs := 7
        TotalSoftDeletedDocs := 1
        UserData := (parseSegmentsFile exampleDir (str "segments_2")).2.1
        Segments := (parseSegmentsFile exampleDir (str "segments_2")).1
        Notes := reportNotes } none buildReport_example).2.1
      (by rw [parseSegmentsFile_example]; decide),
   (totals_nonneg exampleDir
      { IndexPath := str "/idx"
        SegmentsFile := str "segments_2"
        TotalSegments := 2
        TotalDocs := 1005
        TotalDeletedDocs := 7
        TotalSoftDeletedDocs := 1
        UserData := (parseSegmentsFile exampleDir (str "segments_2")).2.1
        Segments := (parseSegmentsFile exampleDir (str "segments_2")).1
        Notes := reportNotes } none buildReport_example).2.2.1
      (by rw [parseSegmentsFile_example]; decide),
   (totals_nonneg exampleDir
      { IndexPath := str "/idx"
        SegmentsFile := str "segments_2"
        TotalSegments := 2
        TotalDocs := 1005
        TotalDeletedDocs := 7
        TotalSoftDeletedDocs := 1
        UserData := (parseSegmentsFile exampleDir (str "segments_2")).2.1
        Segments := (parseSegmentsFile exampleDir (str "segments_2")).1
        Notes := reportNotes } none buildReport_example).2.2.2
      (by rw [parseSegmentsFile_example]; decide)⟩

/-! ## Strings and string maps -/

set_option maxRecDepth 100000 in
theorem low7_lt : ∀ b : Byte, b.val &&& 0x7F < 128 := by
  decide

/-- The value of `readVInt`'s loop is non-negative and below
`2 ^ (shift + 7 * k)`. -/
theorem readVIntLoop_bound (k : Nat) : ∀ (result shift : Nat) (r : List Byte),
    result < 2 ^ shift → shift + 7 * k ≤ 63 →
    0 ≤ (readVIntLoop k result shift r).val ∧
    (readVIntLoop k result shift r).val < 2 ^ (shift + 7 * k) := by
  induction k with
  | zero =>
    intro result shift r _ _
    simp only [readVIntLoop]
    exact ⟨le_refl _, by positivity⟩
  | succ k ih =>
    intro result shift r hr hs
    have hpos : (0 : Int) < 2 ^ (shift + 7 * (k + 1)) := by positivity
    cases r with
    | nil =>
      simp only [readVIntLoop, readByte]
      exact ⟨le_refl _, hpos⟩
    | cons b r =>
      rw [readVIntLoop]
      simp only [readByte]
      have hc := low7_lt b
      have hpow : 2 ^ (shift + 7) = 2 ^ shift * 128 := by rw [pow_add]; norm_num
      have hmul : (b.val &&& 0x7F) * 2 ^ shift ≤ 127 * 2 ^ shift :=
        Nat.mul_le_mul_right _ (by omega)
      have hlt : result + (b.val &&& 0x7F) * 2 ^ shift < 2 ^ (shift + 7) := by
        rw [hpow]; omega
      have h63 : (2 : Nat) ^ (shift + 7) ≤ 2 ^ 63 :=
        Nat.pow_le_pow_right (by decide) (by omega)
      have hle : (2 : Nat) ^ (shift + 7) ≤ 2 ^ (shift + 7 * (k + 1)) :=
        Nat.pow_le_pow_right (by decide) (by omega)
      rw [or_shift_eq_add result (b.val &&& 0x7F) shift hr (by omega)]
      by_cases hb : b.val &&& 0x80 = 0
      · rw [if_pos hb]
        simp only
        rw [int64_of_lt _ (by omega)]
        constructor
        · omega
        · have : ((result + (b.val &&& 0x7F) * 2 ^ shift : Nat) : Int)
              < ((2 ^ (shift + 7 * (k + 1)) : Nat) : Int) := by
            exact_mod_cast lt_of_lt_of_le hlt hle
          simpa using this
      · rw [if_neg hb]
        have := ih (result + (b.val &&& 0x7F) * 2 ^ shift) (shift + 7) r hlt (by omega)
        have he : shift + 7 + 7 * k = shift + 7 * (k + 1) := by ring
        rw [he] at this
        exact this

theorem readVInt_nonneg (r : List Byte) : 0 ≤ (readVInt r).val :=
  (readVIntLoop_bound 5 0 0 r (by norm_num) (by norm_num)).1

/-- What `readString` returns, when its buffer is granted, on a stream that
begins with a varint encoding a length n: the next n bytes unchanged and the
reader behind them when n bytes follow, an error and the empty string when
fewer follow. -/
theorem readString_verbatim (r r1 : List Byte) (n : Int)
    (h : readVInt r = ⟨n, none, r1⟩) :
    0 ≤ n ∧
    (n.toNat ≤ r1.length → readString r = ⟨r1.take n.toNat, none, r1.drop n.toNat⟩) ∧
    (r1.length < n.toNat → (readString r).err ≠ none ∧ (readString r).val = []) ∧
    (∀ (s : GoString) (rest : List Byte), wfString s →
      readString (encString s ++ rest) = ⟨s, none, rest⟩) := by
  have h0 : 0 ≤ n := by
    have := readVInt_nonneg r
    rw [h] at this
    exact this
  refine ⟨h0, ?_, ?_, fun s rest hs => readString_enc s rest hs⟩
  · intro hle
    unfold readString
    rw [h]
    simp only
    rw [if_neg (by omega)]
    by_cases hz : n = 0
    · rw [if_pos hz, hz]
      simp
    · rw [if_neg hz]
      unfold readExactly
      rw [if_pos hle]
  · intro hlt
    unfold readString
    rw [h]
    simp only
    have hz : ¬ n = 0 := by omega
    rw [if_neg (by omega), if_neg hz]
    unfold readExactly
    rw [if_neg (by omega)]
    simp

theorem GoMap.get_set (m : GoMap) (k v k1 : GoString) :
    (m.set k v).get k1 = if k = k1 then some v else m.get k1 := by
  induction m with
  | nil => simp [GoMap.set, GoMap.get]
  | cons kv m ih =>
    obtain ⟨a, b⟩ := kv
    rw [GoMap.set]
    by_cases ha : a = k
    · rw [if_pos ha]
      simp only [GoMap.get]
      by_cases hk : k = k1
      · simp [hk]
      · have : ¬ a = k1 := by rw [ha]; exact hk
        simp [hk, this]
    · rw [if_neg ha]
      simp only [GoMap.get]
      by_cases hk : a = k1
      · have : ¬ k = k1 := by rw [← hk]; exact fun h => ha h.symm
        simp [hk, this]
      · simp only [if_neg hk, ih]

theorem get_foldl_set (kvs : List (GoString × GoString)) : ∀ (m : GoMap) (k : GoString),
    (kvs.foldl (fun m kv => m.set kv.1 kv.2) m).get k =
      match lastValue kvs k with
      | some v => some v
      | none => m.get k := by
  induction kvs with
  | nil => intro m k; simp [lastValue]
  | cons kv kvs ih =>
    intro m k
    obtain ⟨a, b⟩ := kv
    rw [List.foldl_cons, ih, lastValue]
    cases lastValue kvs k with
    | some v => rfl
    | none =>
      simp only [GoMap.get_set]
      by_cases ha : a = k
      · simp [ha]
      · simp [ha, GoMap.get]

theorem get_mapOfPairs (kvs : List (GoString × GoString)) (k : GoString) :
    (mapOfPairs kvs).get k = lastValue kvs k := by
  unfold mapOfPairs
  rw [get_foldl_set]
  cases lastValue kvs k <;> simp [GoMap.get]

theorem readMapOfStringsLoop_skip (tail : List Byte) (kvs : List (GoString × GoString)) :
    ∀ (n : Nat) (m : GoMap), (∀ kv ∈ kvs, wfString kv.1 ∧ wfString kv.2) →
    readMapOfStringsLoop (kvs.length + n) m
        (kvs.flatMap (fun kv => encString kv.1 ++ encString kv.2) ++ tail)
      = readMapOfStringsLoop n (kvs.foldl (fun m kv => m.set kv.1 kv.2) m) tail := by
  induction kvs with
  | nil => intro n m _; simp
  | cons kv kvs ih =>
    intro n m h
    obtain ⟨h1, h2⟩ := h kv (List.mem_cons_self _ _)
    have hl : (kv :: kvs).length + n = (kvs.length + n) + 1 := by
      rw [List.length_cons]; omega
    rw [hl, readMapOfStringsLoop, List.flatMap_cons, List.append_assoc,
      List.append_assoc, readString_enc kv.1 _ h1]
    simp only
    rw [readString_enc kv.2 _ h2]
    simp only
    rw [ih n _ (fun t ht => h t (List.mem_cons_of_mem _ ht))]
    rfl

theorem readMapOfStringsLoop_fail (n : Nat) (m : GoMap) (tail : List Byte)
    (h : (readString tail).err ≠ none ∨ (readString (readString tail).rest).err ≠ none) :
    (readMapOfStringsLoop (n + 1) m tail).val = none ∧
    (readMapOfStringsLoop (n + 1) m tail).err ≠ none := by
  rw [readMapOfStringsLoop]
  cases hk : (readString tail).err with
  | some e => simp
  | none =>
    simp only
    cases hv : (readString (readString tail).rest).err with
    | some e => simp
    | none =>
      rcases h with h | h
      · exact absurd hk h
      · exact absurd hv h

/-- What `readMapOfStrings` returns, when its allocations are granted: on a
count followed by that many well-formed pairs, the map that sends each key to
the value of its last occurrence; an error and no map when the count, a key
or a value cannot be read. -/
theorem readMapOfStrings_spec (kvs : List (GoString × GoString)) (rest : List Byte)
    (hw : ∀ kv ∈ kvs, wfString kv.1 ∧ wfString kv.2) :
    (kvs.length < 2 ^ 31 →
      readMapOfStrings (encStringMap kvs ++ rest) = ⟨some (mapOfPairs kvs), none, rest⟩ ∧
      ∀ k, (mapOfPairs kvs).get k = lastValue kvs k) ∧
    (∀ c : Nat, c < 2 ^ 31 → kvs.length < c →
      ((readString rest).err ≠ none ∨ (readString (readString rest).rest).err ≠ none) →
      (readMapOfStrings (encVInt c ++
          (kvs.flatMap (fun kv => encString kv.1 ++ encString kv.2) ++ rest))).val = none ∧
      (readMapOfStrings (encVInt c ++
          (kvs.flatMap (fun kv => encString kv.1 ++ encString kv.2) ++ rest))).err ≠ none) ∧
    ((readVInt rest).err ≠ none →
      (readMapOfStrings rest).val = none ∧ (readMapOfStrings rest).err ≠ none) := by
  refine ⟨?_, ?_, ?_⟩
  · intro hlen
    exact ⟨readMapOfStrings_enc kvs rest hlen hw, get_mapOfPairs kvs⟩
  · intro c hc hlt hfail
    obtain ⟨j, hj⟩ : ∃ j, c = kvs.length + (j + 1) := ⟨c - kvs.length - 1, by omega⟩
    unfold readMapOfStrings
    rw [readVInt_enc c _ hc]
    simp only [Int.toNat_ofNat]
    rw [hj, readMapOfStringsLoop_skip rest kvs (j + 1) [] hw]
    exact readMapOfStringsLoop_fail j _ rest hfail
  · intro he
    unfold readMapOfStrings
    cases hv : (readVInt rest).err with
    | none => exact absurd hv he
    | some e => simp [hv]

set_option maxRecDepth 100000 in
/-- The map read from the pairs (k, v1), (k, v2) has the single entry (k, v2). -/
theorem readMapOfStrings_example :
    readMapOfStrings (encStringMap [(str "k", str "v1"), (str "k", str "v2")])
      = ⟨some [(str "k", str "v2")], none, []⟩ := by
  decide

/-! ## Fixed-width reads -/

theorem readExactly_of_le (r : List Byte) (n : Nat) (h : n ≤ r.length) :
    readExactly r n = ⟨r.take n, none, r.drop n⟩ := by
  unfold readExactly
  rw [if_pos h]

theorem readExactly_of_lt (r : List Byte) (n : Nat) (h : r.length < n) :
    (readExactly r n).err ≠ none ∧ (readExactly r n).rest = [] := by
  unfold readExactly
  rw [if_neg (by omega)]
  simp

/-- C21. For every byte stream with at least 4 (respectively 8) bytes
remaining, readBEInt32 (respectively readBELong) returns the big-endian
two's-complement value of the next 4 (8) bytes and advances the reader by
exactly 4 (8); for every stream with fewer than 4 (8) bytes remaining it
returns an error. -/
theorem fixed_width_reads (r rest : List Byte) (a b c d e f g h : Byte) :
    (4 ≤ r.length → readBEInt32 r = ⟨int32 (beUint (r.take 4)), none, r.drop 4⟩) ∧
    (8 ≤ r.length → readBELong r = ⟨int64 (beUint (r.take 8)), none, r.drop 8⟩) ∧
    readBEInt32 (a :: b :: c :: d :: rest) =
      ⟨(if a.val < 128 then
          (a.val * 2 ^ 24 + b.val * 2 ^ 16 + c.val * 2 ^ 8 + d.val : Int)
        else (a.val * 2 ^ 24 + b.val * 2 ^ 16 + c.val * 2 ^ 8 + d.val : Int) - 2 ^ 32),
        none, rest⟩ ∧
    readBELong (a :: b :: c :: d :: e :: f :: g :: h :: rest) =
      ⟨(if a.val < 128 then
          (a.val * 2 ^ 56 + b.val * 2 ^ 48 + c.val * 2 ^ 40 + d.val * 2 ^ 32
            + e.val * 2 ^ 24 + f.val * 2 ^ 16 + g.val * 2 ^ 8 + h.val : Int)
        else (a.val * 2 ^ 56 + b.val * 2 ^ 48 + c.val * 2 ^ 40 + d.val * 2 ^ 32
            + e.val * 2 ^ 24 + f.val * 2 ^ 16 + g.val * 2 ^ 8 + h.val : Int) - 2 ^ 64),
        none, rest⟩ ∧
    (r.length < 4 → (readBEInt32 r).err ≠ none ∧ (readBEInt32 r).val = 0) ∧
    (r.length < 8 → (readBELong r).err ≠ none ∧ (readBELong r).val = 0) := by
  have ha := a.isLt
  have hb := b.isLt
  have hc := c.isLt
  have hd := d.isLt
  have he := e.isLt
  have hf := f.isLt
  have hg := g.isLt
  have hh := h.isLt
  refine ⟨?_, ?_, ?_, ?_, ?_, ?_⟩
  · intro h4
    unfold readBEInt32
    rw [readExactly_of_le r 4 h4]
  · intro h8
    unfold readBELong
    rw [readExactly_of_le r 8 h8]
  · unfold readBEInt32
    rw [readExactly_of_le _ 4 (by simp)]
    simp only [List.take, List.drop, beUint, List.foldl, int32, Res.mk.injEq, and_true]
    split_ifs <;> omega
  · unfold readBELong
    rw [readExactly_of_le _ 8 (by simp)]
    simp only [List.take, List.drop, beUint, List.foldl, int64, Res.mk.injEq, and_true]
    split_ifs <;> omega
  · intro hlt
    unfold readBEInt32
    obtain ⟨h1, _⟩ := readExactly_of_lt r 4 hlt
    cases hx : (readExactly r 4).err with
    | none => exact absurd hx h1
    | some e => simp [hx]
  · intro hlt
    unfold readBELong
    obtain ⟨h1, _⟩ := readExactly_of_lt r 8 hlt
    cases hx : (readExactly r 8).err with
    | none => exact absurd hx h1
    | some e => simp [hx]

set_option maxRecDepth 100000 in
/-- C21 on the bytes ff ff ff fe (the value -2) followed by one byte, on eight
bytes, and on streams of three and of seven bytes. -/
theorem fixed_width_reads_witness :
    readBEInt32 [0xff, 0xff, 0xff, 0xfe, 9]
      = ⟨int32 (beUint ([0xff, 0xff, 0xff, 0xfe, 9].take 4)), none,
          [0xff, 0xff, 0xff, 0xfe, 9].drop 4⟩ ∧
    readBELong [0x80, 0, 0, 0, 0, 0, 0, 1, 9]
      = ⟨int64 (beUint ([0x80, 0, 0, 0, 0, 0, 0, 1, 9].take 8)), none,
          [0x80, 0, 0, 0, 0, 0, 0, 1, 9].drop 8⟩ ∧
    ((readBEInt32 [1, 2, 3]).err ≠ none ∧ (readBEInt32 [1, 2, 3]).val = 0) ∧
    ((readBELong [1, 2, 3, 4, 5, 6, 7]).err ≠ none ∧ (readBELong [1, 2, 3, 4, 5, 6, 7]).val = 0) :=
  ⟨(fixed_width_reads [0xff, 0xff, 0xff, 0xfe, 9] [] 0 0 0 0 0 0 0 0).1 (by decide),
   (fixed_width_reads [0x80, 0, 0, 0, 0, 0, 0, 1, 9] [] 0 0 0 0 0 0 0 0).2.1 (by decide),
   (fixed_width_reads [1, 2, 3] [] 0 0 0 0 0 0 0 0).2.2.2.2.1 (by decide),
   (fixed_width_reads [1, 2, 3, 4, 5, 6, 7] [] 0 0 0 0 0 0 0 0).2.2.2.2.2 (by decide)⟩

/-- The values read in the example of C21. -/
theorem fixed_width_example :
    readBEInt32 [0xff, 0xff, 0xff, 0xfe, 9] = ⟨-2, none, [9]⟩ ∧
    readBELong [0x80, 0, 0, 0, 0, 0, 0, 1, 9] = ⟨-2 ^ 63 + 1, none, [9]⟩ := by
  decide

/-! ## Names the resolver ignores -/

theorem findLatestLoop_append (l1 : List GoString) : ∀ (l2 : List GoString) (bn : GoString)
    (bg : Int),
    findLatestLoop (l1 ++ l2) bn bg =
      findLatestLoop l2 (findLatestLoop l1 bn bg).1 (findLatestLoop l1 bn bg).2 := by
  induction l1 with
  | nil => intro l2 bn bg; rfl
  | cons n l1 ih =>
    intro l2 bn bg
    rw [List.cons_append, findLatestLoop, findLatestLoop]
    split_ifs
    all_goals first
      | exact ih _ _ _
      | (simp only []
         cases hg : (generationFromSegmentsFileName n).2 with
         | some e => exact ih _ _ _
         | none =>
           simp only []
           split_ifs <;> exact ih _ _ _)

/-- A name without a generation, other than the bare name, leaves the state of
the resolver's loop as it is. -/
theorem findLatestLoop_skip (x : GoString) (l : List GoString) (bn : GoString) (bg : Int)
    (h1 : x ≠ SEGMENTS_PREFIX) (h2 : (generationFromSegmentsFileName x).2 ≠ none) :
    findLatestLoop (x :: l) bn bg = findLatestLoop l bn bg := by
  rw [findLatestLoop]
  split_ifs
  all_goals first
    | rfl
    | (simp only []
       cases hg : (generationFromSegmentsFileName x).2 with
       | none => exact absurd hg h2
       | some e => rfl)

theorem generation_err_of_ignored (x : GoString)
    (h : HasPrefix x (str "segments_") = false ∨ base36Value (x.drop 9) = none) :
    (generationFromSegmentsFileName x).2 ≠ none := by
  by_cases hp : HasPrefix x (str "segments_") = true
  · have hv : base36Value (x.drop 9) = none := by
      rcases h with h | h
      · rw [hp] at h; exact absurd h (by decide)
      · exact h
    have he := ParseInt_err_of_none _ hv
    rw [eq_append_of_hasPrefix x hp, generation_of_numbered]
    cases hq : (ParseInt (List.drop 9 x)).2 with
    | none => exact absurd hq he
    | some e => simp
  · have hp2 : HasPrefix x (SEGMENTS_PREFIX ++ str "_") = false := by
      rw [segments_underscore_bytes, ← str_segments_underscore]
      simpa using hp
    unfold generationFromSegmentsFileName
    simp [hp2]

/-- C22. Names that begin with the reserved prefix but are not commit
candidates are ignored by the resolver: for every listing and every name x
that is "segments.gen", or that starts with "segments", is not the bare
"segments" and either lacks the "segments_" prefix or has a suffix that does
not parse as base-36, findLatestSegmentsFile gives the same result (the same
name or the same failure) on the listing with x inserted at any position as on
the listing itself. -/
theorem resolver_ignores (dir dir2 : IndexDir) (l1 l2 : List GoString) (x : GoString)
    (hd : dir.entries = some (l1 ++ l2)) (hd2 : dir2.entries = some (l1 ++ x :: l2))
    (hx : x = SEGMENTS_GEN_FILE ∨
      (HasPrefix x SEGMENTS_PREFIX = true ∧ x ≠ SEGMENTS_PREFIX ∧
        (HasPrefix x (str "segments_") = false ∨ base36Value (x.drop 9) = none))) :
    findLatestSegmentsFile dir2 = findLatestSegmentsFile dir := by
  have h1 : x ≠ SEGMENTS_PREFIX := by
    rcases hx with hx | ⟨_, hx, _⟩
    · rw [hx]; decide
    · exact hx
  have h2 : (generationFromSegmentsFileName x).2 ≠ none := by
    rcases hx with hx | ⟨_, _, hx⟩
    · rw [hx]; decide
    · exact generation_err_of_ignored x hx
  rw [findLatestSegmentsFile_of_entries dir _ hd, findLatestSegmentsFile_of_entries dir2 _ hd2,
    findLatestLoop_append, findLatestLoop_append, findLatestLoop_skip x l2 _ _ h1 h2]

set_option maxRecDepth 100000 in
/-- C22 with the names "segments.gen", "segments.bak" and "segments_!" put
into the listing "segments_1", "segments_a". -/
theorem resolver_ignores_witness :
    findLatestSegmentsFile
        ⟨[], some ([str "segments_1"] ++ str "segments.gen" :: [str "segments_a"]), fun _ => none⟩
      = findLatestSegmentsFile
        ⟨[], some ([str "segments_1"] ++ [str "segments_a"]), fun _ => none⟩ ∧
    findLatestSegmentsFile
        ⟨[], some ([] ++ str "segments.bak" :: [str "segments_1", str "segments_a"]),
          fun _ => none⟩
      = findLatestSegmentsFile
        ⟨[], some ([] ++ [str "segments_1", str "segments_a"]), fun _ => none⟩ ∧
    findLatestSegmentsFile
        ⟨[], some ([str "segments_1", str "segments_a"] ++ str "segments_!" :: []),
          fun _ => none⟩
      = findLatestSegmentsFile
        ⟨[], some ([str "segments_1", str "segments_a"] ++ []), fun _ => none⟩ :=
  ⟨resolver_ignores
      ⟨[], some ([str "segments_1"] ++ [str "segments_a"]), fun _ => none⟩
      ⟨[], some ([str "segments_1"] ++ str "segments.gen" :: [str "segments_a"]), fun _ => none⟩
      [str "segments_1"] [str "segments_a"] (str "segments.gen") rfl rfl (Or.inl (by decide)),
   resolver_ignores
      ⟨[], some ([] ++ [str "segments_1", str "segments_a"]), fun _ => none⟩
      ⟨[], some ([] ++ str "segments.bak" :: [str "segments_1", str "segments_a"]),
        fun _ => none⟩
      [] [str "segments_1", str "segments_a"] (str "segments.bak") rfl rfl
      (Or.inr ⟨by decide, by decide, Or.inl (by decide)⟩),
   resolver_ignores
      ⟨[], some ([str "segments_1", str "segments_a"] ++ []), fun _ => none⟩
      ⟨[], some ([str "segments_1", str "segments_a"] ++ str "segments_!" :: []),
        fun _ => none⟩
      [str "segments_1", str "segments_a"] [] (str "segments_!") rfl rfl
      (Or.inr ⟨by decide, by decide, Or.inr (by decide)⟩)⟩

/-- C23. For every directory listing in which no name is the bare "segments"
and no name has the form "segments_N" with a suffix that parses as a base-36
integer (in particular the empty listing and the listing of "segments.gen"
alone), findLatestSegmentsFile returns an error and no file name. -/
theorem no_commit_found (dir : IndexDir) (fis : List GoString)
    (hd : dir.entries = some fis)
    (h : ∀ name ∈ fis, name ≠ SEGMENTS_PREFIX ∧
      (generationFromSegmentsFileName name).2 ≠ none) :
    findLatestSegmentsFile dir = ([], some Error.noSegmentsFile) ∧
    findLatestSegmentsFile ⟨dir.path, some [], dir.openFile⟩
      = ([], some Error.noSegmentsFile) ∧
    findLatestSegmentsFile ⟨dir.path, some [str "segments.gen"], dir.openFile⟩
      = ([], some Error.noSegmentsFile) := by
  refine ⟨?_, ?_, ?_⟩
  · rw [findLatestSegmentsFile_of_entries dir fis hd]
    obtain ⟨_, _, _, h4⟩ := findLatestLoop_spec fis [] (-1) (le_refl _)
    rcases h4 with ⟨h5, _⟩ | ⟨h5, _, _, h8, _⟩
    · rw [if_pos h5]
    · exfalso
      obtain ⟨hne, herr⟩ := h _ h5
      rw [generationOf, if_neg hne] at h8
      revert h8 herr
      generalize generationFromSegmentsFileName (findLatestLoop fis [] (-1)).1 = p
      rcases p with ⟨g, _ | e⟩ <;> simp
  · rw [findLatestSegmentsFile_of_entries _ _ rfl]
    decide
  · rw [findLatestSegmentsFile_of_entries _ _ rfl]
    decide

set_option maxRecDepth 100000 in
/-- C23 on the listing of "segments.gen", "segments_!" and "_0.si". -/
theorem no_commit_found_witness :
    findLatestSegmentsFile
        ⟨[], some [str "segments.gen", str "segments_!", str "_0.si"], fun _ => none⟩
      = ([], some Error.noSegmentsFile) ∧
    findLatestSegmentsFile ⟨[], some [], fun _ => none⟩ = ([], some Error.noSegmentsFile) ∧
    findLatestSegmentsFile ⟨[], some [str "segments.gen"], fun _ => none⟩
      = ([], some Error.noSegmentsFile) :=
  no_commit_found ⟨[], some [str "segments.gen", str "segments_!", str "_0.si"], fun _ => none⟩
    [str "segments.gen", str "segments_!", str "_0.si"] rfl (by decide)

theorem findLatestSegmentsFile_ne_nil (dir : IndexDir)
    (h : (findLatestSegmentsFile dir).2 = none) : (findLatestSegmentsFile dir).1 ≠ [] := by
  unfold findLatestSegmentsFile at h ⊢
  cases hd : dir.entries with
  | none => rw [hd] at h; simp at h
  | some fis =>
    rw [hd] at h
    simp only at h ⊢
    by_cases hn : (findLatestLoop fis [] (-1)).1 = []
    · rw [if_pos hn] at h; simp at h
    · rw [if_neg hn]; exact hn

/-- C24. For every index directory on which buildReport succeeds, the report's
IndexPath equals the directory passed in, its SegmentsFile equals the name
returned by findLatestSegmentsFile for that directory and is non-empty, and
its Segments and UserData are exactly the values returned by parseSegmentsFile
for that directory and file. -/
theorem report_fields (dir : IndexDir) (rep : Report) (e : Option Error)
    (h : buildReport dir = (some rep, e)) :
    rep.IndexPath = dir.path ∧
    findLatestSegmentsFile dir = (rep.SegmentsFile, none) ∧
    rep.SegmentsFile ≠ [] ∧
    rep.Segments = (parseSegmentsFile dir rep.SegmentsFile).1 ∧
    rep.UserData = (parseSegmentsFile dir rep.SegmentsFile).2.1 ∧
    (parseSegmentsFile dir rep.SegmentsFile).2.2 = none := by
  obtain ⟨_, h1, h2, hrep⟩ := buildReport_some dir rep e h
  have hne := findLatestSegmentsFile_ne_nil dir h1
  rw [hrep]
  refine ⟨rfl, ?_, hne, rfl, rfl, h2⟩
  exact Prod.ext rfl h1

set_option maxRecDepth 100000 in
/-- C24 on the report of the example index. -/
theorem report_fields_witness :
    str "/idx" = exampleDir.path ∧
    findLatestSegmentsFile exampleDir = (str "segments_2", none) ∧
    str "segments_2" ≠ [] ∧
    (parseSegmentsFile exampleDir (str "segments_2")).1
      = (parseSegmentsFile exampleDir (str "segments_2")).1 ∧
    (parseSegmentsFile exampleDir (str "segments_2")).2.1
      = (parseSegmentsFile exampleDir (str "segments_2")).2.1 ∧
    (parseSegmentsFile exampleDir (str "segments_2")).2.2 = none :=
  report_fields exampleDir
    { IndexPath := str "/idx"
      SegmentsFile := str "segments_2"
      TotalSegments := 2
      TotalDocs := 1005
      TotalDeletedDocs := 7
      TotalSoftDeletedDocs := 1
      UserData := (parseSegmentsFile exampleDir (str "segments_2")).2.1
      Segments := (parseSegmentsFile exampleDir (str "segments_2")).1
      Notes := reportNotes } none buildReport_example

/-! ## The error and the number of summaries of the commit-file decoder -/

theorem readBEInt32_eq_magic (f : List Byte) (h4 : 4 ≤ f.length)
    (hm : beUint (f.take 4) = 0x3fd76c17) : (readBEInt32 f).val = CODEC_MAGIC := by
  unfold readBEInt32
  rw [readExactly_of_le f 4 h4]
  simp only [hm]
  decide

/-- The error that `parseSegmentsFile` returns, when its allocations are
granted, on a commit file that can be opened: it is not nil exactly when the
first four bytes read big-endian differ from 0x3fd76c17. -/
theorem error_iff_bad_magic (dir : IndexDir) (segFile : GoString) (f : List Byte)
    (hf : dir.openFile segFile = some f) :
    ((parseSegmentsFile dir segFile).2.2 ≠ none ↔
      (f.length < 4 ∨ beUint (f.take 4) ≠ 0x3fd76c17)) ∧
    (∀ t : List Byte, f = [0x3f, 0xd7, 0x6c, 0x17] ++ t →
      (parseSegmentsFile dir segFile).2.2 = none) := by
  constructor
  · constructor
    · intro he
      by_contra hc
      have h4 : 4 ≤ f.length := by
        by_contra h
        exact hc (Or.inl (by omega))
      have hm : beUint (f.take 4) = 0x3fd76c17 := by
        by_contra h
        exact hc (Or.inr h)
      exact he (parseSegmentsFile_err_of_magic dir segFile f hf (readBEInt32_eq_magic f h4 hm))
    · intro hm
      rw [parseSegmentsFile_of_bad_magic dir segFile f hf (readBEInt32_ne_magic f hm)]
      simp
  · intro t ht
    apply parseSegmentsFile_err_of_magic dir segFile f hf
    rw [ht, readBEInt32_magic_bytes]

theorem parseSegmentsLoop_length (dir : IndexDir) (fv : Int) (n : Nat) :
    ∀ (acc : List SegInfoSummary) (r : List Byte),
    (parseSegmentsLoop dir fv n acc r).1.length = acc.length + n := by
  induction n with
  | zero => intro acc r; rfl
  | succ n ih =>
    intro acc r
    rw [parseSegmentsLoop, ih, List.length_append, List.length_singleton]
    omega

theorem parseSegmentsFile_length (dir : IndexDir) (segFile : GoString) (f : List Byte)
    (hf : dir.openFile segFile = some f) (hm : (readBEInt32 f).val = CODEC_MAGIC) :
    (parseSegmentsFile dir segFile).1.length
      = (readCommitHeader (readBEInt32 f).rest).numSegs.toNat := by
  rw [parseSegmentsFile_of_magic dir segFile f hf hm]
  simp only [parseSegmentsLoop_length, List.length_nil, Nat.zero_add]

/-- The header steps on the bytes in front of the segment count followed by
any bytes: the count is what `readBEInt32` makes of those bytes. -/
theorem readCommitHeader_prefix (c : CommitFile) (t : List Byte) (hw : wfCommit c) :
    readBEInt32 (encCommitPrefix c ++ t) = ⟨CODEC_MAGIC, none,
      (encString c.label ++ (encBE32 c.formatVer ++ (c.id ++
      (toByte c.suffix.length :: (c.suffix ++ (c.versions ++ (encBE64 c.infoVersion ++
      (encVLong c.counter ++ t))))))))⟩ ∧
    readCommitHeader (readBEInt32 (encCommitPrefix c ++ t)).rest
      = ⟨c.formatVer, (readBEInt32 t).val, (readBEInt32 t).rest⟩ := by
  obtain ⟨h1, h2, h3, h4, h5, h6, h7, _⟩ := hw
  have hm : readBEInt32 (encCommitPrefix c ++ t) = ⟨CODEC_MAGIC, none,
      (encString c.label ++ (encBE32 c.formatVer ++ (c.id ++
      (toByte c.suffix.length :: (c.suffix ++ (c.versions ++ (encBE64 c.infoVersion ++
      (encVLong c.counter ++ t))))))))⟩ := by
    unfold encCommitPrefix
    simp only [List.append_assoc, List.cons_append]
    exact readBEInt32_magic _
  refine ⟨hm, ?_⟩
  rw [hm]
  unfold readCommitHeader
  rw [readString_enc c.label _ h1]
  simp only
  rw [readBEInt32_enc c.formatVer _ h2]
  simp only
  rw [readExactly_append c.id _ 16 h3]
  simp only [readByte]
  have hs : (toByte c.suffix.length).val = c.suffix.length := by
    rw [toByte_val]; omega
  rw [hs, readExactly_append c.suffix _ c.suffix.length rfl]
  simp only
  obtain ⟨v1, v2, v3, v4, hv⟩ : ∃ v1 v2 v3 v4, c.versions = [v1, v2, v3, v4] := by
    match hc : c.versions, h5 with
    | [v1, v2, v3, v4], _ => exact ⟨v1, v2, v3, v4, rfl⟩
  rw [hv]
  simp only [List.cons_append, List.nil_append, readByte]
  rw [readBELong_enc c.infoVersion _ h6]
  simp only
  rw [readVLong_enc c.counter _ h7]

set_option maxRecDepth 100000 in
theorem readers_at_end :
    readString [] = ⟨[], some Error.EOF, []⟩ ∧
    readExactly [] ID_LENGTH = ⟨List.replicate 16 0, some Error.EOF, []⟩ ∧
    readBELong [] = ⟨0, some Error.EOF, []⟩ ∧
    readBEInt32 [] = ⟨0, some Error.EOF, []⟩ ∧
    readSetOfStrings [] = ⟨[], some Error.EOF, []⟩ ∧
    EncodeToString (List.replicate 16 0) = str "00000000000000000000000000000000" := by
  decide

theorem readSciId_at_end (fv : Int) : readSciId fv [] = ⟨[], none, []⟩ := by
  unfold readSciId
  split_ifs <;> simp [readByte]

/-- The body of the segment loop on the exhausted reader. -/
theorem parseSegment_at_end (dir : IndexDir) (fv : Int) :
    parseSegment dir fv [] = (summaryPastEnd dir, []) := by
  obtain ⟨h1, h2, h3, h4, h5, h6⟩ := readers_at_end
  unfold parseSegment summaryPastEnd
  simp only [h1, h2, h3, h4, h5, h6, readSciId_at_end, Int.toNat_zero, skipDVLoop,
    List.length_nil, gt_iff_lt, lt_self_iff_false, if_false]

theorem parseSegmentsLoop_at_end (dir : IndexDir) (fv : Int) (n : Nat) :
    ∀ acc : List SegInfoSummary,
    parseSegmentsLoop dir fv n acc [] = (acc ++ List.replicate n (summaryPastEnd dir), []) := by
  induction n with
  | zero => intro acc; simp [parseSegmentsLoop]
  | succ n ih =>
    intro acc
    rw [parseSegmentsLoop, parseSegment_at_end, ih, List.replicate_succ]
    simp

theorem parseSegmentsLoop_skip (dir : IndexDir) (fv : Int) (rest : List Byte)
    (ss : List SegmentRecord) : ∀ (m : Nat) (acc : List SegInfoSummary),
    (∀ s ∈ ss, wfSegment s) →
    parseSegmentsLoop dir fv (ss.length + m) acc (ss.flatMap (encSegment fv) ++ rest)
      = parseSegmentsLoop dir fv m
          (acc ++ ss.map (fun s => summaryOf fv s (parseSegmentSI dir s.name))) rest := by
  induction ss with
  | nil => intro m acc _; simp
  | cons s ss ih =>
    intro m acc h
    have hl : (s :: ss).length + m = (ss.length + m) + 1 := by
      rw [List.length_cons]; omega
    rw [hl, parseSegmentsLoop, List.flatMap_cons, List.append_assoc,
      parseSegment_enc dir fv s _ (h s (List.mem_cons_self _ _))]
    simp only
    rw [ih m _ (fun t ht => h t (List.mem_cons_of_mem _ ht))]
    simp

theorem skipMinSegmentVersion_three (n : Int) (v rest : List Byte) (h : v.length = 3)
    (hn : 0 < n) : skipMinSegmentVersion n (v ++ rest) = rest := by
  unfold skipMinSegmentVersion
  rw [if_pos hn]
  obtain ⟨v1, v2, v3, hv⟩ : ∃ v1 v2 v3, v = [v1, v2, v3] := by
    match v, h with
    | [v1, v2, v3], _ => exact ⟨v1, v2, v3, rfl⟩
  rw [hv]
  simp [readByte]

theorem skipMinSegmentVersion_nil (n : Int) : skipMinSegmentVersion n [] = [] := by
  unfold skipMinSegmentVersion
  split_ifs <;> simp [readByte]

/-- The summaries that `parseSegmentsFile` returns, when its allocations are
granted, on a commit file with valid magic: as many as the segment count read
behind the header, the records behind the end of the input being emitted as
`summaryPastEnd`. -/
theorem summaries_follow_count (dir : IndexDir) (segFile : GoString) (f : List Byte)
    (c : CommitFile) (n : Int) (hf : dir.openFile segFile = some f) (hw : wfCommit c)
    (hn : isInt32 n) :
    ((readBEInt32 f).val = CODEC_MAGIC →
      (parseSegmentsFile dir segFile).1.length
        = (readCommitHeader (readBEInt32 f).rest).numSegs.toNat ∧
      (findLatestSegmentsFile dir = (segFile, none) →
        ∃ rep, buildReport dir = (some rep, none) ∧
          rep.TotalSegments
            = ((readCommitHeader (readBEInt32 f).rest).numSegs.toNat : Int))) ∧
    (∀ tail : List Byte, f = encCommitPrefix c ++ (encBE32 n ++ tail) →
      (0 < n → ((parseSegmentsFile dir segFile).1.length : Int) = n) ∧
      (n ≤ 0 → (parseSegmentsFile dir segFile).1 = [])) ∧
    (∀ t : List Byte, t.length < 4 → f = encCommitPrefix c ++ t →
      (parseSegmentsFile dir segFile).1 = []) ∧
    (0 < n → c.segments.length ≤ n.toNat →
      f = encCommitPrefix c ++ (encBE32 n ++ (c.minSegVersion ++
        c.segments.flatMap (encSegment c.formatVer))) →
      (parseSegmentsFile dir segFile).1 =
        c.segments.map (fun s => summaryOf c.formatVer s (parseSegmentSI dir s.name)) ++
          List.replicate (n.toNat - c.segments.length) (summaryPastEnd dir)) ∧
    (f = encCommitPrefix c ++ encBE32 n →
      (parseSegmentsFile dir segFile).1 = List.replicate n.toNat (summaryPastEnd dir)) ∧
    (dir.openFile (str ".si") = none →
      (summaryPastEnd dir).MaxDoc = 0 ∧ (summaryPastEnd dir).Compound = false ∧
      (summaryPastEnd dir).Extra = none) := by
  have hlayout : ∀ t : List Byte, f = encCommitPrefix c ++ t →
      parseSegmentsFile dir segFile =
        ((parseSegmentsLoop dir c.formatVer (readBEInt32 t).val.toNat []
            (skipMinSegmentVersion (readBEInt32 t).val (readBEInt32 t).rest)).1,
         (readMapOfStrings (parseSegmentsLoop dir c.formatVer (readBEInt32 t).val.toNat []
            (skipMinSegmentVersion (readBEInt32 t).val (readBEInt32 t).rest)).2).val,
         none) := by
    intro t ht
    obtain ⟨h1, h2⟩ := readCommitHeader_prefix c t hw
    rw [← ht] at h1 h2
    rw [parseSegmentsFile_of_magic dir segFile f hf (by rw [h1]), h2]
  refine ⟨?_, ?_, ?_, ?_, ?_, ?_⟩
  · intro hm
    have hlen := parseSegmentsFile_length dir segFile f hf hm
    refine ⟨hlen, ?_⟩
    intro hseg
    obtain ⟨rep, hrep, _⟩ := buildReport_of_no_error dir segFile hseg
      (parseSegmentsFile_err_of_magic dir segFile f hf hm)
    refine ⟨rep, hrep, ?_⟩
    obtain ⟨_, _, _, h4⟩ := buildReport_sums dir rep none hrep
    obtain ⟨_, _, _, hr⟩ := buildReport_some dir rep none hrep
    rw [hseg] at hr
    rw [h4, hr, hlen]
  · intro tail ht
    rw [hlayout _ ht, readBEInt32_enc n tail hn]
    simp only [parseSegmentsLoop_length, List.length_nil, Nat.zero_add]
    constructor
    · intro h0
      omega
    · intro h0
      have : n.toNat = 0 := by omega
      rw [this]
      rfl
  · intro t ht hft
    rw [hlayout _ hft]
    have hz : (readBEInt32 t).val = 0 := by
      unfold readBEInt32
      obtain ⟨h1, _⟩ := readExactly_of_lt t 4 ht
      cases hx : (readExactly t 4).err with
      | none => exact absurd hx h1
      | some e => simp [hx]
    rw [hz]
    rfl
  · intro h0 hle hft
    rw [hlayout _ hft, readBEInt32_enc n _ hn]
    simp only
    rw [skipMinSegmentVersion_three n c.minSegVersion _ hw.2.2.2.2.2.2.2.1 h0]
    obtain ⟨m, hm⟩ : ∃ m, n.toNat = c.segments.length + m :=
      ⟨n.toNat - c.segments.length, by omega⟩
    have hskip := parseSegmentsLoop_skip dir c.formatVer [] c.segments m []
      hw.2.2.2.2.2.2.2.2.2.1
    rw [List.append_nil] at hskip
    rw [hm, hskip, parseSegmentsLoop_at_end]
    simp
  · intro hft
    have hft2 : f = encCommitPrefix c ++ (encBE32 n ++ []) := by
      rw [List.append_nil]; exact hft
    rw [hlayout _ hft, ← List.append_nil (encBE32 n), readBEInt32_enc n [] hn]
    simp only
    rw [skipMinSegmentVersion_nil, parseSegmentsLoop_at_end]
    simp
  · intro hsi
    unfold summaryPastEnd parseSegmentSI
    have : dir.openFile ([] ++ str ".si") = none := by simpa using hsi
    rw [this]
    simp

set_option maxRecDepth 100000 in
/-- A commit file declaring three segments and ending behind the count: three
summaries, all empty. -/
theorem summaries_past_end_example :
    (parseSegmentsFile
        (singleFileDir (str "segments_1") (encCommitPrefix exampleCommit ++ encBE32 3))
        (str "segments_1")).1.map (fun s => (s.SegName, s.SegCodec, s.MaxDoc, s.DelCount,
          s.SoftDelCount))
      = [([], [], 0, 0, 0), ([], [], 0, 0, 0), ([], [], 0, 0, 0)] := by
  decide

/-! ## The range of `readVInt` -/

theorem readVIntLoop_err (k : Nat) : ∀ (result shift : Nat) (r : List Byte),
    (readVIntLoop k result shift r).err = none ∨
    (readVIntLoop k result shift r).err = some Error.EOF ∨
    (readVIntLoop k result shift r).err = some Error.invalidVInt := by
  induction k with
  | zero => intro result shift r; exact Or.inr (Or.inr rfl)
  | succ k ih =>
    intro result shift r
    cases r with
    | nil => exact Or.inr (Or.inl rfl)
    | cons b r =>
      rw [readVIntLoop]
      simp only [readByte]
      split_ifs
      · exact Or.inl rfl
      · exact ih _ _ _

theorem readExactly_err (r : List Byte) (n : Nat) :
    (readExactly r n).err ≠ some Error.negativeStringLength := by
  unfold readExactly
  split_ifs <;> simp

theorem readString_err (r : List Byte) :
    (readString r).err ≠ some Error.negativeStringLength := by
  have h0 := readVInt_nonneg r
  have he : (readVInt r).err = none ∨ (readVInt r).err = some Error.EOF ∨
      (readVInt r).err = some Error.invalidVInt := readVIntLoop_err 5 0 0 r
  unfold readString
  simp only []
  cases hv : (readVInt r).err with
  | some e =>
    simp only [hv]
    rw [hv] at he
    rcases he with he | he | he
    · simp at he
    · rw [he]; simp
    · rw [he]; simp
  | none =>
    simp only [hv]
    rw [if_neg (by omega)]
    by_cases hz : (readVInt r).val = 0
    · rw [if_pos hz]; simp
    · rw [if_neg hz]
      have hx := readExactly_err (readVInt r).rest (readVInt r).val.toNat
      cases hb : (readExactly (readVInt r).rest (readVInt r).val.toNat).err with
      | none => simp [hb]
      | some e =>
        simp only [hb]
        rw [hb] at hx
        exact hx

/-- C27. With Go's int being 64 bits wide, every value readVInt returns
without error lies in the range 0 <= r < 2^35 (it is not reduced to 32 bits:
the 5-byte encoding ff ff ff ff 7f yields 2^35 - 1, above 2^32 - 1), and
consequently the "negative string length" branch of readString is
unreachable: the length is never negative and that error is never returned. -/
theorem readVInt_range (r : List Byte) :
    ((readVInt r).err = none → 0 ≤ (readVInt r).val ∧ (readVInt r).val < 2 ^ 35) ∧
    readVInt [0xff, 0xff, 0xff, 0xff, 0x7f] = ⟨2 ^ 35 - 1, none, []⟩ ∧
    ((2 : Int) ^ 32 - 1 < 2 ^ 35 - 1) ∧
    ¬ ((readVInt r).err = none ∧ (readVInt r).val < 0) ∧
    (readString r).err ≠ some Error.negativeStringLength := by
  have hb := readVIntLoop_bound 5 0 0 r (by norm_num) (by norm_num)
  refine ⟨fun _ => ⟨hb.1, ?_⟩, by decide, by norm_num, ?_, readString_err r⟩
  · have h2 := hb.2
    norm_num at h2
    unfold readVInt
    omega
  · rintro ⟨_, hneg⟩
    have := readVInt_nonneg r
    omega

/-- C27 on the two-byte encoding of 300. -/
theorem readVInt_range_witness :
    0 ≤ (readVInt [0xac, 0x02]).val ∧ (readVInt [0xac, 0x02]).val < 2 ^ 35 :=
  (readVInt_range [0xac, 0x02]).1 (by decide)

/-- The tail of `ParseInt` fails when `ParseUint` has failed. -/
theorem ParseInt_tail_err (t : GoString) (neg : Bool)
    (h : ParseUint t = (0, some Error.parseSyntax) ∨
      ParseUint t = (2 ^ 64 - 1, some Error.parseRange)) :
    (if (ParseUint t).2 = some Error.parseSyntax then ((0 : Int), (ParseUint t).2)
      else if ¬ neg ∧ (ParseUint t).1 ≥ 2 ^ 63 then (2 ^ 63 - 1, some Error.parseRange)
      else if neg ∧ (ParseUint t).1 > 2 ^ 63 then (-2 ^ 63, some Error.parseRange)
      else (if neg then int64 (uint64 (-(int64 (ParseUint t).1)))
            else int64 (ParseUint t).1, none)).2 ≠ none := by
  rcases h with h | h
  · simp [h]
  · cases neg <;> simp [h]

/-- The tail of `ParseInt` fails when the magnitude is outside the signed range. -/
theorem ParseInt_tail_range (t : GoString) (neg : Bool) (u : Nat)
    (hf : base36Fold t 0 = some u) (hu : if neg then 2 ^ 63 < u else 2 ^ 63 ≤ u) :
    (if (ParseUint t).2 = some Error.parseSyntax then ((0 : Int), (ParseUint t).2)
      else if ¬ neg ∧ (ParseUint t).1 ≥ 2 ^ 63 then (2 ^ 63 - 1, some Error.parseRange)
      else if neg ∧ (ParseUint t).1 > 2 ^ 63 then (-2 ^ 63, some Error.parseRange)
      else (if neg then int64 (uint64 (-(int64 (ParseUint t).1)))
            else int64 (ParseUint t).1, none)).2 ≠ none := by
  rcases ParseUint_cases t with ⟨v, _, h2, _, h4⟩ | ⟨_, h2⟩
  · rw [hf] at h2
    have hv : u = v := by simpa using h2
    subst hv
    cases neg
    · have h5 : (9223372036854775808 : Nat) ≤ u := by simpa using hu
      simp [h4, h5]
    · have h5 : (9223372036854775808 : Nat) < u := by simpa using hu
      simp [h4, h5]
  · exact ParseInt_tail_err t neg h2

/-- The function `ParseInt` fails on every base-36 numeral that denotes an
integer outside the signed 64-bit range. -/
theorem ParseInt_err_of_range (s : GoString) (v : Int) (h : base36Value s = some v)
    (hr : v < -2 ^ 63 ∨ 2 ^ 63 ≤ v) : (ParseInt s).2 ≠ none := by
  cases s with
  | nil => simp [ParseInt]
  | cons c cs =>
    rw [base36Value] at h
    rw [ParseInt_cons]
    by_cases hm : c.val = 45
    · simp only [hm, if_true] at h
      by_cases hcs : cs = []
      · simp [hcs] at h
      · simp only [hcs, if_false] at h
        cases hf : base36Fold cs 0 with
        | none => simp [hf] at h
        | some u =>
          simp only [hf, Option.some.injEq] at h
          have := ParseInt_tail_range cs true u hf (by simp; omega)
          simpa [hm] using this
    · by_cases hp : c.val = 43
      · rw [if_neg hm, if_pos hp] at h
        by_cases hcs : cs = []
        · simp [hcs] at h
        · simp only [hcs, if_false] at h
          cases hf : base36Fold cs 0 with
          | none => simp [hf] at h
          | some u =>
            simp only [hf, Option.some.injEq] at h
            have := ParseInt_tail_range cs false u hf (by simp; omega)
            simpa [hm, hp] using this
      · simp only [hm, hp, if_false] at h
        cases hf : base36Fold (c :: cs) 0 with
        | none => simp [hf] at h
        | some u =>
          simp only [hf, Option.some.injEq] at h
          have := ParseInt_tail_range (c :: cs) false u hf (by simp; omega)
          simpa [hm, hp] using this

/-- What `ParseInt` accepts is a base-36 numeral of a signed 64-bit integer,
and the value returned is the integer it denotes. -/
theorem ParseInt_value (s : GoString) (h : (ParseInt s).2 = none) :
    ∃ v, base36Value s = some v ∧ -2 ^ 63 ≤ v ∧ v < 2 ^ 63 ∧ ParseInt s = (v, none) := by
  cases hb : base36Value s with
  | none => exact absurd h (ParseInt_err_of_none s hb)
  | some v =>
    by_cases hr : v < -2 ^ 63 ∨ 2 ^ 63 ≤ v
    · exact absurd h (ParseInt_err_of_range s v hb hr)
    · exact ⟨v, rfl, by omega, by omega, ParseInt_of_value s v hb (by omega) (by omega)⟩

/-- A name whose generation `generationFromSegmentsFileName` returns with no
error is "segments_" followed by the base-36 numeral of that generation, a
signed 64-bit integer. -/
theorem generation_value (name : GoString) (g : Int)
    (h : generationFromSegmentsFileName name = (g, none)) :
    ∃ s, name = str "segments_" ++ s ∧ base36Value s = some g ∧ -2 ^ 63 ≤ g ∧ g < 2 ^ 63 := by
  by_cases hp : HasPrefix name (str "segments_") = true
  · refine ⟨name.drop 9, eq_append_of_hasPrefix name hp, ?_⟩
    rw [eq_append_of_hasPrefix name hp, generation_of_numbered] at h
    cases hq : (ParseInt (List.drop 9 name)).2 with
    | some e => simp [hq] at h
    | none =>
      obtain ⟨v, h1, h2, h3, h4⟩ := ParseInt_value _ hq
      simp only [hq, h4] at h
      have hv : v = g := by simpa using h
      subst hv
      exact ⟨h1, h2, h3⟩
  · exfalso
    have hp2 : HasPrefix name (SEGMENTS_PREFIX ++ str "_") = false := by
      rw [segments_underscore_bytes, ← str_segments_underscore]
      simpa using hp
    unfold generationFromSegmentsFileName at h
    simp [hp2] at h
/-- C6 as stated fails: on the listing of "segments_1" and
"segments_1y2p0ij32e8e8" the result is "segments_1", of generation 1, although
the suffix of the other name is the base-36 numeral of 2^63, a generation
greater than 1. -/
theorem generation_overflow_counterexample :
    base36Value (str "1y2p0ij32e8e8") = some (2 ^ 63) ∧
    findLatestSegmentsFile
      ⟨[], some [str "segments_1", str "segments_" ++ str "1y2p0ij32e8e8"], fun _ => none⟩
      = (str "segments_1", none) ∧
    generationOf (str "segments_1") = some 1 ∧ base36Value (str "1") = some 1 := by
  decide

/-- C6, amended. For every directory listing on which findLatestSegmentsFile
succeeds with name R: R is a member of the listing, R is not "segments.gen", R
is the bare "segments" (generation 0) or "segments_" followed by the base-36
numeral of its generation, and no name "segments_" + s of the listing whose
suffix s is the base-36 numeral of a signed 64-bit integer has a generation
greater than that of R; the comparison is numeric, so for the listing
segments_1, segments_2, segments_a, segments.gen the result is "segments_a". -/
theorem findLatestSegmentsFile_max_int64 (dir : IndexDir) (fis : List GoString) (R : GoString)
    (hd : dir.entries = some fis) (h : findLatestSegmentsFile dir = (R, none)) :
    R ∈ fis ∧ R ≠ SEGMENTS_GEN_FILE ∧
    (∃ gR : Int,
      ((R = str "segments" ∧ gR = 0) ∨
        (∃ s, R = str "segments_" ++ s ∧ base36Value s = some gR)) ∧
      ∀ (s : GoString) (v : Int), str "segments_" ++ s ∈ fis → base36Value s = some v →
        -2 ^ 63 ≤ v → v < 2 ^ 63 → v ≤ gR) ∧
    findLatestSegmentsFile
      ⟨dir.path, some [str "segments_1", str "segments_2", str "segments_a", str "segments.gen"],
        dir.openFile⟩ = (str "segments_a", none) := by
  obtain ⟨h1, h2, ⟨gR, h3, h4⟩, h5⟩ := findLatestSegmentsFile_max dir fis R hd h
  refine ⟨h1, h2, ⟨gR, ?_, ?_⟩, h5⟩
  · by_cases hb : R = SEGMENTS_PREFIX
    · left
      rw [generationOf, if_pos hb] at h3
      exact ⟨hb, by simpa using h3.symm⟩
    · right
      rw [generationOf, if_neg hb] at h3
      have hg : generationFromSegmentsFileName R = (gR, none) := by
        revert h3
        generalize generationFromSegmentsFileName R = p
        rcases p with ⟨g, _ | e⟩ <;> simp
      obtain ⟨s, hs1, hs2, _⟩ := generation_value R gR hg
      exact ⟨s, hs1, hs2⟩
  · intro s v hmem hv hlo hhi
    apply h4 _ hmem v
    rw [generation_of_numbered, ParseInt_of_value s v hv hlo hhi]

/-- C6, amended, on the listing of the repository's test. -/
theorem findLatestSegmentsFile_max_int64_witness :
    str "segments_a" ∈
        [str "segments_1", str "segments_2", str "segments_a", str "segments.gen"] ∧
    str "segments_a" ≠ SEGMENTS_GEN_FILE ∧
    (∃ gR : Int,
      ((str "segments_a" = str "segments" ∧ gR = 0) ∨
        (∃ s, str "segments_a" = str "segments_" ++ s ∧ base36Value s = some gR)) ∧
      ∀ (s : GoString) (v : Int),
        str "segments_" ++ s ∈
          [str "segments_1", str "segments_2", str "segments_a", str "segments.gen"] →
        base36Value s = some v → -2 ^ 63 ≤ v → v < 2 ^ 63 → v ≤ gR) ∧
    findLatestSegmentsFile
      ⟨[], some [str "segments_1", str "segments_2", str "segments_a", str "segments.gen"],
        fun _ => none⟩ = (str "segments_a", none) :=
  findLatestSegmentsFile_max_int64
    ⟨[], some [str "segments_1", str "segments_2", str "segments_a", str "segments.gen"],
      fun _ => none⟩
    [str "segments_1", str "segments_2", str "segments_a", str "segments.gen"]
    (str "segments_a") rfl (by decide)

/-- C9, amended. For every directory listing that contains a name "segments_"
+ s whose suffix s is the base-36 numeral of an integer in the range
1 .. 2^63 - 1, findLatestSegmentsFile succeeds and returns neither the bare
name "segments" nor "segments.gen"; and for a listing that contains the bare
name "segments" and no name "segments_" + s whose suffix is the base-36
numeral of a signed 64-bit integer, it returns "segments". -/
theorem resolve_numbered_over_bare_int64 (dir : IndexDir) (fis : List GoString)
    (hd : dir.entries = some fis) :
    ((∃ (s : GoString) (v : Int), str "segments_" ++ s ∈ fis ∧ base36Value s = some v ∧
        1 ≤ v ∧ v < 2 ^ 63) →
      (findLatestSegmentsFile dir).2 = none ∧
      (findLatestSegmentsFile dir).1 ≠ str "segments" ∧
      (findLatestSegmentsFile dir).1 ≠ str "segments.gen") ∧
    (str "segments" ∈ fis →
      (∀ (s : GoString) (v : Int), str "segments_" ++ s ∈ fis → base36Value s = some v →
        v < -2 ^ 63 ∨ 2 ^ 63 ≤ v) →
      findLatestSegmentsFile dir = (str "segments", none)) := by
  obtain ⟨h1, h2⟩ := resolve_numbered_over_bare dir fis hd
  constructor
  · rintro ⟨s, v, hmem, hv, hlo, hhi⟩
    apply h1
    refine ⟨_, hmem, v, ?_, hlo⟩
    rw [generation_of_numbered, ParseInt_of_value s v hv (by omega) hhi]
  · intro hbare hnone
    apply h2 hbare
    intro name hmem hg
    have hpair : generationFromSegmentsFileName name
        = ((generationFromSegmentsFileName name).1, none) := by
      rw [← hg]
    obtain ⟨s, hs1, hs2, hs3, hs4⟩ := generation_value name _ hpair
    rw [hs1] at hmem
    rcases hnone s _ hmem hs2 with h | h <;> omega

/-- C9, amended, on the listing "segments", "segments_1" and on the listing
"segments", "segments_1y2p0ij32e8e8", whose numbered name has the suffix of
2^63. -/
theorem resolve_numbered_over_bare_int64_witness :
    ((findLatestSegmentsFile ⟨[], some [str "segments", str "segments_1"], fun _ => none⟩).2
        = none ∧
      (findLatestSegmentsFile ⟨[], some [str "segments", str "segments_1"], fun _ => none⟩).1
        ≠ str "segments" ∧
      (findLatestSegmentsFile ⟨[], some [str "segments", str "segments_1"], fun _ => none⟩).1
        ≠ str "segments.gen") ∧
    findLatestSegmentsFile
      ⟨[], some [str "segments", str "segments_" ++ str "1y2p0ij32e8e8"], fun _ => none⟩
      = (str "segments", none) :=
  ⟨(resolve_numbered_over_bare_int64
      ⟨[], some [str "segments", str "segments_1"], fun _ => none⟩
      [str "segments", str "segments_1"] rfl).1
      ⟨str "1", 1, by decide, by decide, by decide, by decide⟩,
   (resolve_numbered_over_bare_int64
      ⟨[], some [str "segments", str "segments_" ++ str "1y2p0ij32e8e8"], fun _ => none⟩
      [str "segments", str "segments_" ++ str "1y2p0ij32e8e8"] rfl).2 (by decide)
      (by
        intro s v hmem hv
        have hs : s = str "1y2p0ij32e8e8" := by
          have hb : str "segments" = [115, 101, 103, 109, 101, 110, 116, 115] := by decide
          rw [str_segments_underscore, hb] at hmem
          simpa using hmem
        subst hs
        have h63 : base36Value (str "1y2p0ij32e8e8") = some (2 ^ 63) := by decide
        rw [h63] at hv
        have : (2 : Int) ^ 63 = v := by simpa using hv
        omega)⟩

/-! ## Runs with an allocator -/

theorem outcome_of_false {α : Type} (b : Bool) (a : α) (h : b = false) :
    outcome b a = Outcome.returned a := by
  rw [h]; rfl

theorem outcome_of_true {α : Type} (b : Bool) (a : α) (h : b = true) :
    outcome b a = Outcome.aborted := by
  rw [h]; rfl

theorem readStringAborts_of_length (limit : Nat) (r r1 : List Byte) (n : Int)
    (h : readVInt r = ⟨n, none, r1⟩) :
    readStringAborts limit r = decide (limit < n.toNat) := by
  unfold readStringAborts readExactlyAborts refused
  rw [h]
  simp

theorem readStringAborts_enc (limit : Nat) (s : GoString) (rest : List Byte)
    (hs : wfString s) (hl : s.length ≤ limit) :
    readStringAborts limit (encString s ++ rest) = false := by
  have h := readVInt_enc s.length (s ++ rest) hs
  unfold encString
  rw [List.append_assoc, readStringAborts_of_length limit _ _ _ h]
  simp only [Int.toNat_ofNat, decide_eq_false_iff_not]
  omega

set_option maxRecDepth 100000 in
/-- C19 as stated fails: in the stream ff ff ff ff 7f the length is 2^35 - 1
and no byte follows it; with a runtime that refuses a buffer of that size the
call of readString is terminated in readExactly's make and returns nothing,
so it returns no error. -/
theorem readString_abort_counterexample :
    readVInt [0xff, 0xff, 0xff, 0xff, 0x7f] = ⟨2 ^ 35 - 1, none, []⟩ ∧
    readStringRun (2 ^ 35 - 2) [0xff, 0xff, 0xff, 0xff, 0x7f] = Outcome.aborted := by
  decide

/-- C19, amended. For every byte stream that begins with a varint encoding a
length n for which the runtime grants a buffer of n bytes: when at least n
bytes follow, readString returns exactly those n bytes verbatim (nothing is
validated or altered; the empty string when n = 0) and leaves the reader
directly after them; when fewer than n bytes follow, readString returns an
error and the empty string.  The buffer is allocated before anything is read
into it: for a length the runtime does not grant the process is terminated,
whatever follows the length. -/
theorem readString_verbatim_granted (limit : Nat) (r r1 : List Byte) (n : Int)
    (h : readVInt r = ⟨n, none, r1⟩) :
    0 ≤ n ∧
    (n.toNat ≤ limit → n.toNat ≤ r1.length →
      readStringRun limit r = Outcome.returned ⟨r1.take n.toNat, none, r1.drop n.toNat⟩) ∧
    (n.toNat ≤ limit → r1.length < n.toNat →
      ∃ e, readStringRun limit r = Outcome.returned ⟨[], some e, []⟩) ∧
    (limit < n.toNat → readStringRun limit r = Outcome.aborted) ∧
    (∀ (s : GoString) (rest : List Byte), wfString s → s.length ≤ limit →
      readStringRun limit (encString s ++ rest) = Outcome.returned ⟨s, none, rest⟩) := by
  have h0 : 0 ≤ n := by
    have := readVInt_nonneg r
    rw [h] at this
    exact this
  have ha := readStringAborts_of_length limit r r1 n h
  refine ⟨h0, ?_, ?_, ?_, ?_⟩
  · intro hl hle
    unfold readStringRun
    rw [outcome_of_false _ _ (by rw [ha]; simpa using hl)]
    congr 1
    unfold readString
    rw [h]
    simp only
    rw [if_neg (by omega)]
    by_cases hz : n = 0
    · rw [if_pos hz, hz]
      simp
    · rw [if_neg hz]
      unfold readExactly
      rw [if_pos hle]
  · intro hl hlt
    unfold readStringRun
    rw [outcome_of_false _ _ (by rw [ha]; simpa using hl)]
    unfold readString
    rw [h]
    simp only
    have hz : ¬ n = 0 := by omega
    rw [if_neg (by omega), if_neg hz]
    unfold readExactly
    rw [if_neg (by omega)]
    exact ⟨_, rfl⟩
  · intro hl
    unfold readStringRun
    exact outcome_of_true _ _ (by rw [ha]; simpa using hl)
  · intro s rest hs hl
    unfold readStringRun
    rw [outcome_of_false _ _ (readStringAborts_enc limit s rest hs hl), readString_enc s rest hs]

set_option maxRecDepth 100000 in
/-- C19, amended, with a runtime that grants 1000 bytes: on the length 3
followed by the bytes 0xff, 0xfe, 0x00 (not UTF-8) and one more byte, on the
length 3 followed by two bytes, and on the length 2000. -/
theorem readString_verbatim_granted_witness :
    readStringRun 1000 [3, 0xff, 0xfe, 0x00, 9]
      = Outcome.returned ⟨[0xff, 0xfe, 0x00], none, [9]⟩ ∧
    (∃ e, readStringRun 1000 [3, 0xff, 0xfe] = Outcome.returned ⟨[], some e, []⟩) ∧
    readStringRun 1000 [0xd0, 0x0f, 1, 2] = Outcome.aborted :=
  ⟨by
    have h := (readString_verbatim_granted 1000 [3, 0xff, 0xfe, 0x00, 9]
      [0xff, 0xfe, 0x00, 9] 3 (by decide)).2.1 (by decide) (by decide)
    exact h,
   (readString_verbatim_granted 1000 [3, 0xff, 0xfe] [0xff, 0xfe] 3
      (by decide)).2.2.1 (by decide) (by decide),
   (readString_verbatim_granted 1000 [0xd0, 0x0f, 1, 2] [1, 2] 2000
      (by decide)).2.2.2.1 (by decide)⟩
theorem readMapOfStringsLoopAborts_skip (limit : Nat) (tail : List Byte)
    (kvs : List (GoString × GoString)) :
    ∀ n : Nat, (∀ kv ∈ kvs, wfString kv.1 ∧ wfString kv.2) →
    (∀ kv ∈ kvs, kv.1.length ≤ limit ∧ kv.2.length ≤ limit) →
    readMapOfStringsLoopAborts limit (kvs.length + n)
        (kvs.flatMap (fun kv => encString kv.1 ++ encString kv.2) ++ tail)
      = readMapOfStringsLoopAborts limit n tail := by
  induction kvs with
  | nil => intro n _ _; simp
  | cons kv kvs ih =>
    intro n hw hl
    have hw1 := hw kv (List.mem_cons_self _ _)
    have hl1 := hl kv (List.mem_cons_self _ _)
    have e : (kv :: kvs).length + n = (kvs.length + n) + 1 := by
      simp only [List.length_cons]; omega
    rw [e, readMapOfStringsLoopAborts]
    simp only [List.flatMap_cons, List.append_assoc]
    rw [readStringAborts_enc limit _ _ hw1.1 hl1.1, readString_enc _ _ hw1.1]
    simp only
    rw [readStringAborts_enc limit _ _ hw1.2 hl1.2, readString_enc _ _ hw1.2]
    simp only [decide_True, Bool.true_and, Bool.false_or]
    exact ih n (fun x hx => hw x (List.mem_cons_of_mem _ hx))
      (fun x hx => hl x (List.mem_cons_of_mem _ hx))

theorem readMapOfStringsLoopAborts_fail (limit n : Nat) (tail : List Byte)
    (h : (readString tail).err ≠ none ∨ (readString (readString tail).rest).err ≠ none)
    (h1 : readStringAborts limit tail = false)
    (h2 : (readString tail).err = none →
      readStringAborts limit (readString tail).rest = false) :
    readMapOfStringsLoopAborts limit (n + 1) tail = false := by
  rw [readMapOfStringsLoopAborts, h1]
  by_cases hk : (readString tail).err = none
  · rw [h2 hk]
    have hv : ¬ (readString (readString tail).rest).err = none := by
      rcases h with h | h
      · exact absurd hk h
      · exact h
    simp [hv]
  · simp [hk]

theorem readMapOfStringsAborts_of_count (limit : Nat) (r r1 : List Byte) (n : Int)
    (h : readVInt r = ⟨n, none, r1⟩) :
    readMapOfStringsAborts limit r =
      (decide (limit < n.toNat) || readMapOfStringsLoopAborts limit n.toNat r1) := by
  unfold readMapOfStringsAborts refused
  rw [h]
  simp

set_option maxRecDepth 100000 in
/-- C20 as stated fails: in the stream 01 ff ff ff ff 7f the count is 1 and
the key, of declared length 2^35 - 1, cannot be read; with a runtime that
refuses a buffer of that size the call of readMapOfStrings is terminated in
readExactly's make and returns nothing, so it returns no error. -/
theorem readMapOfStrings_abort_counterexample :
    readVInt [0x01, 0xff, 0xff, 0xff, 0xff, 0x7f] = ⟨1, none, [0xff, 0xff, 0xff, 0xff, 0x7f]⟩ ∧
    readVInt [0xff, 0xff, 0xff, 0xff, 0x7f] = ⟨2 ^ 35 - 1, none, []⟩ ∧
    readMapOfStringsRun (2 ^ 35 - 2) [0x01, 0xff, 0xff, 0xff, 0xff, 0x7f] = Outcome.aborted := by
  decide

/-- C20, amended. For every byte stream that begins with a varint count c
followed by c well-formed (key, value) string pairs, where the runtime grants
a map of c entries and a buffer of the length of each key and value,
readMapOfStrings returns no error and the map that sends each key occurring
among the pairs to the value of its last occurrence (a duplicate key
overwrites the earlier entry and is not an error); if the count cannot be
read, or a key or value cannot be read for which the runtime grants the
buffer, it returns an error and no map.  The map and each buffer are
allocated before they are filled: for a count the runtime does not grant the
process is terminated. -/
theorem readMapOfStrings_granted (limit : Nat) (kvs : List (GoString × GoString))
    (rest : List Byte) (hw : ∀ kv ∈ kvs, wfString kv.1 ∧ wfString kv.2)
    (hl : ∀ kv ∈ kvs, kv.1.length ≤ limit ∧ kv.2.length ≤ limit) :
    (kvs.length < 2 ^ 31 → kvs.length ≤ limit →
      readMapOfStringsRun limit (encStringMap kvs ++ rest)
        = Outcome.returned ⟨some (mapOfPairs kvs), none, rest⟩ ∧
      ∀ k, (mapOfPairs kvs).get k = lastValue kvs k) ∧
    (∀ c : Nat, c < 2 ^ 31 → c ≤ limit → kvs.length < c →
      ((readString rest).err ≠ none ∨ (readString (readString rest).rest).err ≠ none) →
      readStringAborts limit rest = false →
      ((readString rest).err = none →
        readStringAborts limit (readString rest).rest = false) →
      ∃ x, readMapOfStringsRun limit (encVInt c ++
          (kvs.flatMap (fun kv => encString kv.1 ++ encString kv.2) ++ rest))
          = Outcome.returned x ∧ x.val = none ∧ x.err ≠ none) ∧
    ((readVInt rest).err ≠ none →
      ∃ x, readMapOfStringsRun limit rest = Outcome.returned x ∧
        x.val = none ∧ x.err ≠ none) ∧
    (∀ (c : Nat) (t : List Byte), c < 2 ^ 31 → limit < c →
      readMapOfStringsRun limit (encVInt c ++ t) = Outcome.aborted) := by
  refine ⟨?_, ?_, ?_, ?_⟩
  · intro hlen hle
    refine ⟨?_, get_mapOfPairs kvs⟩
    unfold readMapOfStringsRun
    rw [readMapOfStrings_enc kvs rest hlen hw]
    apply outcome_of_false
    unfold encStringMap
    rw [List.append_assoc, readMapOfStringsAborts_of_count limit _ _ _
      (readVInt_enc kvs.length _ hlen)]
    simp only [Int.toNat_ofNat]
    have h0 := readMapOfStringsLoopAborts_skip limit rest kvs 0 hw hl
    rw [Nat.add_zero] at h0
    rw [h0, readMapOfStringsLoopAborts]
    simp only [Bool.or_false, decide_eq_false_iff_not]
    omega
  · intro c hc hcl hlt hfail ha1 ha2
    obtain ⟨j, hj⟩ : ∃ j, c = kvs.length + (j + 1) := ⟨c - kvs.length - 1, by omega⟩
    refine ⟨_, outcome_of_false _ _ ?_, ?_⟩
    · rw [readMapOfStringsAborts_of_count limit _ _ _ (readVInt_enc c _ hc)]
      simp only [Int.toNat_ofNat]
      rw [hj, readMapOfStringsLoopAborts_skip limit rest kvs (j + 1) hw hl,
        readMapOfStringsLoopAborts_fail limit j rest hfail ha1 ha2]
      simp only [Bool.or_false, decide_eq_false_iff_not]
      omega
    · unfold readMapOfStrings
      rw [readVInt_enc c _ hc]
      simp only [Int.toNat_ofNat]
      rw [hj, readMapOfStringsLoop_skip rest kvs (j + 1) [] hw]
      exact readMapOfStringsLoop_fail j _ rest hfail
  · intro he
    refine ⟨_, outcome_of_false _ _ ?_, ?_⟩
    · unfold readMapOfStringsAborts
      simp [he]
    · unfold readMapOfStrings
      cases hv : (readVInt rest).err with
      | none => exact absurd hv he
      | some e => simp [hv]
  · intro c t hc hlt
    unfold readMapOfStringsRun
    apply outcome_of_true
    rw [readMapOfStringsAborts_of_count limit _ _ _ (readVInt_enc c _ hc)]
    simp only [Int.toNat_ofNat, Bool.or_eq_true, decide_eq_true_eq]
    exact Or.inl hlt

set_option maxRecDepth 100000 in
/-- C20, amended, with a runtime that grants 1000 elements: on the pairs
(k, v1), (k, v2), where the map holds v2 for k; on the count 2 followed by one
pair and a truncated key; and on the count 2000. -/
theorem readMapOfStrings_granted_witness :
    (readMapOfStringsRun 1000 (encStringMap [(str "k", str "v1"), (str "k", str "v2")] ++ [7])
        = Outcome.returned ⟨some (mapOfPairs [(str "k", str "v1"), (str "k", str "v2")]),
            none, [7]⟩ ∧
      ∀ k, (mapOfPairs [(str "k", str "v1"), (str "k", str "v2")]).get k
        = lastValue [(str "k", str "v1"), (str "k", str "v2")] k) ∧
    (∃ x, readMapOfStringsRun 1000 (encVInt 2 ++
          ([(str "k", str "v1")].flatMap (fun kv => encString kv.1 ++ encString kv.2)
            ++ [5, 1])) = Outcome.returned x ∧ x.val = none ∧ x.err ≠ none) ∧
    readMapOfStringsRun 1000 (encVInt 2000 ++ [1, 2]) = Outcome.aborted :=
  ⟨(readMapOfStrings_granted 1000 [(str "k", str "v1"), (str "k", str "v2")] [7]
      (by decide) (by decide)).1 (by decide) (by decide),
   (readMapOfStrings_granted 1000 [(str "k", str "v1")] [5, 1] (by decide)
      (by decide)).2.1 2 (by decide) (by decide) (by decide) (Or.inl (by decide))
      (by decide) (by decide),
   (readMapOfStrings_granted 1000 [] [] (by decide) (by decide)).2.2.2 2000 [1, 2]
      (by decide) (by decide)⟩

theorem returned_inj {α : Type} (b : Bool) (a x : α)
    (h : outcome b a = Outcome.returned x) : b = false ∧ x = a := by
  cases b with
  | false =>
    have h2 : Outcome.returned a = Outcome.returned x := h
    exact ⟨rfl, (Outcome.returned.inj h2).symm⟩
  | true =>
    have h2 : (Outcome.aborted : Outcome α) = Outcome.returned x := h
    exact Outcome.noConfusion h2

theorem parseSegmentSIAborts_of_missing (limit : Nat) (dir : IndexDir) (name : GoString)
    (h : dir.openFile (name ++ str ".si") = none) :
    parseSegmentSIAborts limit dir name = false := by
  unfold parseSegmentSIAborts
  rw [h]

/-- C14, amended. parseSegmentSI does not fail on a primitive read failure: for
every .si file that can be opened and whose decoding is not terminated in an
allocation (no string length of the header and no count or string length of
the diagnostics exceeds what the runtime grants), wherever its content ends
and whatever else it holds, parseSegmentSI returns a nil error; when the file
cannot be opened it returns an error; and whenever it returns, it returns an
error exactly when the file cannot be opened. -/
theorem parseSegmentSI_granted (limit : Nat) (dir : IndexDir) (name : GoString) :
    (∀ f, dir.openFile (name ++ str ".si") = some f →
      parseSegmentSIAborts limit dir name = false →
      ∃ x, parseSegmentSIRun limit dir name = Outcome.returned x ∧ x.err = none) ∧
    (dir.openFile (name ++ str ".si") = none →
      parseSegmentSIRun limit dir name
        = Outcome.returned ⟨0, false, none, some Error.openFailed⟩) ∧
    (∀ x, parseSegmentSIRun limit dir name = Outcome.returned x →
      (x.err ≠ none ↔ dir.openFile (name ++ str ".si") = none)) := by
  refine ⟨?_, ?_, ?_⟩
  · intro f hf ha
    refine ⟨_, outcome_of_false _ _ ha, ?_⟩
    by_contra hne
    rw [(parseSegmentSI_err dir name).1 hne] at hf
    simp at hf
  · intro hn
    unfold parseSegmentSIRun
    rw [outcome_of_false _ _ (parseSegmentSIAborts_of_missing limit dir name hn)]
    unfold parseSegmentSI
    rw [hn]
  · intro x hx
    obtain ⟨_, rfl⟩ := returned_inj _ _ _ hx
    exact parseSegmentSI_err dir name

set_option maxRecDepth 100000 in
/-- C14, amended, with a runtime that grants 1000 elements: on a .si file that
ends inside the codec name of its header, and in a directory without the .si
file. -/
theorem parseSegmentSI_granted_witness :
    (∃ x, parseSegmentSIRun 1000
        (singleFileDir (str "_0.si") [0x3f, 0xd7, 0x6c, 0x17, 19, 76, 117])
        (str "_0") = Outcome.returned x ∧ x.err = none) ∧
    parseSegmentSIRun 1000 (singleFileDir (str "segments_1") []) (str "_0")
      = Outcome.returned ⟨0, false, none, some Error.openFailed⟩ :=
  ⟨(parseSegmentSI_granted 1000
      (singleFileDir (str "_0.si") [0x3f, 0xd7, 0x6c, 0x17, 19, 76, 117])
      (str "_0")).1 [0x3f, 0xd7, 0x6c, 0x17, 19, 76, 117] (by decide) (by decide),
   (parseSegmentSI_granted 1000 (singleFileDir (str "segments_1") []) (str "_0")).2.1
      (by decide)⟩

set_option maxRecDepth 100000 in
/-- With a runtime that refuses 2^35 - 1 elements, parseSegmentSI is
terminated on a .si file whose codec name has the declared length 2^35 - 1,
and on one whose diagnostics count is 2^35 - 1. -/
theorem parseSegmentSI_abort_example :
    parseSegmentSIRun (2 ^ 35 - 2)
      (singleFileDir (str "_0.si") [0x3f, 0xd7, 0x6c, 0x17, 0xff, 0xff, 0xff, 0xff, 0x7f])
      (str "_0") = Outcome.aborted ∧
    parseSegmentSIRun (2 ^ 35 - 2)
      (singleFileDir (str "_0.si")
        (encSIHead (exampleSIFields 0 [] [5, 0, 0, 0]) ++ [1, 0xff, 0xff, 0xff, 0xff, 0x7f]))
      (str "_0") = Outcome.aborted := by
  decide
theorem parseSegmentsFileAborts_of_bad_magic (limit : Nat) (dir : IndexDir)
    (segFile : GoString) (f : List Byte) (hf : dir.openFile segFile = some f)
    (hm : (readBEInt32 f).val ≠ CODEC_MAGIC) :
    parseSegmentsFileAborts limit dir segFile = false := by
  unfold parseSegmentsFileAborts
  simp only [hf]
  rw [if_pos hm]

theorem buildReportAborts_of_found (limit : Nat) (dir : IndexDir) (segFile : GoString)
    (h : findLatestSegmentsFile dir = (segFile, none)) :
    buildReportAborts limit dir = parseSegmentsFileAborts limit dir segFile := by
  unfold buildReportAborts
  rw [h]

/-- C12, amended. A primitive read failure while decoding the commit file
aborts the decode only at the magic: for every commit file with valid magic,
wherever it is truncated after the magic, whose decoding is not terminated in
an allocation (no declared string length or count, nor the declared number of
segments, exceeds what the runtime grants), parseSegmentsFile returns a nil
error and buildReport returns a report; for every commit file shorter than
four bytes parseSegmentsFile returns an error and no summaries, and
buildReport returns no report. -/
theorem truncation_not_reported_granted (limit : Nat) (dir : IndexDir) (segFile : GoString)
    (f t : List Byte) (hf : dir.openFile segFile = some f) :
    (f = [0x3f, 0xd7, 0x6c, 0x17] ++ t → parseSegmentsFileAborts limit dir segFile = false →
      (∃ x, parseSegmentsFileRun limit dir segFile = Outcome.returned x ∧ x.2.2 = none) ∧
      (findLatestSegmentsFile dir = (segFile, none) →
        ∃ rep, buildReportRun limit dir = Outcome.returned (some rep, none))) ∧
    (f.length < 4 →
      parseSegmentsFileRun limit dir segFile
        = Outcome.returned ([], none, some Error.badMagic) ∧
      (findLatestSegmentsFile dir = (segFile, none) →
        buildReportRun limit dir = Outcome.returned (none, some Error.badMagic))) := by
  obtain ⟨h1, h2⟩ := truncation_not_reported dir segFile f t hf
  constructor
  · intro hft ha
    obtain ⟨h3, h4⟩ := h1 hft
    refine ⟨⟨_, outcome_of_false _ _ ha, h3⟩, ?_⟩
    intro hseg
    obtain ⟨rep, hrep⟩ := h4 hseg
    refine ⟨rep, ?_⟩
    unfold buildReportRun
    rw [outcome_of_false _ _ (by rw [buildReportAborts_of_found limit dir segFile hseg, ha]),
      hrep]
  · intro hlen
    obtain ⟨h3, h4⟩ := h2 hlen
    have ha := parseSegmentsFileAborts_of_bad_magic limit dir segFile f hf
      (readBEInt32_ne_magic f (Or.inl hlen))
    constructor
    · unfold parseSegmentsFileRun
      rw [outcome_of_false _ _ ha, h3]
    · intro hseg
      unfold buildReportRun
      rw [outcome_of_false _ _ (by rw [buildReportAborts_of_found limit dir segFile hseg, ha]),
        h4 hseg]

set_option maxRecDepth 100000 in
/-- C12, amended, with a runtime that grants 1000 elements: on a commit file
that ends inside the label string and on one that ends inside the magic. -/
theorem truncation_not_reported_granted_witness :
    ((∃ x, parseSegmentsFileRun 1000
          (singleFileDir (str "segments_1") ([0x3f, 0xd7, 0x6c, 0x17] ++ [8, 115]))
          (str "segments_1") = Outcome.returned x ∧ x.2.2 = none) ∧
      ∃ rep, buildReportRun 1000
          (singleFileDir (str "segments_1") ([0x3f, 0xd7, 0x6c, 0x17] ++ [8, 115]))
        = Outcome.returned (some rep, none)) ∧
    (parseSegmentsFileRun 1000 (singleFileDir (str "segments_1") [0x3f, 0xd7])
        (str "segments_1") = Outcome.returned ([], none, some Error.badMagic) ∧
      buildReportRun 1000 (singleFileDir (str "segments_1") [0x3f, 0xd7])
        = Outcome.returned (none, some Error.badMagic)) :=
  ⟨⟨((truncation_not_reported_granted 1000
        (singleFileDir (str "segments_1") ([0x3f, 0xd7, 0x6c, 0x17] ++ [8, 115]))
        (str "segments_1") ([0x3f, 0xd7, 0x6c, 0x17] ++ [8, 115]) [8, 115] (by decide)).1 rfl
        (by decide)).1,
     ((truncation_not_reported_granted 1000
        (singleFileDir (str "segments_1") ([0x3f, 0xd7, 0x6c, 0x17] ++ [8, 115]))
        (str "segments_1") ([0x3f, 0xd7, 0x6c, 0x17] ++ [8, 115]) [8, 115] (by decide)).1 rfl
        (by decide)).2 (by decide)⟩,
   ⟨((truncation_not_reported_granted 1000 (singleFileDir (str "segments_1") [0x3f, 0xd7])
        (str "segments_1") [0x3f, 0xd7] [] (by decide)).2 (by decide)).1,
    ((truncation_not_reported_granted 1000 (singleFileDir (str "segments_1") [0x3f, 0xd7])
        (str "segments_1") [0x3f, 0xd7] [] (by decide)).2 (by decide)).2 (by decide)⟩⟩

/-- C13, amended. A failure to decode the .si file of a segment referenced by
the commit file is not fatal: parseSegmentsFile drops the error of
parseSegmentSI and emits the summary for that segment with the values
parseSegmentSI returned, which are document count 0, compound flag false and
nil diagnostics when the file cannot be opened; on a well-formed commit file
whose decoding, that of the .si files included, is not terminated in an
allocation, it returns a nil error and one summary per record whatever the
.si files are, and buildReport returns the report. -/
theorem si_failure_not_fatal_granted (limit : Nat) (dir : IndexDir) (segFile : GoString)
    (c : CommitFile) (hw : wfCommit c) (hf : dir.openFile segFile = some (encCommit c))
    (ha : parseSegmentsFileAborts limit dir segFile = false) :
    parseSegmentsFileRun limit dir segFile = Outcome.returned
      (c.segments.map (fun s => summaryOf c.formatVer s (parseSegmentSI dir s.name)),
        some (mapOfPairs c.userData), none) ∧
    (∀ s ∈ c.segments, dir.openFile (s.name ++ str ".si") = none →
      summaryOf c.formatVer s (parseSegmentSI dir s.name)
        = summaryOf c.formatVer s ⟨0, false, none, some Error.openFailed⟩) ∧
    (findLatestSegmentsFile dir = (segFile, none) →
      ∃ rep, buildReportRun limit dir = Outcome.returned (some rep, none) ∧
        rep.Segments = c.segments.map
          (fun s => summaryOf c.formatVer s (parseSegmentSI dir s.name))) := by
  obtain ⟨h1, h2, h3⟩ := si_failure_not_fatal dir segFile c hw hf
  refine ⟨?_, h2, ?_⟩
  · unfold parseSegmentsFileRun
    rw [outcome_of_false _ _ ha, h1]
  · intro hseg
    obtain ⟨rep, hrep, hsegs⟩ := h3 hseg
    refine ⟨rep, ?_, hsegs⟩
    unfold buildReportRun
    rw [outcome_of_false _ _ (by rw [buildReportAborts_of_found limit dir segFile hseg, ha]),
      hrep]

set_option maxRecDepth 100000 in
/-- C13, amended, with a runtime that grants 1000 elements, on the directory
that holds the example commit file and, for the segment _0, a .si file of
three bytes. -/
theorem si_failure_not_fatal_granted_witness :
    parseSegmentsFileRun 1000
        (twoFileDir (str "segments_2") (encCommit exampleCommit) (str "_0.si") [1, 2, 3])
        (str "segments_2") = Outcome.returned
      (exampleCommit.segments.map (fun s => summaryOf exampleCommit.formatVer s
          (parseSegmentSI
            (twoFileDir (str "segments_2") (encCommit exampleCommit) (str "_0.si") [1, 2, 3])
            s.name)),
        some (mapOfPairs exampleCommit.userData), none) ∧
    ∃ rep, buildReportRun 1000
        (twoFileDir (str "segments_2") (encCommit exampleCommit) (str "_0.si") [1, 2, 3])
        = Outcome.returned (some rep, none) ∧
      rep.Segments = exampleCommit.segments.map (fun s => summaryOf exampleCommit.formatVer s
        (parseSegmentSI
          (twoFileDir (str "segments_2") (encCommit exampleCommit) (str "_0.si") [1, 2, 3])
          s.name)) :=
  ⟨(si_failure_not_fatal_granted 1000
      (twoFileDir (str "segments_2") (encCommit exampleCommit) (str "_0.si") [1, 2, 3])
      (str "segments_2") exampleCommit (by decide) (by decide) (by decide)).1,
   (si_failure_not_fatal_granted 1000
      (twoFileDir (str "segments_2") (encCommit exampleCommit) (str "_0.si") [1, 2, 3])
      (str "segments_2") exampleCommit (by decide) (by decide) (by decide)).2.2 (by decide)⟩

set_option maxRecDepth 100000 in
/-- C25 as stated fails: the file 3f d7 6c 17 ff ff ff ff 7f starts with the
magic, and the label that follows has the declared length 2^35 - 1; with a
runtime that refuses a buffer of that size parseSegmentsFile is terminated in
readExactly's make and returns nothing, so it returns no nil error, and
buildReport returns no report. -/
theorem oversized_label_counterexample :
    (readBEInt32 [0x3f, 0xd7, 0x6c, 0x17, 0xff, 0xff, 0xff, 0xff, 0x7f]).val = CODEC_MAGIC ∧
    parseSegmentsFileRun (2 ^ 35 - 2)
      (singleFileDir (str "segments_1") [0x3f, 0xd7, 0x6c, 0x17, 0xff, 0xff, 0xff, 0xff, 0x7f])
      (str "segments_1") = Outcome.aborted ∧
    buildReportRun (2 ^ 35 - 2)
      (singleFileDir (str "segments_1") [0x3f, 0xd7, 0x6c, 0x17, 0xff, 0xff, 0xff, 0xff, 0x7f])
      = Outcome.aborted :=
  ⟨by decide, outcome_of_true _ _ (by decide), outcome_of_true _ _ (by decide)⟩

/-- C25, amended. For every commit file that can be opened and whose decoding
is not terminated in an allocation, parseSegmentsFile returns an error if and
only if the first four bytes read big-endian differ from 0x3fd76c17 (a file
shorter than four bytes counts as differing); when the magic differs the
decoding is never terminated, and once the magic matches it returns a nil
error for every remaining content, however truncated or malformed, in which
no declared string length or count, nor the declared number of segments,
exceeds what the runtime grants. -/
theorem error_iff_bad_magic_granted (limit : Nat) (dir : IndexDir) (segFile : GoString)
    (f : List Byte) (hf : dir.openFile segFile = some f) :
    ((f.length < 4 ∨ beUint (f.take 4) ≠ 0x3fd76c17) →
      parseSegmentsFileRun limit dir segFile
        = Outcome.returned ([], none, some Error.badMagic)) ∧
    (∀ t : List Byte, f = [0x3f, 0xd7, 0x6c, 0x17] ++ t →
      parseSegmentsFileAborts limit dir segFile = false →
      ∃ x, parseSegmentsFileRun limit dir segFile = Outcome.returned x ∧ x.2.2 = none) ∧
    (∀ x, parseSegmentsFileRun limit dir segFile = Outcome.returned x →
      (x.2.2 ≠ none ↔ (f.length < 4 ∨ beUint (f.take 4) ≠ 0x3fd76c17))) := by
  obtain ⟨h1, h2⟩ := error_iff_bad_magic dir segFile f hf
  refine ⟨?_, ?_, ?_⟩
  · intro hm
    have hne := readBEInt32_ne_magic f hm
    unfold parseSegmentsFileRun
    rw [outcome_of_false _ _ (parseSegmentsFileAborts_of_bad_magic limit dir segFile f hf hne),
      parseSegmentsFile_of_bad_magic dir segFile f hf hne]
  · intro t ht ha
    exact ⟨_, outcome_of_false _ _ ha, h2 t ht⟩
  · intro x hx
    obtain ⟨_, rfl⟩ := returned_inj _ _ _ hx
    exact h1

set_option maxRecDepth 100000 in
/-- C25, amended, with a runtime that grants 1000 elements: on a commit file
that holds the magic and two bytes of garbage, and on one whose first byte
differs from that of the magic. -/
theorem error_iff_bad_magic_granted_witness :
    (∃ x, parseSegmentsFileRun 1000
        (singleFileDir (str "segments_1") ([0x3f, 0xd7, 0x6c, 0x17] ++ [0xff, 0x01]))
        (str "segments_1") = Outcome.returned x ∧ x.2.2 = none) ∧
    parseSegmentsFileRun 1000
        (singleFileDir (str "segments_1") [0x3e, 0xd7, 0x6c, 0x17, 0xff, 0xff, 0xff, 0xff, 0x7f])
        (str "segments_1") = Outcome.returned ([], none, some Error.badMagic) :=
  ⟨(error_iff_bad_magic_granted 1000
      (singleFileDir (str "segments_1") ([0x3f, 0xd7, 0x6c, 0x17] ++ [0xff, 0x01]))
      (str "segments_1") ([0x3f, 0xd7, 0x6c, 0x17] ++ [0xff, 0x01]) (by decide)).2.1
      [0xff, 0x01] rfl (by decide),
   (error_iff_bad_magic_granted 1000
      (singleFileDir (str "segments_1") [0x3e, 0xd7, 0x6c, 0x17, 0xff, 0xff, 0xff, 0xff, 0x7f])
      (str "segments_1") [0x3e, 0xd7, 0x6c, 0x17, 0xff, 0xff, 0xff, 0xff, 0x7f]
      (by decide)).1 (Or.inr (by decide))⟩

set_option maxRecDepth 100000 in
/-- C26 as stated fails, in two ways.  The file 3f d7 6c 17 ff ff ff ff 7f has
valid magic, and with a runtime that refuses a buffer of 2^35 - 1 bytes
parseSegmentsFile is terminated and returns no summaries at all.  And in a
directory that holds a file ".si" with the document count 77, the record
behind the end of a commit file that declares one segment is emitted with the
document count 77, not zero. -/
theorem summaries_count_counterexample :
    parseSegmentsFileRun (2 ^ 35 - 2)
      (singleFileDir (str "segments_1") [0x3f, 0xd7, 0x6c, 0x17, 0xff, 0xff, 0xff, 0xff, 0x7f])
      (str "segments_1") = Outcome.aborted ∧
    (parseSegmentsFile
        (twoFileDir (str "segments_1") (encCommitPrefix exampleCommit ++ encBE32 1)
          (str ".si") (encSI (exampleSI 77 0 none)))
        (str "segments_1")).1.map (fun s => (s.SegName, s.SegCodec, s.MaxDoc, s.DelCount,
          s.SoftDelCount))
      = [([], [], 77, 0, 0)] :=
  ⟨outcome_of_true _ _ (by decide), by decide⟩

/-- C26, amended. For every commit file with valid magic whose decoding is not
terminated in an allocation (no declared string length or count, nor the
declared number of segments, exceeds what the runtime grants), the number of
summaries returned by parseSegmentsFile, and hence the report's TotalSegments,
equals the declared big-endian segment count N when N > 0 and 0 when N <= 0
or the count cannot be read, regardless of how many segment records the file
actually contains: the records behind the end of the input are emitted as
summaries with empty name and codec and zero deletion count, soft-deletion
count and generations; their document count, compound flag and diagnostics
are those parseSegmentSI returns for the empty segment name, which are 0,
false and nil when no file ".si" can be opened. -/
theorem summaries_follow_count_granted (limit : Nat) (dir : IndexDir) (segFile : GoString)
    (f : List Byte) (c : CommitFile) (n : Int) (hf : dir.openFile segFile = some f)
    (hw : wfCommit c) (hn : isInt32 n)
    (ha : parseSegmentsFileAborts limit dir segFile = false) :
    parseSegmentsFileRun limit dir segFile
      = Outcome.returned (parseSegmentsFile dir segFile) ∧
    ((readBEInt32 f).val = CODEC_MAGIC →
      (parseSegmentsFile dir segFile).1.length
        = (readCommitHeader (readBEInt32 f).rest).numSegs.toNat ∧
      (findLatestSegmentsFile dir = (segFile, none) →
        ∃ rep, buildReportRun limit dir = Outcome.returned (some rep, none) ∧
          rep.TotalSegments
            = ((readCommitHeader (readBEInt32 f).rest).numSegs.toNat : Int))) ∧
    (∀ tail : List Byte, f = encCommitPrefix c ++ (encBE32 n ++ tail) →
      (0 < n → ((parseSegmentsFile dir segFile).1.length : Int) = n) ∧
      (n ≤ 0 → (parseSegmentsFile dir segFile).1 = [])) ∧
    (∀ t : List Byte, t.length < 4 → f = encCommitPrefix c ++ t →
      (parseSegmentsFile dir segFile).1 = []) ∧
    (0 < n → c.segments.length ≤ n.toNat →
      f = encCommitPrefix c ++ (encBE32 n ++ (c.minSegVersion ++
        c.segments.flatMap (encSegment c.formatVer))) →
      (parseSegmentsFile dir segFile).1 =
        c.segments.map (fun s => summaryOf c.formatVer s (parseSegmentSI dir s.name)) ++
          List.replicate (n.toNat - c.segments.length) (summaryPastEnd dir)) ∧
    (f = encCommitPrefix c ++ encBE32 n →
      (parseSegmentsFile dir segFile).1 = List.replicate n.toNat (summaryPastEnd dir)) ∧
    ((summaryPastEnd dir).SegName = [] ∧ (summaryPastEnd dir).SegCodec = [] ∧
      (summaryPastEnd dir).DelCount = 0 ∧ (summaryPastEnd dir).SoftDelCount = 0 ∧
      (summaryPastEnd dir).DelGen = 0 ∧ (summaryPastEnd dir).FieldInfosGen = 0 ∧
      (summaryPastEnd dir).DVGen = 0 ∧
      (summaryPastEnd dir).MaxDoc = (parseSegmentSI dir []).docCount ∧
      (summaryPastEnd dir).Compound = (parseSegmentSI dir []).isCompound ∧
      (summaryPastEnd dir).Extra = (parseSegmentSI dir []).diag) ∧
    (dir.openFile (str ".si") = none →
      (summaryPastEnd dir).MaxDoc = 0 ∧ (summaryPastEnd dir).Compound = false ∧
      (summaryPastEnd dir).Extra = none) := by
  obtain ⟨h1, h2, h3, h4, h5, h6⟩ := summaries_follow_count dir segFile f c n hf hw hn
  refine ⟨outcome_of_false _ _ ha, ?_, h2, h3, h4, h5,
    ⟨rfl, rfl, rfl, rfl, rfl, rfl, rfl, rfl, rfl, rfl⟩, h6⟩
  intro hm
  obtain ⟨h7, h8⟩ := h1 hm
  refine ⟨h7, ?_⟩
  intro hseg
  obtain ⟨rep, hrep, htot⟩ := h8 hseg
  refine ⟨rep, ?_, htot⟩
  unfold buildReportRun
  rw [outcome_of_false _ _ (by rw [buildReportAborts_of_found limit dir segFile hseg, ha]),
    hrep]

set_option maxRecDepth 100000 in
/-- C26, amended, with a runtime that grants 1000 elements: on the example
commit file with the declared count raised to 3 and the input ending behind
its two records, and on a commit file that ends inside the count. -/
theorem summaries_follow_count_granted_witness :
    (parseSegmentsFile
        (singleFileDir (str "segments_1")
          (encCommitPrefix exampleCommit ++ (encBE32 3 ++ (exampleCommit.minSegVersion ++
            exampleCommit.segments.flatMap (encSegment exampleCommit.formatVer)))))
        (str "segments_1")).1 =
      exampleCommit.segments.map
        (fun s => summaryOf exampleCommit.formatVer s
          (parseSegmentSI (singleFileDir (str "segments_1")
            (encCommitPrefix exampleCommit ++ (encBE32 3 ++ (exampleCommit.minSegVersion ++
              exampleCommit.segments.flatMap (encSegment exampleCommit.formatVer)))))
            s.name)) ++
        List.replicate ((3 : Int).toNat - exampleCommit.segments.length)
          (summaryPastEnd (singleFileDir (str "segments_1")
            (encCommitPrefix exampleCommit ++ (encBE32 3 ++ (exampleCommit.minSegVersion ++
              exampleCommit.segments.flatMap (encSegment exampleCommit.formatVer)))))) ∧
    parseSegmentsFileRun 1000
        (singleFileDir (str "segments_1") (encCommitPrefix exampleCommit ++ [0, 0, 0]))
        (str "segments_1")
      = Outcome.returned (parseSegmentsFile
          (singleFileDir (str "segments_1") (encCommitPrefix exampleCommit ++ [0, 0, 0]))
          (str "segments_1")) ∧
    (parseSegmentsFile
        (singleFileDir (str "segments_1") (encCommitPrefix exampleCommit ++ [0, 0, 0]))
        (str "segments_1")).1 = [] :=
  ⟨(summaries_follow_count_granted 1000
      (singleFileDir (str "segments_1")
        (encCommitPrefix exampleCommit ++ (encBE32 3 ++ (exampleCommit.minSegVersion ++
          exampleCommit.segments.flatMap (encSegment exampleCommit.formatVer)))))
      (str "segments_1")
      (encCommitPrefix exampleCommit ++ (encBE32 3 ++ (exampleCommit.minSegVersion ++
        exampleCommit.segments.flatMap (encSegment exampleCommit.formatVer))))
      exampleCommit 3 (by decide) (by decide) (by decide) (by decide)).2.2.2.2.1
      (by decide) (by decide) rfl,
   (summaries_follow_count_granted 1000
      (singleFileDir (str "segments_1") (encCommitPrefix exampleCommit ++ [0, 0, 0]))
      (str "segments_1") (encCommitPrefix exampleCommit ++ [0, 0, 0])
      exampleCommit 0 (by decide) (by decide) (by decide) (by decide)).1,
   (summaries_follow_count_granted 1000
      (singleFileDir (str "segments_1") (encCommitPrefix exampleCommit ++ [0, 0, 0]))
      (str "segments_1") (encCommitPrefix exampleCommit ++ [0, 0, 0])
      exampleCommit 0 (by decide) (by decide) (by decide) (by decide)).2.2.2.1
      [0, 0, 0] (by decide) rfl⟩

set_option maxRecDepth 100000 in
/-- With a runtime that refuses a slice of 2^31 - 1 summaries, parseSegmentsFile
is terminated on a commit file that declares 2^31 - 1 segments and ends behind
the count. -/
theorem parseSegmentsFile_count_abort_example :
    parseSegmentsFileRun (2 ^ 31 - 2)
      (singleFileDir (str "segments_1") (encCommitPrefix exampleCommit ++ encBE32 (2 ^ 31 - 1)))
      (str "segments_1") = Outcome.aborted :=
  outcome_of_true _ _ (by decide)

end LuceneUtil
